import Mathlib

/-! # pg_collation_dependencies: a shallow embedding

The C extension `pg_collation_dependencies.c` computes, for a constraint, an
index or a materialized view, the list of collations the object depends on.
This file embeds the catalog records it reads, its expression walker and its
resolvers as Lean functions, and proves properties of them.

Conventions of the embedding:

* `Oid` is a natural number (the C type is an unsigned 32 bit integer);
  `InvalidOid` is `0`.
* `elog(ERROR, ...)` aborts the call: every resolver returns
  `Except PgError (List Oid)`.
* `Assert(...)` is compiled out of a production build and is embedded as
  nothing.
* `check_stack_depth()` is embedded as a remaining-depth counter: every
  nested call of the walker or of a resolver uses one unit and a call made
  with no unit left raises `stack_depth_limit_exceeded`.
* The catalog tables are lists of rows; a system-cache lookup is the first
  row with the key, an index scan lists the rows with the key.
* The host release `PG_VERSION_NUM` is a field of the catalog, and the
  `#if PG_VERSION_NUM` branches of the source are tests on it.
-/

namespace PgCollationDependencies

/-! ## Identifiers and constants of the host -/

/-- Object identifier of the host catalog. -/
abbrev Oid := Nat

/-- The identifier meaning "no object". -/
def InvalidOid : Oid := 0

/-- Host macro `OidIsValid`. -/
def OidIsValid (o : Oid) : Bool := o != InvalidOid

/-- Host macro `AttributeNumberIsValid`, on the attribute number read as an
integer (`InvalidAttrNumber` is `0`). -/
def AttributeNumberIsValid (attnum : Int) : Bool := attnum != 0

/-- Identifier of the `int2` type. -/
def INT2OID : Oid := 21

/-- Identifier of the anonymous `record` type. -/
def RECORDOID : Oid := 2249

/-- Identifier of the catalog `pg_type`. -/
def TypeRelationId : Oid := 1247

/-- Identifier of the catalog `pg_constraint`. -/
def ConstraintRelationId : Oid := 2606

/-- Value of `typtype` for a range type. -/
def TYPTYPE_RANGE : Char := 'r'

/-- Value of `typtype` for a multirange type. -/
def TYPTYPE_MULTIRANGE : Char := 'm'

/-- Value of `relkind` for a materialized view. -/
def RELKIND_MATVIEW : Char := 'm'

/-- Conversion of a signed 16 bit attribute number to the unsigned 32 bit
`Oid` type, as done by `Oid attnum = conkeys[i]`. -/
def int16_to_Oid (v : Int) : Oid := (v % 4294967296).toNat

/-! ## Errors -/

/-- The errors raised by the source (one constructor for each `elog` or
`ereport` site), the host errors it can meet, and the reads outside an
array that the source does not guard. -/
inductive PgError where
  | could_not_find_constraint (conid : Oid)
  | conkey_is_not_a_1D_smallint_array
  | could_not_find_range (rngid : Oid)
  | could_not_find_type (typid : Oid)
  | could_not_open_index (index_oid : Oid)
  | too_few_entries_in_indexprs_list
  | is_not_a_materialized_view (matview_oid : Oid)
  | missing_rewrite_information (matview_oid : Oid)
  | has_too_many_rules (matview_oid : Oid)
  | not_a_SELECT_INSTEAD_OF_rule (matview_oid : Oid)
  | not_a_single_action (matview_oid : Oid)
  | unexpected_node_type
  | could_not_open_relation (relid : Oid)
  | stack_depth_limit_exceeded
  | read_outside_array
  | null_pointer_dereference
  deriving DecidableEq, Repr

/-- The error taxonomy of the specification. -/
inductive ErrorClass where
  | NotFound
  | CorruptCatalog
  | UnsupportedConstruct
  | ResourceExhausted
  | MemoryFault
  deriving DecidableEq, Repr

/-- Class of an error in the taxonomy of the specification. -/
def PgError.errorClass : PgError → ErrorClass
  | .could_not_find_constraint _ => .NotFound
  | .conkey_is_not_a_1D_smallint_array => .CorruptCatalog
  | .could_not_find_range _ => .NotFound
  | .could_not_find_type _ => .NotFound
  | .could_not_open_index _ => .NotFound
  | .too_few_entries_in_indexprs_list => .CorruptCatalog
  | .is_not_a_materialized_view _ => .NotFound
  | .missing_rewrite_information _ => .CorruptCatalog
  | .has_too_many_rules _ => .CorruptCatalog
  | .not_a_SELECT_INSTEAD_OF_rule _ => .CorruptCatalog
  | .not_a_single_action _ => .CorruptCatalog
  | .unexpected_node_type => .UnsupportedConstruct
  | .could_not_open_relation _ => .NotFound
  | .stack_depth_limit_exceeded => .ResourceExhausted
  | .read_outside_array => .MemoryFault
  | .null_pointer_dereference => .MemoryFault

/-! ## Result normalizer -/

/-- Comparator `list_oid_cmp` for sorting a list into ascending OID order. -/
def list_oid_cmp (v1 v2 : Oid) : Int :=
  if v1 < v2 then -1
  else if v1 > v2 then 1
  else 0

/-- Host function `list_sort` (`list_qsort` before release 13): the list
sorted with the comparator, an element going before another when the
comparator does not return a positive number. -/
def list_sort (l : List Oid) (cmp : Oid → Oid → Int) : List Oid :=
  l.insertionSort (fun a b => cmp a b ≤ 0)

/-- The loop of `list_deduplicate_oid`: `cur` is the value of the cell `lc`
and the argument is the chain `lc->next`. A `next` cell with the value of
`lc` is unlinked, another one becomes `lc`. -/
def list_deduplicate_oid.loop (cur : Oid) : List Oid → List Oid
  | [] => [cur]
  | next :: rest =>
    if cur == next then list_deduplicate_oid.loop cur rest
    else cur :: list_deduplicate_oid.loop next rest

/-- Function `list_deduplicate_oid`: remove adjacent duplicates in a list of
OIDs. A list of length at most one is left as it is. -/
def list_deduplicate_oid : List Oid → List Oid
  | [] => []
  | [a] => [a]
  | a :: b :: rest => list_deduplicate_oid.loop a (b :: rest)

/-- The result normalizer, the last statements of every entry point:
`list_sort(res, list_oid_cmp); list_deduplicate_oid(res);`. -/
def normalize (res : List Oid) : List Oid :=
  list_deduplicate_oid (list_sort res list_oid_cmp)

/-! ## Expression nodes -/

/-- Kind of an expression node together with the fields of the node that
`pgcd_query_expression_walker` reads. One constructor for each `case` label
of the walker; `other` is a node of any other kind, with its tag. -/
inductive NodeKind where
  | T_TableFunc (colcollations coltypes : List Oid)
  | T_Var (varcollid vartype : Oid)
  | T_Const (constcollid consttype : Oid)
  | T_Param (paramcollid paramtype : Oid)
  | T_SubscriptingRef (refcollid refcontainertype refelemtype refrestype : Oid)
  | T_FuncExpr (funccollid inputcollid funcresulttype : Oid)
  | T_OpExpr (opcollid inputcollid opresulttype : Oid)
  | T_DistinctExpr (opcollid inputcollid opresulttype : Oid)
  | T_NullIfExpr (opcollid inputcollid opresulttype : Oid)
  | T_ScalarArrayOpExpr (inputcollid : Oid)
  | T_FieldSelect (resultcollid resulttype : Oid)
  | T_RelabelType (resultcollid resulttype : Oid)
  | T_CoerceViaIO (resultcollid resulttype : Oid)
  | T_ArrayCoerceExpr (resultcollid resulttype : Oid)
  | T_ConvertRowtypeExpr (resulttype : Oid)
  | T_CollateExpr (collOid : Oid)
  | T_CaseExpr (casecollid casetype : Oid)
  | T_CaseTestExpr (collation : Oid)
  | T_ArrayExpr (array_collid array_typeid : Oid)
  | T_RowExpr (row_typeid : Oid)
  | T_RowCompareExpr (inputcollids : List Oid)
  | T_CoalesceExpr (coalescecollid coalescetype : Oid)
  | T_SQLValueFunction (type : Oid)
  | T_MinMaxExpr (minmaxcollid inputcollid minmaxtype : Oid)
  | T_CoerceToDomain (resultcollid resulttype : Oid)
  | T_CoerceToDomainValue (collation typeId : Oid)
  | T_Aggref (aggcollid inputcollid aggtype : Oid)
  | T_Query
  | T_RangeTblFunction (funccolcollations funccoltypes : List Oid)
  | T_SetOperationStmt (colCollations colTypes : List Oid)
  | T_WindowFunc (wincollid inputcollid wintype : Oid)
  | T_CommonTableExpr (ctecolcollations ctecoltypes : List Oid)
  | T_JoinExpr
  | T_FromExpr
  | T_RangeTblRef
  | T_SortGroupClause
  | T_SubLink
  | T_TableSampleClause
  | T_TargetEntry
  | T_Alias
  | T_RangeVar
  | T_IntoClause
  | T_NamedArgExpr
  | T_BoolExpr
  | T_CaseWhen
  | T_XmlExpr
  | T_NullTest
  | T_BooleanTest
  | T_List
  | other (tag : Nat)

/-- An expression or query tree. `null` is the `NULL` pointer. In
`node kind children` the list `children` holds the sub-nodes that the host
tree walkers (`expression_tree_walker`, and `query_tree_walker` for a query)
pass to the callback for a node of this kind, in the order of the visit.
For a domain coercion the first child is the coerced argument `arg`. -/
inductive Node where
  | null : Node
  | node (kind : NodeKind) (children : List Node) : Node

/-- Host macro `IsA(nodeptr, Const)` on a pointer that is not `NULL`. -/
def NodeKind.isConst : NodeKind → Bool
  | .T_Const _ _ => true
  | _ => false

/-- Host macro `IsA(nodeptr, Var)` on a pointer that is not `NULL`. -/
def NodeKind.isVar : NodeKind → Bool
  | .T_Var _ _ => true
  | _ => false

/-! ## Catalog records -/

/-- Row of `pg_type` (`Form_pg_type`), the fields the source reads. -/
structure FormData_pg_type where
  oid : Oid
  typcollation : Oid
  typelem : Oid
  typbasetype : Oid
  typrelid : Oid
  typtype : Char
  deriving DecidableEq, Repr

/-- Row of `pg_attribute` (`Form_pg_attribute`), the fields the source
reads. The attribute number is negative for a system column. -/
structure FormData_pg_attribute where
  attrelid : Oid
  attnum : Int
  atttypid : Oid
  attcollation : Oid
  deriving DecidableEq, Repr

/-- An array datum (`ArrayType`) as found in `conkey`: number of
dimensions, null bitmap flag, element type and, for an array of one
dimension, its elements (`ARR_DIMS(arr)[0]` is their number). -/
structure ArrayType where
  ndim : Nat
  hasnull : Bool
  elemtype : Oid
  elems : List Int
  deriving DecidableEq, Repr

/-- Row of `pg_constraint`. `conbin` and `conkey` are nullable columns. -/
structure FormData_pg_constraint where
  oid : Oid
  conrelid : Oid
  conbin : Option Node
  conkey : Option ArrayType

/-- Row of `pg_depend` (`Form_pg_depend`), the fields the source reads. -/
structure FormData_pg_depend where
  classid : Oid
  objid : Oid
  refclassid : Oid
  refobjid : Oid
  deriving DecidableEq, Repr

/-- Row of `pg_range` (`Form_pg_range`), the fields the source reads. -/
structure FormData_pg_range where
  rngtypid : Oid
  rngsubtype : Oid
  rngmultitypid : Oid
  rngcollation : Oid
  deriving DecidableEq, Repr

/-- Row of `pg_index` (`Form_pg_index`). `indcollation`, `indexprs` and
`indpred` are read with `SysCacheGetAttr` and can be null; `indexprs` is the
list of expressions that `stringToNode` returns. -/
structure FormData_pg_index where
  indexrelid : Oid
  indrelid : Oid
  indnkeyatts : Nat
  indkey : List Int
  indcollation : Option (List Oid)
  indexprs : Option (List Node)
  indpred : Option Node

/-- Command type of a rewrite rule (`CmdType`). -/
inductive CmdType where
  | CMD_UNKNOWN | CMD_SELECT | CMD_UPDATE | CMD_INSERT | CMD_DELETE
  | CMD_UTILITY | CMD_NOTHING
  deriving DecidableEq, Repr

/-- A rewrite rule of a relation (`RewriteRule`). -/
structure RewriteRule where
  event : CmdType
  isInstead : Bool
  actions : List Node

/-- Row of `pg_class` with the rules of the relation cache entry:
`rd_rules` lists `rd_rules->rules`, and `rd_rules->numLocks` is its
length. -/
structure FormData_pg_class where
  oid : Oid
  relkind : Char
  relhasrules : Bool
  rd_rules : List RewriteRule

/-- The catalog of the host, read-only for a call, and the release of the
host. -/
structure Catalog where
  PG_VERSION_NUM : Nat
  pg_type : List FormData_pg_type
  pg_attribute : List FormData_pg_attribute
  pg_constraint : List FormData_pg_constraint
  pg_depend : List FormData_pg_depend
  pg_range : List FormData_pg_range
  pg_index : List FormData_pg_index
  pg_class : List FormData_pg_class

/-! ## Catalog access -/

/-- Host call `SearchSysCache1(TYPEOID, typid)`. -/
def SearchSysCache1_TYPEOID (cat : Catalog) (typid : Oid) : Option FormData_pg_type :=
  cat.pg_type.find? (fun t => t.oid == typid)

/-- Host call `SearchSysCache1(INDEXRELID, index_oid)`. -/
def SearchSysCache1_INDEXRELID (cat : Catalog) (index_oid : Oid) : Option FormData_pg_index :=
  cat.pg_index.find? (fun t => t.indexrelid == index_oid)

/-- Scan of `pg_attribute` on `attrelid = relid` through the index on
`(attrelid, attnum)`: the rows of the relation in attribute number order. -/
def scan_pg_attribute (cat : Catalog) (relid : Oid) : List FormData_pg_attribute :=
  (cat.pg_attribute.filter (fun a => a.attrelid == relid)).insertionSort
    (fun a b => a.attnum ≤ b.attnum)

/-- Scan of `pg_constraint` on `oid = conid`, first row. -/
def scan_pg_constraint (cat : Catalog) (conid : Oid) : Option FormData_pg_constraint :=
  cat.pg_constraint.find? (fun c => c.oid == conid)

/-- Scan of `pg_depend` on `refclassid = TypeRelationId` and
`refobjid = typid`. -/
def scan_pg_depend (cat : Catalog) (typid : Oid) : List FormData_pg_depend :=
  cat.pg_depend.filter (fun d => d.refclassid == TypeRelationId && d.refobjid == typid)

/-- Scan of `pg_range`, first row: on `rngmultitypid = rngid` for a
multirange on release 14 or later, on `rngtypid = rngid` otherwise. -/
def scan_pg_range (cat : Catalog) (rngid : Oid) (ismultirange : Bool) : Option FormData_pg_range :=
  if cat.PG_VERSION_NUM ≥ 140000 && ismultirange then
    cat.pg_range.find? (fun r => r.rngmultitypid == rngid)
  else
    cat.pg_range.find? (fun r => r.rngtypid == rngid)

/-- Host call `get_atttype(relid, attnum)`: type of the attribute, or
`InvalidOid` when the relation has no such attribute. -/
def get_atttype (cat : Catalog) (relid : Oid) (attnum : Int) : Oid :=
  match cat.pg_attribute.find? (fun a => a.attrelid == relid && a.attnum == attnum) with
  | some a => a.atttypid
  | none => InvalidOid

/-- Tuple descriptor `rd_att` of an open relation: its user attributes
(positive attribute number) in attribute number order. -/
def rd_att (cat : Catalog) (relid : Oid) : List FormData_pg_attribute :=
  (scan_pg_attribute cat relid).filter (fun a => 0 < a.attnum)

/-- Host calls `relation_open` and `table_open`: the row of `pg_class`, or
an error when there is no relation with this identifier. -/
def relation_open (cat : Catalog) (relid : Oid) : Except PgError FormData_pg_class :=
  match cat.pg_class.find? (fun c => c.oid == relid) with
  | some c => .ok c
  | none => .error (.could_not_open_relation relid)

/-- Host macro `TupleDescAttr(tupdesc, i)`, a read of `tupdesc->attrs[i]`;
a read outside the array is an error of its own. -/
def TupleDescAttr (tupdesc : List FormData_pg_attribute) (i : Nat) :
    Except PgError FormData_pg_attribute :=
  match tupdesc.get? i with
  | some a => .ok a
  | none => .error .read_outside_array

/-! ## Expression walker and resolvers -/

/-- Macro `APPEND_COLL(l, o)`: append `o` when it is a valid identifier. -/
def APPEND_COLL (l : List Oid) (o : Oid) : List Oid :=
  if OidIsValid o then l ++ [o] else l

/-- Macro `APPEND_TYPE_COLLS(l, o)`: concatenate the collations of type `o`;
`type_collations` is `pgcd_get_type_collations` at the depth of the call. -/
def APPEND_TYPE_COLLS (type_collations : Oid → Except PgError (List Oid))
    (l : List Oid) (o : Oid) : Except PgError (List Oid) := do
  let r ← type_collations o
  pure (l ++ r)

/-- The `switch (node->type)` of `pgcd_query_expression_walker`: what a node
of each kind appends to `context->collations` before the children are
visited. The `default` label raises the unexpected node type error. -/
def walker_switch (PG_VERSION_NUM : Nat)
    (type_collations : Oid → Except PgError (List Oid))
    (collations : List Oid) : NodeKind → Except PgError (List Oid)
  | .T_TableFunc colcollations coltypes => do
    let l := colcollations.foldl APPEND_COLL collations
    coltypes.foldlM (APPEND_TYPE_COLLS type_collations) l
  | .T_Var varcollid vartype =>
    APPEND_TYPE_COLLS type_collations (APPEND_COLL collations varcollid) vartype
  | .T_Const constcollid consttype =>
    APPEND_TYPE_COLLS type_collations (APPEND_COLL collations constcollid) consttype
  | .T_Param paramcollid paramtype =>
    APPEND_TYPE_COLLS type_collations (APPEND_COLL collations paramcollid) paramtype
  | .T_SubscriptingRef refcollid refcontainertype refelemtype refrestype =>
    if PG_VERSION_NUM ≥ 120000 then
      let l := APPEND_COLL collations refcollid
      let l := APPEND_COLL l refcontainertype
      let l := APPEND_COLL l refelemtype
      if PG_VERSION_NUM ≥ 140000 then pure (APPEND_COLL l refrestype) else pure l
    else .error .unexpected_node_type
  | .T_FuncExpr funccollid inputcollid funcresulttype =>
    APPEND_TYPE_COLLS type_collations
      (APPEND_COLL (APPEND_COLL collations funccollid) inputcollid) funcresulttype
  | .T_OpExpr opcollid inputcollid opresulttype =>
    APPEND_TYPE_COLLS type_collations
      (APPEND_COLL (APPEND_COLL collations opcollid) inputcollid) opresulttype
  | .T_DistinctExpr opcollid inputcollid opresulttype =>
    APPEND_TYPE_COLLS type_collations
      (APPEND_COLL (APPEND_COLL collations opcollid) inputcollid) opresulttype
  | .T_NullIfExpr opcollid inputcollid opresulttype =>
    APPEND_TYPE_COLLS type_collations
      (APPEND_COLL (APPEND_COLL collations opcollid) inputcollid) opresulttype
  | .T_ScalarArrayOpExpr inputcollid => pure (APPEND_COLL collations inputcollid)
  | .T_FieldSelect resultcollid resulttype =>
    APPEND_TYPE_COLLS type_collations (APPEND_COLL collations resultcollid) resulttype
  | .T_RelabelType resultcollid resulttype =>
    APPEND_TYPE_COLLS type_collations (APPEND_COLL collations resultcollid) resulttype
  | NodeKind.T_CoerceViaIO resultcollid resulttype =>
    APPEND_TYPE_COLLS type_collations (APPEND_COLL collations resultcollid) resulttype
  | .T_ArrayCoerceExpr resultcollid resulttype =>
    APPEND_TYPE_COLLS type_collations (APPEND_COLL collations resultcollid) resulttype
  | .T_ConvertRowtypeExpr resulttype =>
    APPEND_TYPE_COLLS type_collations collations resulttype
  | .T_CollateExpr collOid => pure (APPEND_COLL collations collOid)
  | .T_CaseExpr casecollid casetype =>
    APPEND_TYPE_COLLS type_collations (APPEND_COLL collations casecollid) casetype
  | .T_CaseTestExpr collation => pure (APPEND_COLL collations collation)
  | .T_ArrayExpr array_collid array_typeid =>
    APPEND_TYPE_COLLS type_collations (APPEND_COLL collations array_collid) array_typeid
  | .T_RowExpr row_typeid =>
    if row_typeid != RECORDOID then
      APPEND_TYPE_COLLS type_collations collations row_typeid
    else pure collations
  | .T_RowCompareExpr inputcollids => pure (inputcollids.foldl APPEND_COLL collations)
  | .T_CoalesceExpr coalescecollid coalescetype =>
    APPEND_TYPE_COLLS type_collations (APPEND_COLL collations coalescecollid) coalescetype
  | .T_SQLValueFunction type =>
    if PG_VERSION_NUM < 160000 then pure (APPEND_COLL collations type)
    else .error .unexpected_node_type
  | .T_MinMaxExpr minmaxcollid inputcollid minmaxtype =>
    APPEND_TYPE_COLLS type_collations
      (APPEND_COLL (APPEND_COLL collations minmaxcollid) inputcollid) minmaxtype
  | .T_CoerceToDomain resultcollid resulttype =>
    APPEND_TYPE_COLLS type_collations (APPEND_COLL collations resultcollid) resulttype
  | .T_CoerceToDomainValue collation typeId =>
    APPEND_TYPE_COLLS type_collations (APPEND_COLL collations collation) typeId
  | .T_Aggref aggcollid inputcollid aggtype =>
    APPEND_TYPE_COLLS type_collations
      (APPEND_COLL (APPEND_COLL collations aggcollid) inputcollid) aggtype
  | .T_Query => pure collations
  | .T_RangeTblFunction funccolcollations funccoltypes => do
    let l := funccolcollations.foldl APPEND_COLL collations
    funccoltypes.foldlM (APPEND_TYPE_COLLS type_collations) l
  | .T_SetOperationStmt colCollations colTypes => do
    let l := colCollations.foldl APPEND_COLL collations
    colTypes.foldlM (APPEND_TYPE_COLLS type_collations) l
  | .T_WindowFunc wincollid inputcollid wintype =>
    APPEND_TYPE_COLLS type_collations
      (APPEND_COLL (APPEND_COLL collations wincollid) inputcollid) wintype
  | .T_CommonTableExpr ctecolcollations ctecoltypes => do
    let l := ctecolcollations.foldl APPEND_COLL collations
    ctecoltypes.foldlM (APPEND_TYPE_COLLS type_collations) l
  | .T_JoinExpr => pure collations
  | .T_FromExpr => pure collations
  | .T_RangeTblRef => pure collations
  | .T_SortGroupClause => pure collations
  | .T_SubLink => pure collations
  | .T_TableSampleClause => pure collations
  | .T_TargetEntry => pure collations
  | .T_Alias => pure collations
  | .T_RangeVar => pure collations
  | .T_IntoClause => pure collations
  | .T_NamedArgExpr => pure collations
  | .T_BoolExpr => pure collations
  | .T_CaseWhen => pure collations
  | .T_XmlExpr => pure collations
  | .T_NullTest => pure collations
  | .T_BooleanTest => pure collations
  | .T_List => pure collations
  | .other _ => .error .unexpected_node_type

/-- Host functions `expression_tree_walker` and `query_tree_walker`: the
callback `walker` is applied to the children of the node in order, with the
collector threaded through. -/
def tree_walker (walker : Node → List Oid → Except PgError (List Oid))
    (children : List Node) (collations : List Oid) : Except PgError (List Oid) :=
  children.foldlM (fun l child => walker child l) collations

/-- The test of the domain coercion case on `coerce->arg`, the first child:
`IsA(coerce->arg, Const) || IsA(coerce->arg, Var)`. The macro reads the tag
through the pointer, so a `NULL` argument is a dereference of `NULL`. -/
def coerce_arg_is_scalar_reference : List Node → Except PgError Bool
  | Node.node kind _ :: _ => pure (kind.isConst || kind.isVar)
  | _ => .error .null_pointer_dereference

/-- Function `pgcd_get_query_expression_collations`, with the walker at the
depth of the call as `walker`: `query_or_expression_tree_walker` goes
through `query_tree_walker` for a query and calls the walker on any other
node, starting from the empty collector. -/
def pgcd_get_query_expression_collations
    (walker : Node → List Oid → Except PgError (List Oid)) (expr : Node) :
    Except PgError (List Oid) :=
  match expr with
  | Node.node .T_Query children => tree_walker walker children []
  | _ => walker expr []

/-- The body of the loop of `pgcd_get_rel_collations` for one row of
`pg_attribute`. -/
def pgcd_get_rel_collations.body (type_collations : Oid → Except PgError (List Oid))
    (res : List Oid) (pg_att : FormData_pg_attribute) : Except PgError (List Oid) :=
  if pg_att.attnum < 0 then pure res
  else
    let res := if OidIsValid pg_att.attcollation then res ++ [pg_att.attcollation] else res
    APPEND_TYPE_COLLS type_collations res pg_att.atttypid

/-- The body of the loop of `pgcd_get_constraint_collations` over the
elements of `conkey`, for the element `conkey`. -/
def pgcd_get_constraint_collations.body (type_collations : Oid → Except PgError (List Oid))
    (tupdesc : List FormData_pg_attribute)
    (res : List Oid) (conkey : Int) : Except PgError (List Oid) :=
  let attnum : Oid := int16_to_Oid conkey
  if !AttributeNumberIsValid attnum then pure res
  else do
    let att ← TupleDescAttr tupdesc (attnum - 1)
    APPEND_TYPE_COLLS type_collations res att.atttypid

/-- The body of the scan of `pg_depend` in `pgcd_get_type_collations` for
one row. -/
def pgcd_get_type_collations.body
    (constraint_collations : Oid → Except PgError (List Oid))
    (res : List Oid) (pg_depend : FormData_pg_depend) : Except PgError (List Oid) :=
  if pg_depend.classid != ConstraintRelationId then pure res
  else do
    let r ← constraint_collations pg_depend.objid
    pure (res ++ r)

/-- The test of the last branch of `pgcd_get_type_collations`: the type is
a range, or a multirange on release 14 or later. -/
def is_range_typtype (PG_VERSION_NUM : Nat) (typtype : Char) : Bool :=
  typtype == TYPTYPE_RANGE || (PG_VERSION_NUM ≥ 140000 && typtype == TYPTYPE_MULTIRANGE)

/-- The first part of `pgcd_get_constraint_collations`: the collations of
the stored expression `conbin`, if any; `walker` is the walker at the depth
of the call. -/
def pgcd_get_constraint_collations.expression
    (walker : Node → List Oid → Except PgError (List Oid)) :
    Option Node → Except PgError (List Oid)
  | some node => pgcd_get_query_expression_collations walker node
  | none => pure []

/-- The second part of `pgcd_get_constraint_collations`: the collations for
the underlying keys `conkey`, if any, concatenated to `res`. The relation
of the constraint is opened, then the shape of the array is checked, then
the elements are visited. -/
def pgcd_get_constraint_collations.keys (cat : Catalog)
    (type_collations : Oid → Except PgError (List Oid))
    (tup : FormData_pg_constraint) (res : List Oid) : Except PgError (List Oid) :=
  match tup.conkey with
  | none => pure res
  | some arr => do
    let _rel ← relation_open cat tup.conrelid
    if arr.ndim != 1 || arr.hasnull || arr.elemtype != INT2OID then
      .error .conkey_is_not_a_1D_smallint_array
    else
      arr.elems.foldlM
        (pgcd_get_constraint_collations.body type_collations (rd_att cat tup.conrelid)) res

/-- The chain of tests of `pgcd_get_type_collations` on the row of the
type: the recorded collation when it is valid, otherwise the element type,
otherwise the base type, otherwise the relation of a composite type,
otherwise the range record of a range type. The three resolvers are passed
at the depth of the call. -/
def pgcd_get_type_collations.primary (PG_VERSION_NUM : Nat)
    (type_collations rel_collations : Oid → Except PgError (List Oid))
    (range_type_collations : Oid → Bool → Except PgError (List Oid))
    (typtup : FormData_pg_type) : Except PgError (List Oid) :=
  if OidIsValid typtup.typcollation then pure [typtup.typcollation]
  else if OidIsValid typtup.typelem then type_collations typtup.typelem
  else if OidIsValid typtup.typbasetype then type_collations typtup.typbasetype
  else if OidIsValid typtup.typrelid then rel_collations typtup.typrelid
  else if is_range_typtype PG_VERSION_NUM typtup.typtype then
    range_type_collations typtup.oid (typtup.typtype != TYPTYPE_RANGE)
  else pure []

mutual

/-- Function `pgcd_query_expression_walker`: collect the collations of the
node, then visit its children. The first argument is the remaining stack
depth. -/
def pgcd_query_expression_walker (cat : Catalog) :
    Nat → Node → List Oid → Except PgError (List Oid)
  | 0, _, _ => .error .stack_depth_limit_exceeded
  | _ + 1, Node.null, collations => pure collations
  | depth + 1, Node.node kind children, collations => do
    let collations ← walker_switch cat.PG_VERSION_NUM
      (pgcd_get_type_collations cat depth) collations kind
    match kind with
    | .T_CoerceToDomain _ _ =>
      if (← coerce_arg_is_scalar_reference children) then pure collations
      else tree_walker (pgcd_query_expression_walker cat depth) children collations
    | _ => tree_walker (pgcd_query_expression_walker cat depth) children collations
termination_by structural depth => depth

/-- Function `pgcd_get_rel_collations`: collations of a composite type or
relation, from its column list. -/
def pgcd_get_rel_collations (cat : Catalog) : Nat → Oid → Except PgError (List Oid)
  | 0, _ => .error .stack_depth_limit_exceeded
  | depth + 1, relid =>
    (scan_pg_attribute cat relid).foldlM
      (pgcd_get_rel_collations.body (pgcd_get_type_collations cat depth)) []
termination_by structural depth => depth

/-- Function `pgcd_get_constraint_collations`: collations of the stored
expression of a constraint, then of the types of its key attributes. -/
def pgcd_get_constraint_collations (cat : Catalog) : Nat → Oid → Except PgError (List Oid)
  | 0, _ => .error .stack_depth_limit_exceeded
  | depth + 1, conid =>
    match scan_pg_constraint cat conid with
    | none => .error (.could_not_find_constraint conid)
    | some tup => do
      let res ← pgcd_get_constraint_collations.expression
        (pgcd_query_expression_walker cat depth) tup.conbin
      pgcd_get_constraint_collations.keys cat (pgcd_get_type_collations cat depth) tup res
termination_by structural depth => depth

/-- Function `pgcd_get_range_type_collations`: collations of a range or
multirange type. -/
def pgcd_get_range_type_collations (cat : Catalog) :
    Nat → Oid → Bool → Except PgError (List Oid)
  | 0, _, _ => .error .stack_depth_limit_exceeded
  | depth + 1, rngid, ismultirange =>
    match scan_pg_range cat rngid ismultirange with
    | none => .error (.could_not_find_range rngid)
    | some pg_range =>
      let res := if OidIsValid pg_range.rngcollation then [pg_range.rngcollation] else []
      APPEND_TYPE_COLLS (pgcd_get_type_collations cat depth) res pg_range.rngsubtype
termination_by structural depth => depth

/-- Function `pgcd_get_type_collations`: collations of a type, then of
every constraint that `pg_depend` records on the type. -/
def pgcd_get_type_collations (cat : Catalog) : Nat → Oid → Except PgError (List Oid)
  | 0, _ => .error .stack_depth_limit_exceeded
  | depth + 1, typid =>
    match SearchSysCache1_TYPEOID cat typid with
    | none => .error (.could_not_find_type typid)
    | some typtup => do
      let res ← pgcd_get_type_collations.primary cat.PG_VERSION_NUM
        (pgcd_get_type_collations cat depth) (pgcd_get_rel_collations cat depth)
        (pgcd_get_range_type_collations cat depth) typtup
      (scan_pg_depend cat typid).foldlM
        (pgcd_get_type_collations.body (pgcd_get_constraint_collations cat depth)) res
termination_by structural depth => depth

end

/-! ## Entry points -/

/-- Function `pgcd_constraint_deps`: the collations of a constraint, sorted
and without duplicates. -/
def pgcd_constraint_deps (cat : Catalog) (depth : Nat) (constraint_oid : Oid) :
    Except PgError (List Oid) := do
  let res ← pgcd_get_constraint_collations cat depth constraint_oid
  pure (normalize res)

/-- The body of the loop of `pgcd_index_deps` over the key columns, for the
column `i`. The state is the list `res` and the cursor `indexpr_item` into
the expression list (the entries not consumed yet). -/
def pgcd_index_deps.body (cat : Catalog) (depth : Nat) (rd_index : FormData_pg_index)
    (state : List Oid × List Node) (i : Nat) : Except PgError (List Oid × List Node) :=
  let res := state.1
  let indexpr_item := state.2
  match rd_index.indkey.get? i with
  | none => .error .read_outside_array
  | some indkey =>
    if AttributeNumberIsValid indkey then
      let typid := get_atttype cat rd_index.indrelid indkey
      match rd_index.indcollation with
      | some indcollation =>
        match indcollation.get? i with
        | none => .error .read_outside_array
        | some coll =>
          if OidIsValid coll then pure (res ++ [coll], indexpr_item)
          else do
            let r ← pgcd_get_type_collations cat depth typid
            pure (res ++ r, indexpr_item)
      | none => do
        let r ← pgcd_get_type_collations cat depth typid
        pure (res ++ r, indexpr_item)
    else
      match indexpr_item with
      | [] => .error .too_few_entries_in_indexprs_list
      | indexkey :: next => do
        let r ← pgcd_get_query_expression_collations
          (pgcd_query_expression_walker cat depth) indexkey
        pure (res ++ r, next)

/-- Function `pgcd_index_deps`: the collations of an index, from its key
columns, its expressions and its predicate, sorted and without duplicates. -/
def pgcd_index_deps (cat : Catalog) (depth : Nat) (index_oid : Oid) :
    Except PgError (List Oid) :=
  match SearchSysCache1_INDEXRELID cat index_oid with
  | none => .error (.could_not_open_index index_oid)
  | some rd_index => do
    let indexprs := match rd_index.indexprs with
      | some l => l
      | none => []
    let state ← (List.range rd_index.indnkeyatts).foldlM
      (pgcd_index_deps.body cat depth rd_index) ([], indexprs)
    let res ← match rd_index.indpred with
      | some indpred => do
        let r ← pgcd_get_query_expression_collations
          (pgcd_query_expression_walker cat depth) indpred
        pure (state.1 ++ r)
      | none => pure state.1
    pure (normalize res)

/-- Function `pgcd_matview_deps`: the collations of the query of a
materialized view, sorted and without duplicates. -/
def pgcd_matview_deps (cat : Catalog) (depth : Nat) (matview_oid : Oid) :
    Except PgError (List Oid) := do
  let matviewRel ← relation_open cat matview_oid
  if matviewRel.relkind != RELKIND_MATVIEW then
    .error (.is_not_a_materialized_view matview_oid)
  else if matviewRel.relhasrules == false || matviewRel.rd_rules.length < 1 then
    .error (.missing_rewrite_information matview_oid)
  else if matviewRel.rd_rules.length > 1 then
    .error (.has_too_many_rules matview_oid)
  else
    match matviewRel.rd_rules with
    | [] => .error (.missing_rewrite_information matview_oid)
    | rule :: _ =>
      if rule.event != CmdType.CMD_SELECT || !rule.isInstead then
        .error (.not_a_SELECT_INSTEAD_OF_rule matview_oid)
      else
        match rule.actions with
        | [dataQuery] => do
          let res ← pgcd_get_query_expression_collations
            (pgcd_query_expression_walker cat depth) dataQuery
          pure (normalize res)
        | _ => .error (.not_a_single_action matview_oid)

/-- Entry point `pg_collation_constraint_dependencies`: one row for each
element of the list of `pgcd_constraint_deps`, in its order. -/
def pg_collation_constraint_dependencies (cat : Catalog) (depth : Nat)
    (constraint_oid : Oid) : Except PgError (List Oid) :=
  pgcd_constraint_deps cat depth constraint_oid

/-- Entry point `pg_collation_index_dependencies`: one row for each element
of the list of `pgcd_index_deps`, in its order. -/
def pg_collation_index_dependencies (cat : Catalog) (depth : Nat)
    (index_oid : Oid) : Except PgError (List Oid) :=
  pgcd_index_deps cat depth index_oid

/-- Entry point `pg_collation_matview_dependencies`: one row for each
element of the list of `pgcd_matview_deps`, in its order. -/
def pg_collation_matview_dependencies (cat : Catalog) (depth : Nat)
    (matview_oid : Oid) : Except PgError (List Oid) :=
  pgcd_matview_deps cat depth matview_oid

/-! ## A fixture catalog

The relation `T(a text, b int[])` of the end-to-end properties of the
specification, with a check constraint `CHECK (a <> '')` and an index on
`a`. The collation of `text`, of the column `a` and of the literal is the
parameter `C1`. -/

/-- Identifier of the type `bool`. -/
def BOOLOID : Oid := 16

/-- Identifier of the type `int4`. -/
def INT4OID : Oid := 23

/-- Identifier of the type `text`. -/
def TEXTOID : Oid := 25

/-- Identifier of the type `int4[]`. -/
def INT4ARRAYOID : Oid := 1007

/-- The stored expression of `CHECK (a <> '')`: an operator call of result
type `bool` and input collation `C1` over a variable reference to `a` and a
literal of type `text`. -/
def fixture_check_expr (C1 : Oid) : Node :=
  Node.node (.T_OpExpr InvalidOid C1 BOOLOID)
    [Node.node (.T_Var C1 TEXTOID) [], Node.node (.T_Const C1 TEXTOID) []]

/-- The fixture catalog: relation `16384` is `T`, constraint `16390` is the
check constraint with key list `[a]`, index `16391` is an index on `a` with
no collation of its own, no expression and no predicate, index `16392` is
an index on `(a, a)` with the collations `950` and `100` on its columns,
index `16393` is an index on `a` with the collation `950` on its column. -/
def fixture (C1 : Oid) : Catalog where
  PG_VERSION_NUM := 150000
  pg_type :=
    [ { oid := BOOLOID, typcollation := 0, typelem := 0, typbasetype := 0,
        typrelid := 0, typtype := 'b' },
      { oid := INT4OID, typcollation := 0, typelem := 0, typbasetype := 0,
        typrelid := 0, typtype := 'b' },
      { oid := TEXTOID, typcollation := C1, typelem := 0, typbasetype := 0,
        typrelid := 0, typtype := 'b' },
      { oid := INT4ARRAYOID, typcollation := 0, typelem := INT4OID, typbasetype := 0,
        typrelid := 0, typtype := 'b' } ]
  pg_attribute :=
    [ { attrelid := 16384, attnum := 1, atttypid := TEXTOID, attcollation := C1 },
      { attrelid := 16384, attnum := 2, atttypid := INT4ARRAYOID, attcollation := 0 } ]
  pg_constraint :=
    [ { oid := 16390, conrelid := 16384, conbin := some (fixture_check_expr C1),
        conkey := some { ndim := 1, hasnull := false, elemtype := INT2OID, elems := [1] } } ]
  pg_depend := []
  pg_range := []
  pg_index :=
    [ { indexrelid := 16391, indrelid := 16384, indnkeyatts := 1, indkey := [1],
        indcollation := some [0], indexprs := none, indpred := none },
      { indexrelid := 16392, indrelid := 16384, indnkeyatts := 2, indkey := [1, 1],
        indcollation := some [950, 100], indexprs := none, indpred := none },
      { indexrelid := 16393, indrelid := 16384, indnkeyatts := 1, indkey := [1],
        indcollation := some [950], indexprs := none, indpred := none } ]
  pg_class :=
    [ { oid := 16384, relkind := 'r', relhasrules := false, rd_rules := [] } ]

/-- A catalog with the relation `16400`, of one column `a text COLLATE 950`
where the collation of the type `text` is `100`, and the constraint `16401`
on it with the key list `[a]` and no stored expression (a unique or foreign
key constraint). -/
def fixture_keyed : Catalog where
  PG_VERSION_NUM := 150000
  pg_type :=
    [ { oid := TEXTOID, typcollation := 100, typelem := 0, typbasetype := 0,
        typrelid := 0, typtype := 'b' } ]
  pg_attribute :=
    [ { attrelid := 16400, attnum := 1, atttypid := TEXTOID, attcollation := 950 } ]
  pg_constraint :=
    [ { oid := 16401, conrelid := 16400, conbin := none,
        conkey := some { ndim := 1, hasnull := false, elemtype := INT2OID, elems := [1] } } ]
  pg_depend := []
  pg_range := []
  pg_index := []
  pg_class :=
    [ { oid := 16400, relkind := 'r', relhasrules := false, rd_rules := [] } ]

/-- The rows of the scan of `pg_depend` for a type that the loop of
`pgcd_get_type_collations` does not skip: the dependency edges whose
referenced object is the type and whose referencing object is a
constraint. -/
def listConstraintDependents (cat : Catalog) (typid : Oid) : List FormData_pg_depend :=
  (scan_pg_depend cat typid).filter (fun e => e.classid == ConstraintRelationId)

/-- The priority rule for the primary contribution of a type as the
specification words it: the declared collation, else the element type, else
the base type, else the composite relation, else the range subtype, in that
order and with no test on the kind of the type. The range record is the one
of a multirange when the type is a multirange. -/
def primary_spec (cat : Catalog) (depth : Nat) (typtup : FormData_pg_type) :
    Except PgError (List Oid) :=
  if OidIsValid typtup.typcollation then pure [typtup.typcollation]
  else if OidIsValid typtup.typelem then pgcd_get_type_collations cat depth typtup.typelem
  else if OidIsValid typtup.typbasetype then
    pgcd_get_type_collations cat depth typtup.typbasetype
  else if OidIsValid typtup.typrelid then pgcd_get_rel_collations cat depth typtup.typrelid
  else pgcd_get_range_type_collations cat depth typtup.oid
    (typtup.typtype == TYPTYPE_MULTIRANGE)

/-- The result of the type resolver as the specification words it: the
primary contribution of `primary_spec` followed by the result of the
constraint resolver for every edge of `listConstraintDependents`. -/
def type_collations_spec (cat : Catalog) (depth : Nat) (typtup : FormData_pg_type) :
    Except PgError (List Oid) := do
  let primary ← primary_spec cat depth typtup
  let cs ← (listConstraintDependents cat typtup.oid).mapM
    (fun e => pgcd_get_constraint_collations cat depth e.objid)
  pure (primary ++ cs.flatten)

/-- The row of `pg_type` of identifier `16600` in `fixture_range`: no
collation, element type, base type or relation of its own, and the kind
`typtype`. -/
def fixture_range_type (typtype : Char) : FormData_pg_type :=
  { oid := 16600, typcollation := 0, typelem := 0, typbasetype := 0, typrelid := 0,
    typtype := typtype }

/-- A catalog with the type `16600`, of kind `typtype`, and a row of
`pg_range` that makes it a range over `text` with the collation `950`; the
collation of `text` is `100`. With `typtype = 'r'` this is a range type. -/
def fixture_range (typtype : Char) : Catalog where
  PG_VERSION_NUM := 150000
  pg_type :=
    [ { oid := TEXTOID, typcollation := 100, typelem := 0, typbasetype := 0,
        typrelid := 0, typtype := 'b' },
      fixture_range_type typtype ]
  pg_attribute := []
  pg_constraint := []
  pg_depend := []
  pg_range :=
    [ { rngtypid := 16600, rngsubtype := TEXTOID, rngmultitypid := 16601,
        rngcollation := 950 } ]
  pg_index := []
  pg_class := []

/-- The stored expression of the check constraint of the domain of
`fixture_domain`, `CHECK (VALUE <> '' COLLATE 950)`: an operator call of
result type `bool` and input collation `950` over the domain value, of type
`text`, and a collate clause over a literal. -/
def fixture_domain_check_expr : Node :=
  Node.node (.T_OpExpr InvalidOid 950 BOOLOID)
    [Node.node (.T_CoerceToDomainValue 100 TEXTOID) [],
     Node.node (.T_CollateExpr 950) [Node.node (.T_Const 100 TEXTOID) []]]

/-- A catalog with the domain `16700` over `text`, with no collation
recorded on the domain, and its check constraint `16701`, recorded in
`pg_depend` as depending on the domain; the collation of `text` is `100`.
The relation `16710` has the single column `x` of type `text` and collation
`100`, and the system column `ctid`. -/
def fixture_domain : Catalog where
  PG_VERSION_NUM := 150000
  pg_type :=
    [ { oid := BOOLOID, typcollation := 0, typelem := 0, typbasetype := 0,
        typrelid := 0, typtype := 'b' },
      { oid := TEXTOID, typcollation := 100, typelem := 0, typbasetype := 0,
        typrelid := 0, typtype := 'b' },
      { oid := 27, typcollation := 0, typelem := 0, typbasetype := 0,
        typrelid := 0, typtype := 'b' },
      { oid := 16700, typcollation := 0, typelem := 0, typbasetype := TEXTOID,
        typrelid := 0, typtype := 'd' } ]
  pg_attribute :=
    [ { attrelid := 16710, attnum := 1, atttypid := TEXTOID, attcollation := 100 },
      { attrelid := 16710, attnum := -1, atttypid := 27, attcollation := 0 } ]
  pg_constraint :=
    [ { oid := 16701, conrelid := 0, conbin := some fixture_domain_check_expr,
        conkey := none } ]
  pg_depend :=
    [ { classid := ConstraintRelationId, objid := 16701, refclassid := TypeRelationId,
        refobjid := 16700 },
      { classid := 1259, objid := 16710, refclassid := TypeRelationId,
        refobjid := 16700 } ]
  pg_range := []
  pg_index := []
  pg_class :=
    [ { oid := 16710, relkind := 'r', relhasrules := false, rd_rules := [] } ]

/-- A catalog with a composite type `16800` that has no attribute at all
(`CREATE TYPE ... AS ()`): its relation `16801` has no row in
`pg_attribute`, a composite type having no system column. -/
def fixture_empty_composite : Catalog where
  PG_VERSION_NUM := 150000
  pg_type :=
    [ { oid := 16800, typcollation := 0, typelem := 0, typbasetype := 0,
        typrelid := 16801, typtype := 'c' } ]
  pg_attribute := []
  pg_constraint := []
  pg_depend := []
  pg_range := []
  pg_index := []
  pg_class :=
    [ { oid := 16801, relkind := 'c', relhasrules := false, rd_rules := [] } ]

/-- A catalog with the relation `16900`, of one column `a text`, and three
constraints on it: `16901` has the key list `[0]` and no stored expression,
`16902` has the key list `[0, 1]` and the stored expression of a check on
the whole row (a null test over a variable of the row type `16905` of the
relation), `16903` has neither a key list nor a stored expression. The
collation of `text` is `100`. -/
def fixture_wholerow : Catalog where
  PG_VERSION_NUM := 150000
  pg_type :=
    [ { oid := BOOLOID, typcollation := 0, typelem := 0, typbasetype := 0,
        typrelid := 0, typtype := 'b' },
      { oid := TEXTOID, typcollation := 100, typelem := 0, typbasetype := 0,
        typrelid := 0, typtype := 'b' },
      { oid := 16905, typcollation := 0, typelem := 0, typbasetype := 0,
        typrelid := 16900, typtype := 'c' } ]
  pg_attribute :=
    [ { attrelid := 16900, attnum := 1, atttypid := TEXTOID, attcollation := 100 } ]
  pg_constraint :=
    [ { oid := 16901, conrelid := 16900, conbin := none,
        conkey := some { ndim := 1, hasnull := false, elemtype := INT2OID, elems := [0] } },
      { oid := 16902, conrelid := 16900,
        conbin := some (Node.node NodeKind.T_NullTest
          [Node.node (NodeKind.T_Var 0 16905) []]),
        conkey :=
          some { ndim := 1, hasnull := false, elemtype := INT2OID, elems := [0, 1] } },
      { oid := 16903, conrelid := 16900, conbin := none, conkey := none } ]
  pg_depend := []
  pg_range := []
  pg_index := []
  pg_class :=
    [ { oid := 16900, relkind := 'r', relhasrules := false, rd_rules := [] } ]

/-- What the raising site of an error says about the catalog: an error for
an object that was not found is justified when the catalog has no such
object. The other errors carry no such statement. -/
def ErrorJustified (cat : Catalog) : PgError → Prop
  | .could_not_find_constraint conid => scan_pg_constraint cat conid = none
  | .could_not_find_type typid => SearchSysCache1_TYPEOID cat typid = none
  | .could_not_find_range rngid => ∃ ismultirange, scan_pg_range cat rngid ismultirange = none
  | .could_not_open_index index_oid => SearchSysCache1_INDEXRELID cat index_oid = none
  | .could_not_open_relation relid => cat.pg_class.find? (fun c => c.oid == relid) = none
  | _ => True

/-- The defining query of the materialized view `17000` of
`fixture_matview`, `SELECT a FROM t`: a query whose target list has one
entry over a variable of type `text` and collation `100`. -/
def fixture_matview_query : Node :=
  Node.node NodeKind.T_Query
    [Node.node NodeKind.T_List
      [Node.node NodeKind.T_TargetEntry [Node.node (NodeKind.T_Var 100 TEXTOID) []]]]

/-- The defining query of the materialized view `17001` of
`fixture_matview`: its target entry is over a node of a kind for which the
walker has no case (a grouping function, say). -/
def fixture_matview_query_unsupported : Node :=
  Node.node NodeKind.T_Query
    [Node.node NodeKind.T_List
      [Node.node NodeKind.T_TargetEntry [Node.node (NodeKind.other 0) []]]]

/-- A catalog with relations of several shapes: `17000` and `17001` are
materialized views with one `SELECT INSTEAD` rule of one action, `17002` is
a plain table, `17003` is a materialized view with no rule, `17004` has two
rules, `17005` has a rule that is not `INSTEAD`, `17006` has a rule of two
actions. The collation of `text` is `100`. -/
def fixture_matview : Catalog where
  PG_VERSION_NUM := 150000
  pg_type :=
    [ { oid := TEXTOID, typcollation := 100, typelem := 0, typbasetype := 0,
        typrelid := 0, typtype := 'b' } ]
  pg_attribute := []
  pg_constraint := []
  pg_depend := []
  pg_range := []
  pg_index := []
  pg_class :=
    [ { oid := 17000, relkind := 'm', relhasrules := true,
        rd_rules := [ { event := CmdType.CMD_SELECT, isInstead := true,
                        actions := [fixture_matview_query] } ] },
      { oid := 17001, relkind := 'm', relhasrules := true,
        rd_rules := [ { event := CmdType.CMD_SELECT, isInstead := true,
                        actions := [fixture_matview_query_unsupported] } ] },
      { oid := 17002, relkind := 'r', relhasrules := false, rd_rules := [] },
      { oid := 17003, relkind := 'm', relhasrules := false, rd_rules := [] },
      { oid := 17004, relkind := 'm', relhasrules := true,
        rd_rules := [ { event := CmdType.CMD_SELECT, isInstead := true,
                        actions := [fixture_matview_query] },
                      { event := CmdType.CMD_SELECT, isInstead := true,
                        actions := [fixture_matview_query] } ] },
      { oid := 17005, relkind := 'm', relhasrules := true,
        rd_rules := [ { event := CmdType.CMD_SELECT, isInstead := false,
                        actions := [fixture_matview_query] } ] },
      { oid := 17006, relkind := 'm', relhasrules := true,
        rd_rules := [ { event := CmdType.CMD_SELECT, isInstead := true,
                        actions := [fixture_matview_query, fixture_matview_query] } ] } ]
/-- The test of `pgcd_index_deps` on a key column: the column `i` of the
index names no attribute (it is an expression column) when its entry of
`indkey` is not a valid attribute number. -/
def is_expression_column (rd_index : FormData_pg_index) (i : Nat) : Bool :=
  match rd_index.indkey.get? i with
  | some indkey => !AttributeNumberIsValid indkey
  | none => false

/-- Number of expression columns among the key columns `columns` of an
index. -/
def expression_columns (rd_index : FormData_pg_index) (columns : List Nat) : Nat :=
  (columns.filter (is_expression_column rd_index)).length

/-- The list of expressions of an index that `pgcd_index_deps` starts its
loop with: the stored list, or the empty list when the column is null. -/
def indexprs_list (rd_index : FormData_pg_index) : List Node :=
  match rd_index.indexprs with
  | some l => l
  | none => []

/-- A catalog with the relation `16384`, of one column `a text`, and two
indexes on it whose expression list is shorter than their expression
columns. The index `17100` has two expression columns and one stored
expression, over a node of a kind for which the walker has no case. The
index `17101` has the column `a` and one expression column, and no stored
expression. The collation of `text` is `100`. -/
def fixture_index_short : Catalog where
  PG_VERSION_NUM := 150000
  pg_type :=
    [ { oid := TEXTOID, typcollation := 100, typelem := 0, typbasetype := 0,
        typrelid := 0, typtype := 'b' } ]
  pg_attribute :=
    [ { attrelid := 16384, attnum := 1, atttypid := TEXTOID, attcollation := 100 } ]
  pg_constraint := []
  pg_depend := []
  pg_range := []
  pg_index :=
    [ { indexrelid := 17100, indrelid := 16384, indnkeyatts := 2, indkey := [0, 0],
        indcollation := some [0, 0], indexprs := some [Node.node (NodeKind.other 0) []],
        indpred := none },
      { indexrelid := 17101, indrelid := 16384, indnkeyatts := 2, indkey := [1, 0],
        indcollation := some [0, 0], indexprs := none, indpred := none },
      { indexrelid := 17102, indrelid := 16384, indnkeyatts := 2, indkey := [0, 1],
        indcollation := some [0, 0],
        indexprs := some [Node.node (NodeKind.T_CollateExpr 950)
          [Node.node (NodeKind.T_Var 100 TEXTOID) []]],
        indpred := none } ]
  pg_class :=
    [ { oid := 16384, relkind := 'r', relhasrules := false, rd_rules := [] } ]

/-! ## The switch of the walker in normal form, and the calls of a resolution -/

/-- The dispatch table of `pgcd_query_expression_walker`: whether the
`switch` has a `case` label for the kind on this release. -/
def in_dispatch_table (PG_VERSION_NUM : Nat) : NodeKind → Bool
  | .T_SubscriptingRef _ _ _ _ => PG_VERSION_NUM ≥ 120000
  | .T_SQLValueFunction _ => PG_VERSION_NUM < 160000
  | .other _ => false
  | _ => true

/-- The identifiers that the `case` of the kind passes to `APPEND_COLL`, in
the order of the source. -/
def appended_collations (PG_VERSION_NUM : Nat) : NodeKind → List Oid
  | .T_TableFunc colcollations _ => colcollations
  | .T_Var varcollid _ => [varcollid]
  | .T_Const constcollid _ => [constcollid]
  | .T_Param paramcollid _ => [paramcollid]
  | .T_SubscriptingRef refcollid refcontainertype refelemtype refrestype =>
    if PG_VERSION_NUM ≥ 140000 then [refcollid, refcontainertype, refelemtype, refrestype]
    else [refcollid, refcontainertype, refelemtype]
  | .T_FuncExpr funccollid inputcollid _ => [funccollid, inputcollid]
  | .T_OpExpr opcollid inputcollid _ => [opcollid, inputcollid]
  | .T_DistinctExpr opcollid inputcollid _ => [opcollid, inputcollid]
  | .T_NullIfExpr opcollid inputcollid _ => [opcollid, inputcollid]
  | .T_ScalarArrayOpExpr inputcollid => [inputcollid]
  | .T_FieldSelect resultcollid _ => [resultcollid]
  | .T_RelabelType resultcollid _ => [resultcollid]
  | NodeKind.T_CoerceViaIO resultcollid _ => [resultcollid]
  | .T_ArrayCoerceExpr resultcollid _ => [resultcollid]
  | .T_CollateExpr collOid => [collOid]
  | .T_CaseExpr casecollid _ => [casecollid]
  | .T_CaseTestExpr collation => [collation]
  | .T_ArrayExpr array_collid _ => [array_collid]
  | .T_RowCompareExpr inputcollids => inputcollids
  | .T_CoalesceExpr coalescecollid _ => [coalescecollid]
  | .T_SQLValueFunction type => [type]
  | .T_MinMaxExpr minmaxcollid inputcollid _ => [minmaxcollid, inputcollid]
  | .T_CoerceToDomain resultcollid _ => [resultcollid]
  | .T_CoerceToDomainValue collation _ => [collation]
  | .T_Aggref aggcollid inputcollid _ => [aggcollid, inputcollid]
  | .T_RangeTblFunction funccolcollations _ => funccolcollations
  | .T_SetOperationStmt colCollations _ => colCollations
  | .T_WindowFunc wincollid inputcollid _ => [wincollid, inputcollid]
  | .T_CommonTableExpr ctecolcollations _ => ctecolcollations
  | _ => []

/-- The type identifiers that the `case` of the kind passes to
`APPEND_TYPE_COLLS`, in the order of the source. -/
def resolved_types : NodeKind → List Oid
  | .T_TableFunc _ coltypes => coltypes
  | .T_Var _ vartype => [vartype]
  | .T_Const _ consttype => [consttype]
  | .T_Param _ paramtype => [paramtype]
  | .T_FuncExpr _ _ funcresulttype => [funcresulttype]
  | .T_OpExpr _ _ opresulttype => [opresulttype]
  | .T_DistinctExpr _ _ opresulttype => [opresulttype]
  | .T_NullIfExpr _ _ opresulttype => [opresulttype]
  | .T_FieldSelect _ resulttype => [resulttype]
  | .T_RelabelType _ resulttype => [resulttype]
  | NodeKind.T_CoerceViaIO _ resulttype => [resulttype]
  | .T_ArrayCoerceExpr _ resulttype => [resulttype]
  | .T_ConvertRowtypeExpr resulttype => [resulttype]
  | .T_CaseExpr _ casetype => [casetype]
  | .T_ArrayExpr _ array_typeid => [array_typeid]
  | .T_RowExpr row_typeid => if row_typeid != RECORDOID then [row_typeid] else []
  | .T_CoalesceExpr _ coalescetype => [coalescetype]
  | .T_MinMaxExpr _ _ minmaxtype => [minmaxtype]
  | .T_CoerceToDomain _ resulttype => [resulttype]
  | .T_CoerceToDomainValue _ typeId => [typeId]
  | .T_Aggref _ _ aggtype => [aggtype]
  | .T_RangeTblFunction _ funccoltypes => funccoltypes
  | .T_SetOperationStmt _ colTypes => colTypes
  | .T_WindowFunc _ _ wintype => [wintype]
  | .T_CommonTableExpr _ ctecoltypes => ctecoltypes
  | _ => []

/-- The children of a node that the walker goes on to visit after the
`switch`: none for a domain coercion whose argument is a bare variable or
literal, where the walker returns at once (and none when the test on the
argument itself fails), all the children otherwise. -/
def visited_children (kind : NodeKind) (children : List Node) : List Node :=
  match kind with
  | .T_CoerceToDomain _ _ =>
    match coerce_arg_is_scalar_reference children with
    | .ok false => children
    | _ => []
  | _ => children

/-- The tree that the walker visits from a node: the node itself and,
through the children it visits, their trees. -/
inductive InVisitedTree : Node → Node → Prop where
  | root (node : Node) : InVisitedTree node node
  | child (kind : NodeKind) (children : List Node) (c target : Node)
      (hc : c ∈ visited_children kind children) (ht : InVisitedTree c target) :
      InVisitedTree (Node.node kind children) target

/-- The nodes on which `pgcd_get_query_expression_collations` calls the
walker: the children of a query, which `query_tree_walker` passes to it, or
the expression itself. -/
def expression_roots : Node → List Node
  | Node.node .T_Query children => children
  | expr => [expr]

/-- A call of the walker, of a resolver or of an entry point, with its
arguments; the first argument is the remaining stack depth. -/
inductive Call where
  | walker (depth : Nat) (node : Node) (collations : List Oid)
  | rel (depth : Nat) (relid : Oid)
  | constraint (depth : Nat) (conid : Oid)
  | range (depth : Nat) (rngid : Oid) (ismultirange : Bool)
  | type (depth : Nat) (typid : Oid)
  | constraint_deps (depth : Nat) (constraint_oid : Oid)
  | index_deps (depth : Nat) (index_oid : Oid)
  | matview_deps (depth : Nat) (matview_oid : Oid)

/-- The outcome of a call: what the function called returns. -/
def Call.outcome (cat : Catalog) : Call → Except PgError (List Oid)
  | .walker depth node collations => pgcd_query_expression_walker cat depth node collations
  | .rel depth relid => pgcd_get_rel_collations cat depth relid
  | .constraint depth conid => pgcd_get_constraint_collations cat depth conid
  | .range depth rngid ismultirange =>
    pgcd_get_range_type_collations cat depth rngid ismultirange
  | .type depth typid => pgcd_get_type_collations cat depth typid
  | .constraint_deps depth constraint_oid => pgcd_constraint_deps cat depth constraint_oid
  | .index_deps depth index_oid => pgcd_index_deps cat depth index_oid
  | .matview_deps depth matview_oid => pgcd_matview_deps cat depth matview_oid

/-- The test of the key column loop of `pgcd_index_deps` for a column that
names an attribute: no explicit collation was found for the column
(`foundcoll` is false), so the type of the attribute is resolved. -/
def index_column_without_collation (rd_index : FormData_pg_index) (i : Nat) : Bool :=
  match rd_index.indcollation with
  | some indcollation =>
    match indcollation.get? i with
    | some coll => !OidIsValid coll
    | none => false
  | none => true

/-- The calls that the execution of a call makes directly, read off the
source: `Invokes cat a b` when the body of `a` reaches the call `b`, the
statements before it having succeeded. -/
inductive Invokes (cat : Catalog) : Call → Call → Prop where
  | walker_type (depth : Nat) (kind : NodeKind) (children : List Node)
      (collations : List Oid) (pre post : List Oid) (typid : Oid) (acc : List Oid)
      (hin : in_dispatch_table cat.PG_VERSION_NUM kind = true)
      (hsplit : resolved_types kind = pre ++ typid :: post)
      (hpre : pre.foldlM (APPEND_TYPE_COLLS (pgcd_get_type_collations cat depth))
        ((appended_collations cat.PG_VERSION_NUM kind).foldl APPEND_COLL collations)
        = .ok acc) :
      Invokes cat (.walker (depth + 1) (Node.node kind children) collations)
        (.type depth typid)
  | walker_child (depth : Nat) (kind : NodeKind) (children : List Node)
      (collations : List Oid) (pre post : List Node) (child : Node) (c1 acc : List Oid)
      (hswitch : walker_switch cat.PG_VERSION_NUM (pgcd_get_type_collations cat depth)
        collations kind = .ok c1)
      (hsplit : visited_children kind children = pre ++ child :: post)
      (hpre : tree_walker (pgcd_query_expression_walker cat depth) pre c1 = .ok acc) :
      Invokes cat (.walker (depth + 1) (Node.node kind children) collations)
        (.walker depth child acc)
  | rel_type (depth : Nat) (relid : Oid) (pre post : List FormData_pg_attribute)
      (pg_att : FormData_pg_attribute) (acc : List Oid)
      (hsplit : scan_pg_attribute cat relid = pre ++ pg_att :: post)
      (hpre : pre.foldlM (pgcd_get_rel_collations.body (pgcd_get_type_collations cat depth))
        [] = .ok acc)
      (hatt : ¬ pg_att.attnum < 0) :
      Invokes cat (.rel (depth + 1) relid) (.type depth pg_att.atttypid)
  | constraint_expression (depth : Nat) (conid : Oid) (tup : FormData_pg_constraint)
      (expr : Node) (pre post : List Node) (root : Node) (acc : List Oid)
      (hscan : scan_pg_constraint cat conid = some tup)
      (hbin : tup.conbin = some expr)
      (hsplit : expression_roots expr = pre ++ root :: post)
      (hpre : tree_walker (pgcd_query_expression_walker cat depth) pre [] = .ok acc) :
      Invokes cat (.constraint (depth + 1) conid) (.walker depth root acc)
  | constraint_key (depth : Nat) (conid : Oid) (tup : FormData_pg_constraint)
      (arr : ArrayType) (rel : FormData_pg_class) (res acc : List Oid)
      (pre post : List Int) (conkey : Int) (att : FormData_pg_attribute)
      (hscan : scan_pg_constraint cat conid = some tup)
      (hexpr : pgcd_get_constraint_collations.expression
        (pgcd_query_expression_walker cat depth) tup.conbin = .ok res)
      (hkey : tup.conkey = some arr)
      (hopen : relation_open cat tup.conrelid = .ok rel)
      (hshape : (arr.ndim != 1 || arr.hasnull || arr.elemtype != INT2OID) = false)
      (hsplit : arr.elems = pre ++ conkey :: post)
      (hpre : pre.foldlM (pgcd_get_constraint_collations.body
        (pgcd_get_type_collations cat depth) (rd_att cat tup.conrelid)) res = .ok acc)
      (hvalid : AttributeNumberIsValid (int16_to_Oid conkey) = true)
      (hatt : TupleDescAttr (rd_att cat tup.conrelid) (int16_to_Oid conkey - 1) = .ok att) :
      Invokes cat (.constraint (depth + 1) conid) (.type depth att.atttypid)
  | range_subtype (depth : Nat) (rngid : Oid) (ismultirange : Bool)
      (pg_range : FormData_pg_range)
      (hscan : scan_pg_range cat rngid ismultirange = some pg_range) :
      Invokes cat (.range (depth + 1) rngid ismultirange) (.type depth pg_range.rngsubtype)
  | type_element (depth : Nat) (typid : Oid) (typtup : FormData_pg_type)
      (hlook : SearchSysCache1_TYPEOID cat typid = some typtup)
      (hcoll : OidIsValid typtup.typcollation = false)
      (helem : OidIsValid typtup.typelem = true) :
      Invokes cat (.type (depth + 1) typid) (.type depth typtup.typelem)
  | type_base (depth : Nat) (typid : Oid) (typtup : FormData_pg_type)
      (hlook : SearchSysCache1_TYPEOID cat typid = some typtup)
      (hcoll : OidIsValid typtup.typcollation = false)
      (helem : OidIsValid typtup.typelem = false)
      (hbase : OidIsValid typtup.typbasetype = true) :
      Invokes cat (.type (depth + 1) typid) (.type depth typtup.typbasetype)
  | type_relation (depth : Nat) (typid : Oid) (typtup : FormData_pg_type)
      (hlook : SearchSysCache1_TYPEOID cat typid = some typtup)
      (hcoll : OidIsValid typtup.typcollation = false)
      (helem : OidIsValid typtup.typelem = false)
      (hbase : OidIsValid typtup.typbasetype = false)
      (hrel : OidIsValid typtup.typrelid = true) :
      Invokes cat (.type (depth + 1) typid) (.rel depth typtup.typrelid)
  | type_range (depth : Nat) (typid : Oid) (typtup : FormData_pg_type)
      (hlook : SearchSysCache1_TYPEOID cat typid = some typtup)
      (hcoll : OidIsValid typtup.typcollation = false)
      (helem : OidIsValid typtup.typelem = false)
      (hbase : OidIsValid typtup.typbasetype = false)
      (hrel : OidIsValid typtup.typrelid = false)
      (hrange : is_range_typtype cat.PG_VERSION_NUM typtup.typtype = true) :
      Invokes cat (.type (depth + 1) typid)
        (.range depth typtup.oid (typtup.typtype != TYPTYPE_RANGE))
  | type_constraint (depth : Nat) (typid : Oid) (typtup : FormData_pg_type)
      (primary acc : List Oid) (pre post : List FormData_pg_depend)
      (pg_depend : FormData_pg_depend)
      (hlook : SearchSysCache1_TYPEOID cat typid = some typtup)
      (hprimary : pgcd_get_type_collations.primary cat.PG_VERSION_NUM
        (pgcd_get_type_collations cat depth) (pgcd_get_rel_collations cat depth)
        (pgcd_get_range_type_collations cat depth) typtup = .ok primary)
      (hsplit : scan_pg_depend cat typid = pre ++ pg_depend :: post)
      (hpre : pre.foldlM (pgcd_get_type_collations.body
        (pgcd_get_constraint_collations cat depth)) primary = .ok acc)
      (hclass : pg_depend.classid = ConstraintRelationId) :
      Invokes cat (.type (depth + 1) typid) (.constraint depth pg_depend.objid)
  | constraint_deps (depth : Nat) (constraint_oid : Oid) :
      Invokes cat (.constraint_deps depth constraint_oid) (.constraint depth constraint_oid)
  | index_type (depth : Nat) (index_oid : Oid) (rd_index : FormData_pg_index) (i : Nat)
      (state : List Oid × List Node) (indkey : Int)
      (hidx : SearchSysCache1_INDEXRELID cat index_oid = some rd_index)
      (hi : i < rd_index.indnkeyatts)
      (hpre : (List.range i).foldlM (pgcd_index_deps.body cat depth rd_index)
        ([], indexprs_list rd_index) = .ok state)
      (hkey : rd_index.indkey.get? i = some indkey)
      (hvalid : AttributeNumberIsValid indkey = true)
      (hcoll : index_column_without_collation rd_index i = true) :
      Invokes cat (.index_deps depth index_oid)
        (.type depth (get_atttype cat rd_index.indrelid indkey))
  | index_expression (depth : Nat) (index_oid : Oid) (rd_index : FormData_pg_index)
      (i : Nat) (state : List Oid × List Node) (indexkey : Node) (next : List Node)
      (pre post : List Node) (root : Node) (acc : List Oid)
      (hidx : SearchSysCache1_INDEXRELID cat index_oid = some rd_index)
      (hi : i < rd_index.indnkeyatts)
      (hfold : (List.range i).foldlM (pgcd_index_deps.body cat depth rd_index)
        ([], indexprs_list rd_index) = .ok state)
      (hexpr : is_expression_column rd_index i = true)
      (hcursor : state.2 = indexkey :: next)
      (hsplit : expression_roots indexkey = pre ++ root :: post)
      (hpre : tree_walker (pgcd_query_expression_walker cat depth) pre [] = .ok acc) :
      Invokes cat (.index_deps depth index_oid) (.walker depth root acc)
  | index_predicate (depth : Nat) (index_oid : Oid) (rd_index : FormData_pg_index)
      (state : List Oid × List Node) (indpred : Node)
      (pre post : List Node) (root : Node) (acc : List Oid)
      (hidx : SearchSysCache1_INDEXRELID cat index_oid = some rd_index)
      (hfold : (List.range rd_index.indnkeyatts).foldlM
        (pgcd_index_deps.body cat depth rd_index) ([], indexprs_list rd_index) = .ok state)
      (hpred : rd_index.indpred = some indpred)
      (hsplit : expression_roots indpred = pre ++ root :: post)
      (hpre : tree_walker (pgcd_query_expression_walker cat depth) pre [] = .ok acc) :
      Invokes cat (.index_deps depth index_oid) (.walker depth root acc)
  | matview_query (depth : Nat) (matview_oid : Oid) (rel : FormData_pg_class)
      (rule : RewriteRule) (dataQuery : Node)
      (pre post : List Node) (root : Node) (acc : List Oid)
      (hopen : relation_open cat matview_oid = .ok rel)
      (hkind : rel.relkind = RELKIND_MATVIEW)
      (hrules : rel.relhasrules = true)
      (hrule : rel.rd_rules = [rule])
      (hevent : rule.event = CmdType.CMD_SELECT)
      (hinstead : rule.isInstead = true)
      (hactions : rule.actions = [dataQuery])
      (hsplit : expression_roots dataQuery = pre ++ root :: post)
      (hpre : tree_walker (pgcd_query_expression_walker cat depth) pre [] = .ok acc) :
      Invokes cat (.matview_deps depth matview_oid) (.walker depth root acc)

/-- The calls made, directly or through other calls, by the execution of a
call; a call reaches itself. -/
def Reaches (cat : Catalog) : Call → Call → Prop :=
  Relation.ReflTransGen (Invokes cat)

/-- A catalog with the relation `16384`, of the columns `a text` and `b` of
a type `99999` that the catalog does not have, and the index `17200` on
`(a, b)` with no collation of its own on either column. The collation of
`text` is `100`. -/
def fixture_missing_type : Catalog where
  PG_VERSION_NUM := 150000
  pg_type :=
    [ { oid := TEXTOID, typcollation := 100, typelem := 0, typbasetype := 0,
        typrelid := 0, typtype := 'b' } ]
  pg_attribute :=
    [ { attrelid := 16384, attnum := 1, atttypid := TEXTOID, attcollation := 100 },
      { attrelid := 16384, attnum := 2, atttypid := 99999, attcollation := 0 } ]
  pg_constraint := []
  pg_depend := []
  pg_range := []
  pg_index :=
    [ { indexrelid := 17200, indrelid := 16384, indnkeyatts := 2, indkey := [1, 2],
        indcollation := some [0, 0], indexprs := none, indpred := none } ]
  pg_class :=
    [ { oid := 16384, relkind := 'r', relhasrules := false, rd_rules := [] } ]

/-- A catalog for the end-to-end property on a composite type: the domain
`17300` over `text`, the composite type `17301` of relation `17302` with
the single attribute `x` of the domain type, and the table `17310` with one
column `s` of the composite type. The constraint `17311` on the table has
the key list `[s]` and no stored expression; the constraint `17312` has the
stored expression `s IS NOT NULL`, a null test over a variable reference to
`s`, and no key list. The collation of `text` is `C2`. -/
def fixture_composite (C2 : Oid) : Catalog where
  PG_VERSION_NUM := 150000
  pg_type :=
    [ { oid := BOOLOID, typcollation := 0, typelem := 0, typbasetype := 0,
        typrelid := 0, typtype := 'b' },
      { oid := TEXTOID, typcollation := C2, typelem := 0, typbasetype := 0,
        typrelid := 0, typtype := 'b' },
      { oid := 17300, typcollation := 0, typelem := 0, typbasetype := TEXTOID,
        typrelid := 0, typtype := 'd' },
      { oid := 17301, typcollation := 0, typelem := 0, typbasetype := 0,
        typrelid := 17302, typtype := 'c' } ]
  pg_attribute :=
    [ { attrelid := 17302, attnum := 1, atttypid := 17300, attcollation := 0 },
      { attrelid := 17310, attnum := 1, atttypid := 17301, attcollation := 0 } ]
  pg_constraint :=
    [ { oid := 17311, conrelid := 17310, conbin := none,
        conkey := some { ndim := 1, hasnull := false, elemtype := INT2OID, elems := [1] } },
      { oid := 17312, conrelid := 17310,
        conbin := some (Node.node NodeKind.T_NullTest
          [Node.node (NodeKind.T_Var 0 17301) []]),
        conkey := none } ]
  pg_depend := []
  pg_range := []
  pg_index := []
  pg_class :=
    [ { oid := 17302, relkind := 'c', relhasrules := false, rd_rules := [] },
      { oid := 17310, relkind := 'r', relhasrules := false, rd_rules := [] } ]

/-! ## The graph of a resolution -/

/-- An edge of the type graph of the specification: from a type to its
element type, to its base type, to the type of a member of its composite
relation, or to the subtype of its range record. -/
def type_graph_edge (cat : Catalog) (t u : Oid) : Prop :=
  ∃ typtup, SearchSysCache1_TYPEOID cat t = some typtup ∧
    ((OidIsValid typtup.typelem = true ∧ u = typtup.typelem) ∨
     (OidIsValid typtup.typbasetype = true ∧ u = typtup.typbasetype) ∨
     (OidIsValid typtup.typrelid = true ∧
       ∃ att ∈ scan_pg_attribute cat typtup.typrelid, ¬ att.attnum < 0 ∧ u = att.atttypid) ∨
     (∃ ismultirange pg_range,
       scan_pg_range cat typtup.oid ismultirange = some pg_range ∧ u = pg_range.rngsubtype))

/-- The type graph of a catalog is acyclic: a rank on the type identifiers
goes down along every edge. -/
def TypeGraphAcyclic (cat : Catalog) : Prop :=
  ∃ rank : Oid → Nat, ∀ t u, type_graph_edge cat t u → rank u < rank t

/-- The types that the resolution of a constraint resolves: the types that
the walker passes to the type resolver on the nodes it visits in the stored
expression, and the types of the attributes of the key list. -/
def constraint_type (cat : Catalog) (conid u : Oid) : Prop :=
  ∃ tup, scan_pg_constraint cat conid = some tup ∧
    ((∃ expr root kind children, tup.conbin = some expr ∧ root ∈ expression_roots expr ∧
        InVisitedTree root (Node.node kind children) ∧ u ∈ resolved_types kind) ∨
     (∃ arr conkey att, tup.conkey = some arr ∧ conkey ∈ arr.elems ∧
        AttributeNumberIsValid (int16_to_Oid conkey) = true ∧
        TupleDescAttr (rd_att cat tup.conrelid) (int16_to_Oid conkey - 1) = .ok att ∧
        u = att.atttypid))

/-- An edge through a constraint: from a type to a type that a constraint
attached to it by a dependency edge resolves. -/
def constraint_edge (cat : Catalog) (t u : Oid) : Prop :=
  ∃ e ∈ listConstraintDependents cat t, constraint_type cat e.objid u

/-- The graph that the recursion of the type resolver follows, the type
graph together with the edges through constraints, is acyclic. -/
def ResolutionGraphAcyclic (cat : Catalog) : Prop :=
  ∃ rank : Oid → Nat, ∀ t u, (type_graph_edge cat t u ∨ constraint_edge cat t u) →
    rank u < rank t

/-- The stored expression of the check constraint of `fixture_cycle`,
`CHECK (a::d <> '')`: an operator call over a coercion of the column `a` to
the domain `17400` and a literal. -/
def fixture_cycle_check_expr : Node :=
  Node.node (NodeKind.T_OpExpr 0 100 BOOLOID)
    [Node.node (NodeKind.T_CoerceToDomain 100 17400) [Node.node (NodeKind.T_Var 100 TEXTOID) []],
     Node.node (NodeKind.T_Const 100 TEXTOID) []]

/-- A catalog with the domain `17400` over `text`, the table `17410` with
one column `a text`, and the check constraint `17411` on the table, whose
expression casts `a` to the domain; `pg_depend` records that the constraint
depends on the domain type. The collation of `text` and of the domain is
`100`. -/
def fixture_cycle : Catalog where
  PG_VERSION_NUM := 150000
  pg_type :=
    [ { oid := BOOLOID, typcollation := 0, typelem := 0, typbasetype := 0,
        typrelid := 0, typtype := 'b' },
      { oid := TEXTOID, typcollation := 100, typelem := 0, typbasetype := 0,
        typrelid := 0, typtype := 'b' },
      { oid := 17400, typcollation := 100, typelem := 0, typbasetype := TEXTOID,
        typrelid := 0, typtype := 'd' } ]
  pg_attribute :=
    [ { attrelid := 17410, attnum := 1, atttypid := TEXTOID, attcollation := 100 } ]
  pg_constraint :=
    [ { oid := 17411, conrelid := 17410, conbin := some fixture_cycle_check_expr,
        conkey := some { ndim := 1, hasnull := false, elemtype := INT2OID, elems := [1] } } ]
  pg_depend :=
    [ { classid := ConstraintRelationId, objid := 17411, refclassid := TypeRelationId,
        refobjid := 17400 } ]
  pg_range := []
  pg_index := []
  pg_class :=
    [ { oid := 17410, relkind := 'r', relhasrules := false, rd_rules := [] } ]

/-- The run `y` ends as the run `x` does, unless `x` was stopped by the
stack depth guard. -/
def EndsAs {α : Type} (x y : Except PgError α) : Prop :=
  x ≠ .error .stack_depth_limit_exceeded → y = x

/-- The stored expression of the check constraint of the domain of
`fixture_subscript`, `CHECK (VALUE < 'x' COLLATE 951)`: an operator call of
result type `bool` and input collation `951` over the domain value, of type
`text`, and a collate clause over a literal. -/
def fixture_subscript_domain_expr : Node :=
  Node.node (NodeKind.T_OpExpr InvalidOid 951 BOOLOID)
    [Node.node (NodeKind.T_CoerceToDomainValue 950 TEXTOID) [],
     Node.node (NodeKind.T_CollateExpr 951) [Node.node (NodeKind.T_Const 100 TEXTOID) []]]

/-- The stored expression of the check constraint of the table of
`fixture_subscript`, `CHECK (arr[1] IS NOT NULL)`: a null test over an
array subscript whose container type is the array type `17501`, whose
element and result type is the domain `17500` and whose collation is `950`;
the children of the subscript are the index, a literal of type `int4`, and
the container, the column `arr`. -/
def fixture_subscript_check_expr : Node :=
  Node.node NodeKind.T_NullTest
    [Node.node (NodeKind.T_SubscriptingRef 950 17501 17500 17500)
      [Node.node (NodeKind.T_Const InvalidOid 23) [],
       Node.node (NodeKind.T_Var 950 17501) []]]

/-- A catalog with the domain `17500` over `text`, declared with the
collation `950` and with the check constraint `17502`, which compares with
the collation `951`; the array type `17501` over the domain, with the
collation of the domain; the table `17510` with the single column `arr` of
the array type, and its check constraint `17511` on an element of `arr`. -/
def fixture_subscript : Catalog where
  PG_VERSION_NUM := 150000
  pg_type :=
    [ { oid := BOOLOID, typcollation := 0, typelem := 0, typbasetype := 0,
        typrelid := 0, typtype := 'b' },
      { oid := 23, typcollation := 0, typelem := 0, typbasetype := 0,
        typrelid := 0, typtype := 'b' },
      { oid := TEXTOID, typcollation := 100, typelem := 0, typbasetype := 0,
        typrelid := 0, typtype := 'b' },
      { oid := 17500, typcollation := 950, typelem := 0, typbasetype := TEXTOID,
        typrelid := 0, typtype := 'd' },
      { oid := 17501, typcollation := 950, typelem := 17500, typbasetype := 0,
        typrelid := 0, typtype := 'b' } ]
  pg_attribute :=
    [ { attrelid := 17510, attnum := 1, atttypid := 17501, attcollation := 950 } ]
  pg_constraint :=
    [ { oid := 17502, conrelid := 0, conbin := some fixture_subscript_domain_expr,
        conkey := none },
      { oid := 17511, conrelid := 17510, conbin := some fixture_subscript_check_expr,
        conkey := some { ndim := 1, hasnull := false, elemtype := INT2OID, elems := [1] } } ]
  pg_depend :=
    [ { classid := ConstraintRelationId, objid := 17502, refclassid := TypeRelationId,
        refobjid := 17500 } ]
  pg_range := []
  pg_index := []
  pg_class :=
    [ { oid := 17510, relkind := 'r', relhasrules := false, rd_rules := [] } ]

/-- The collations declared on a node: the fields of the node of each kind
that hold a collation identifier in the node definitions of the host
(`primnodes.h`, `parsenodes.h`). A subscript node declares `refcollid`
only, its other three fields being type identifiers; an `SQLValueFunction`
declares none. -/
def declared_collations : NodeKind → List Oid
  | .T_TableFunc colcollations _ => colcollations
  | .T_Var varcollid _ => [varcollid]
  | .T_Const constcollid _ => [constcollid]
  | .T_Param paramcollid _ => [paramcollid]
  | .T_SubscriptingRef refcollid _ _ _ => [refcollid]
  | .T_FuncExpr funccollid inputcollid _ => [funccollid, inputcollid]
  | .T_OpExpr opcollid inputcollid _ => [opcollid, inputcollid]
  | .T_DistinctExpr opcollid inputcollid _ => [opcollid, inputcollid]
  | .T_NullIfExpr opcollid inputcollid _ => [opcollid, inputcollid]
  | .T_ScalarArrayOpExpr inputcollid => [inputcollid]
  | .T_FieldSelect resultcollid _ => [resultcollid]
  | .T_RelabelType resultcollid _ => [resultcollid]
  | NodeKind.T_CoerceViaIO resultcollid _ => [resultcollid]
  | .T_ArrayCoerceExpr resultcollid _ => [resultcollid]
  | .T_CollateExpr collOid => [collOid]
  | .T_CaseExpr casecollid _ => [casecollid]
  | .T_CaseTestExpr collation => [collation]
  | .T_ArrayExpr array_collid _ => [array_collid]
  | .T_RowCompareExpr inputcollids => inputcollids
  | .T_CoalesceExpr coalescecollid _ => [coalescecollid]
  | .T_MinMaxExpr minmaxcollid inputcollid _ => [minmaxcollid, inputcollid]
  | .T_CoerceToDomain resultcollid _ => [resultcollid]
  | .T_CoerceToDomainValue collation _ => [collation]
  | .T_Aggref aggcollid inputcollid _ => [aggcollid, inputcollid]
  | .T_RangeTblFunction funccolcollations _ => funccolcollations
  | .T_SetOperationStmt colCollations _ => colCollations
  | .T_WindowFunc wincollid inputcollid _ => [wincollid, inputcollid]
  | .T_CommonTableExpr ctecolcollations _ => ctecolcollations
  | _ => []

/-- The whole tree under a node: the node itself and, through all of its
children, their trees. -/
inductive InTree : Node → Node → Prop where
  | root (node : Node) : InTree node node
  | child (kind : NodeKind) (children : List Node) (c target : Node)
      (hc : c ∈ children) (ht : InTree c target) :
      InTree (Node.node kind children) target

/-- An expression over `fixture_domain`: an operator call over a coercion
to the domain `16700` of a function call, of result collation `951` and
input collation `952`, on a variable. -/
def fixture_nested_expr : Node :=
  Node.node (NodeKind.T_OpExpr InvalidOid 950 BOOLOID)
    [Node.node (NodeKind.T_CoerceToDomain 100 16700)
      [Node.node (NodeKind.T_FuncExpr 951 952 TEXTOID)
        [Node.node (NodeKind.T_Var 100 TEXTOID) []]]]

/-- The contribution of one attribute to the result of the relation
resolver as the specification words it: nothing for a system column; for
any other attribute its explicit collation, if valid, followed by the
result of the type resolver for its type, which is called in both cases. -/
def attribute_contribution (type_collations : Oid → Except PgError (List Oid))
    (pg_att : FormData_pg_attribute) : Except PgError (List Oid) :=
  if pg_att.attnum < 0 then pure []
  else do
    let r ← type_collations pg_att.atttypid
    pure ((if OidIsValid pg_att.attcollation then [pg_att.attcollation] else []) ++ r)

/-- The result of the relation resolver as the specification words it: the
concatenation of the contributions of the attributes, in the order of the
list. -/
def rel_collations_spec (type_collations : Oid → Except PgError (List Oid))
    (atts : List FormData_pg_attribute) : Except PgError (List Oid) := do
  let parts ← atts.mapM (attribute_contribution type_collations)
  pure parts.flatten

/-- The stored expression of the check constraint of `fixture_dropped_column`,
`CHECK (t IS NOT NULL)` on the whole row: a null test over a variable of
the row type `17600` of the table. -/
def fixture_dropped_column_check_expr : Node :=
  Node.node NodeKind.T_NullTest [Node.node (NodeKind.T_Var InvalidOid 17600) []]

/-- A catalog with the table `17610` of row type `17600`, with a column `a`
of type `text` and a second column that was dropped: the row of a dropped
column stays in `pg_attribute` with its position and with the type
identifier set to `InvalidOid`. The check constraint `17611` of the table
is on the whole row. -/
def fixture_dropped_column : Catalog where
  PG_VERSION_NUM := 150000
  pg_type :=
    [ { oid := TEXTOID, typcollation := 100, typelem := 0, typbasetype := 0,
        typrelid := 0, typtype := 'b' },
      { oid := 17600, typcollation := 0, typelem := 0, typbasetype := 0,
        typrelid := 17610, typtype := 'c' } ]
  pg_attribute :=
    [ { attrelid := 17610, attnum := 1, atttypid := TEXTOID, attcollation := 100 },
      { attrelid := 17610, attnum := 2, atttypid := InvalidOid, attcollation := 0 } ]
  pg_constraint :=
    [ { oid := 17611, conrelid := 17610,
        conbin := some fixture_dropped_column_check_expr,
        conkey := some { ndim := 1, hasnull := false, elemtype := INT2OID, elems := [0] } } ]
  pg_depend := []
  pg_range := []
  pg_index := []
  pg_class :=
    [ { oid := 17610, relkind := 'r', relhasrules := false, rd_rules := [] } ]

/-! ## Properties of the normalizer -/

theorem list_oid_cmp_le_iff (a b : Oid) : list_oid_cmp a b ≤ 0 ↔ a ≤ b := by
  unfold list_oid_cmp
  by_cases h1 : a < b
  · simp only [h1, if_true]
    exact ⟨fun _ => Nat.le_of_lt h1, fun _ => by decide⟩
  · by_cases h2 : a > b
    · simp only [h1, h2, if_true, if_false]
      exact ⟨fun h => absurd h (by decide), fun h => absurd h (Nat.not_le_of_gt h2)⟩
    · simp only [h1, h2, if_false]
      exact ⟨fun _ => Nat.le_of_not_lt h2, fun _ => le_refl _⟩

theorem list_sort_eq (l : List Oid) :
    list_sort l list_oid_cmp = l.insertionSort (fun a b => a ≤ b) := by
  unfold list_sort
  congr 1
  funext a b
  exact propext (list_oid_cmp_le_iff a b)

theorem list_sort_perm (l : List Oid) : (list_sort l list_oid_cmp).Perm l := by
  rw [list_sort_eq]
  exact List.perm_insertionSort _ l

theorem list_sort_sorted (l : List Oid) :
    (list_sort l list_oid_cmp).Sorted (fun a b => a ≤ b) := by
  rw [list_sort_eq]
  exact List.sorted_insertionSort _ l

theorem loop_mem (x : Oid) (l : List Oid) (cur : Oid) :
    x ∈ list_deduplicate_oid.loop cur l ↔ x = cur ∨ x ∈ l := by
  induction l generalizing cur with
  | nil => simp [list_deduplicate_oid.loop]
  | cons next rest ih =>
    unfold list_deduplicate_oid.loop
    by_cases h : cur = next
    · subst h
      simp only [beq_self_eq_true, if_true, ih, List.mem_cons]
      tauto
    · have hb : (cur == next) = false := by simpa using h
      simp only [hb, Bool.false_eq_true, if_false, List.mem_cons, ih]

theorem list_deduplicate_oid_mem (x : Oid) (l : List Oid) :
    x ∈ list_deduplicate_oid l ↔ x ∈ l := by
  match l with
  | [] => simp [list_deduplicate_oid]
  | [a] => simp [list_deduplicate_oid]
  | a :: b :: rest =>
    simp only [list_deduplicate_oid, loop_mem, List.mem_cons]

theorem loop_sorted (l : List Oid) (cur : Oid)
    (h : (cur :: l).Sorted (fun a b => a ≤ b)) :
    (list_deduplicate_oid.loop cur l).Sorted (fun a b => a < b) ∧
      ∀ y ∈ list_deduplicate_oid.loop cur l, cur ≤ y := by
  induction l generalizing cur with
  | nil => simp [list_deduplicate_oid.loop]
  | cons next rest ih =>
    have hle : cur ≤ next := List.rel_of_sorted_cons h next (List.mem_cons_self _ _)
    have htail : (next :: rest).Sorted (fun a b => a ≤ b) := List.Sorted.of_cons h
    unfold list_deduplicate_oid.loop
    by_cases hc : cur = next
    · subst hc
      simp only [beq_self_eq_true, if_true]
      exact ih cur htail
    · have hb : (cur == next) = false := by simpa using hc
      simp only [hb, Bool.false_eq_true, if_false]
      obtain ⟨hs, hge⟩ := ih next htail
      have hlt : cur < next := lt_of_le_of_ne hle hc
      refine ⟨?_, ?_⟩
      · refine List.sorted_cons.mpr ⟨?_, hs⟩
        intro y hy
        exact lt_of_lt_of_le hlt (hge y hy)
      · intro y hy
        rcases List.mem_cons.mp hy with rfl | hy
        · exact le_refl _
        · exact le_trans hle (hge y hy)

theorem list_deduplicate_oid_sorted (l : List Oid)
    (h : l.Sorted (fun a b => a ≤ b)) :
    (list_deduplicate_oid l).Sorted (fun a b => a < b) := by
  match l, h with
  | [], _ => simp [list_deduplicate_oid]
  | [a], _ => simp [list_deduplicate_oid]
  | a :: b :: rest, h => exact (loop_sorted (b :: rest) a h).1

theorem normalize_sorted (l : List Oid) :
    (normalize l).Sorted (fun a b => a < b) :=
  list_deduplicate_oid_sorted _ (list_sort_sorted l)

theorem normalize_mem (x : Oid) (l : List Oid) : x ∈ normalize l ↔ x ∈ l := by
  unfold normalize
  rw [list_deduplicate_oid_mem]
  exact (list_sort_perm l).mem_iff

theorem sorted_lt_nodup (l : List Oid) (h : l.Sorted (fun a b => a < b)) : l.Nodup := by
  induction l with
  | nil => exact List.nodup_nil
  | cons a t ih =>
    have h1 := List.sorted_cons.mp h
    refine List.nodup_cons.mpr ⟨?_, ih h1.2⟩
    intro hmem
    exact lt_irrefl a (h1.1 a hmem)

/-! ## The entry points return a normalized list -/

theorem pgcd_constraint_deps_normalized (cat : Catalog) (depth : Nat) (oid : Oid)
    (res : List Oid) (h : pgcd_constraint_deps cat depth oid = .ok res) :
    ∃ raw, pgcd_get_constraint_collations cat depth oid = .ok raw ∧ res = normalize raw := by
  unfold pgcd_constraint_deps at h
  cases hr : pgcd_get_constraint_collations cat depth oid with
  | error e => rw [hr] at h; cases h
  | ok raw =>
    rw [hr] at h
    injection h with h
    exact ⟨raw, rfl, h.symm⟩

theorem pgcd_index_deps_normalized (cat : Catalog) (depth : Nat) (oid : Oid)
    (res : List Oid) (h : pgcd_index_deps cat depth oid = .ok res) :
    ∃ raw, res = normalize raw := by
  unfold pgcd_index_deps at h
  split at h
  · cases h
  · rename_i rd_index _
    cases hs : (List.range rd_index.indnkeyatts).foldlM
        (pgcd_index_deps.body cat depth rd_index)
        ([], match rd_index.indexprs with | some l => l | none => []) with
    | error e => simp only [hs] at h; cases h
    | ok state =>
      simp only [hs] at h
      cases hp : rd_index.indpred with
      | none =>
        simp only [hp] at h
        injection h with h
        exact ⟨_, h.symm⟩
      | some indpred =>
        simp only [hp] at h
        cases hw : pgcd_get_query_expression_collations
            (pgcd_query_expression_walker cat depth) indpred with
        | error e => simp only [hw] at h; cases h
        | ok r =>
          simp only [hw] at h
          injection h with h
          exact ⟨_, h.symm⟩

theorem pgcd_matview_deps_normalized (cat : Catalog) (depth : Nat) (oid : Oid)
    (res : List Oid) (h : pgcd_matview_deps cat depth oid = .ok res) :
    ∃ raw, res = normalize raw := by
  unfold pgcd_matview_deps at h
  cases hr : relation_open cat oid with
  | error e => rw [hr] at h; cases h
  | ok rel =>
    rw [hr] at h
    simp only [bind, Except.bind] at h
    split_ifs at h
    split at h
    · cases h
    · split_ifs at h
      split at h
      · rename_i dataQuery _
        cases hw : pgcd_get_query_expression_collations
            (pgcd_query_expression_walker cat depth) dataQuery with
        | error e => simp only [hw] at h; cases h
        | ok r =>
          simp only [hw] at h
          injection h with h
          exact ⟨_, h.symm⟩
      · cases h

/-- C1: whenever the constraint, the index or the materialized view entry
point succeeds, the list it returns is strictly ascending, so it has no
duplicates. -/
theorem entry_points_strictly_ascending (cat : Catalog) (depth : Nat) (oid : Oid)
    (res : List Oid)
    (h : pg_collation_constraint_dependencies cat depth oid = .ok res ∨
      pg_collation_index_dependencies cat depth oid = .ok res ∨
      pg_collation_matview_dependencies cat depth oid = .ok res) :
    res.Sorted (fun a b => a < b) ∧ res.Nodup := by
  have hn : ∃ raw, res = normalize raw := by
    rcases h with h | h | h
    · obtain ⟨raw, _, hraw⟩ := pgcd_constraint_deps_normalized cat depth oid res h
      exact ⟨raw, hraw⟩
    · exact pgcd_index_deps_normalized cat depth oid res h
    · exact pgcd_matview_deps_normalized cat depth oid res h
  obtain ⟨raw, rfl⟩ := hn
  exact ⟨normalize_sorted raw, sorted_lt_nodup _ (normalize_sorted raw)⟩

/-- Witness of C1: the index on `(a, a)` of the fixture, with collations
`950` and `100` on its columns, returns `[100, 950]`. -/
theorem entry_points_strictly_ascending_witness :
    pg_collation_index_dependencies (fixture 100) 1 16392 = .ok [100, 950] ∧
      ([100, 950] : List Oid).Sorted (fun a b => a < b) ∧ ([100, 950] : List Oid).Nodup :=
  ⟨rfl, entry_points_strictly_ascending (fixture 100) 1 16392 [100, 950] (Or.inr (Or.inl rfl))⟩

/-- C2: the normalizer (sort ascending, then `list_deduplicate_oid`) keeps
exactly the members of its input: an identifier occurs in the normalized
list if and only if it occurs in the input list. -/
theorem normalize_same_members (l : List Oid) (x : Oid) :
    x ∈ list_deduplicate_oid (list_sort l list_oid_cmp) ↔ x ∈ l :=
  normalize_mem x l

/-! ## Every collected identifier is valid -/

theorem foldlM_invariant {α β : Type} (P : β → Prop) (f : β → α → Except PgError β)
    (hf : ∀ acc x acc', P acc → f acc x = .ok acc' → P acc')
    (l : List α) (init r : β) (hinit : P init) (h : l.foldlM f init = .ok r) : P r := by
  induction l generalizing init with
  | nil =>
    simp only [List.foldlM, pure, Except.pure] at h
    injection h with h
    exact h ▸ hinit
  | cons a t ih =>
    simp only [List.foldlM, bind, Except.bind] at h
    cases hfa : f init a with
    | error e => rw [hfa] at h; cases h
    | ok acc =>
      rw [hfa] at h
      exact ih acc (hf init a acc hinit hfa) h

theorem APPEND_COLL_valid (l : List Oid) (o : Oid)
    (hl : ∀ x ∈ l, OidIsValid x = true) : ∀ x ∈ APPEND_COLL l o, OidIsValid x = true := by
  unfold APPEND_COLL
  by_cases ho : OidIsValid o = true
  · simp only [ho, if_true]
    intro x hx
    rcases List.mem_append.mp hx with hx | hx
    · exact hl x hx
    · rw [List.mem_singleton.mp hx]; exact ho
  · simp only [ho]
    exact hl

theorem foldl_APPEND_COLL_valid (os l : List Oid)
    (hl : ∀ x ∈ l, OidIsValid x = true) :
    ∀ x ∈ os.foldl APPEND_COLL l, OidIsValid x = true := by
  induction os generalizing l with
  | nil => exact hl
  | cons o t ih => exact ih _ (APPEND_COLL_valid l o hl)

theorem APPEND_TYPE_COLLS_valid (tc : Oid → Except PgError (List Oid))
    (htc : ∀ o r, tc o = .ok r → ∀ x ∈ r, OidIsValid x = true)
    (l : List Oid) (o : Oid) (r : List Oid)
    (hl : ∀ x ∈ l, OidIsValid x = true) (h : APPEND_TYPE_COLLS tc l o = .ok r) :
    ∀ x ∈ r, OidIsValid x = true := by
  unfold APPEND_TYPE_COLLS at h
  simp only [bind, Except.bind, pure, Except.pure] at h
  cases ht : tc o with
  | error e => rw [ht] at h; cases h
  | ok rt =>
    rw [ht] at h
    injection h with h
    subst h
    intro x hx
    rcases List.mem_append.mp hx with hx | hx
    · exact hl x hx
    · exact htc o rt ht x hx

theorem foldlM_APPEND_TYPE_COLLS_valid (tc : Oid → Except PgError (List Oid))
    (htc : ∀ o r, tc o = .ok r → ∀ x ∈ r, OidIsValid x = true)
    (os l r : List Oid) (hl : ∀ x ∈ l, OidIsValid x = true)
    (h : os.foldlM (APPEND_TYPE_COLLS tc) l = .ok r) :
    ∀ x ∈ r, OidIsValid x = true :=
  foldlM_invariant (fun l => ∀ x ∈ l, OidIsValid x = true) (APPEND_TYPE_COLLS tc)
    (fun acc o acc' hacc hstep => APPEND_TYPE_COLLS_valid tc htc acc o acc' hacc hstep)
    os l r hl h

theorem walker_switch_valid (v : Nat) (tc : Oid → Except PgError (List Oid))
    (htc : ∀ o r, tc o = .ok r → ∀ x ∈ r, OidIsValid x = true)
    (l : List Oid) (kind : NodeKind) (r : List Oid)
    (hl : ∀ x ∈ l, OidIsValid x = true) (h : walker_switch v tc l kind = .ok r) :
    ∀ x ∈ r, OidIsValid x = true := by
  cases kind <;> simp only [walker_switch, pure, Except.pure] at h
  case T_SubscriptingRef =>
    split_ifs at h <;> injection h with h <;> subst h
    · exact APPEND_COLL_valid _ _ (APPEND_COLL_valid _ _
        (APPEND_COLL_valid _ _ (APPEND_COLL_valid _ _ hl)))
    · exact APPEND_COLL_valid _ _ (APPEND_COLL_valid _ _ (APPEND_COLL_valid _ _ hl))
  case T_RowExpr =>
    split_ifs at h
    · exact APPEND_TYPE_COLLS_valid tc htc _ _ r hl h
    · injection h with h; subst h; exact hl
  case T_SQLValueFunction =>
    split_ifs at h
    injection h with h; subst h
    exact APPEND_COLL_valid _ _ hl
  all_goals
    first
    | (cases h; done)
    | (injection h with h; subst h
       first
       | exact hl
       | exact APPEND_COLL_valid _ _ hl
       | exact foldl_APPEND_COLL_valid _ _ hl)
    | exact APPEND_TYPE_COLLS_valid tc htc _ _ r (APPEND_COLL_valid _ _ hl) h
    | exact APPEND_TYPE_COLLS_valid tc htc _ _ r
        (APPEND_COLL_valid _ _ (APPEND_COLL_valid _ _ hl)) h
    | exact APPEND_TYPE_COLLS_valid tc htc _ _ r hl h
    | exact foldlM_APPEND_TYPE_COLLS_valid tc htc _ _ r (foldl_APPEND_COLL_valid _ _ hl) h

theorem tree_walker_valid (walker : Node → List Oid → Except PgError (List Oid))
    (hw : ∀ node l r, (∀ x ∈ l, OidIsValid x = true) → walker node l = .ok r →
      ∀ x ∈ r, OidIsValid x = true)
    (children : List Node) (l r : List Oid) (hl : ∀ x ∈ l, OidIsValid x = true)
    (h : tree_walker walker children l = .ok r) : ∀ x ∈ r, OidIsValid x = true :=
  foldlM_invariant (fun l => ∀ x ∈ l, OidIsValid x = true) (fun l child => walker child l)
    (fun acc child acc' hacc hstep => hw child acc acc' hacc hstep) children l r hl h

theorem pgcd_get_query_expression_collations_valid
    (walker : Node → List Oid → Except PgError (List Oid))
    (hw : ∀ node l r, (∀ x ∈ l, OidIsValid x = true) → walker node l = .ok r →
      ∀ x ∈ r, OidIsValid x = true)
    (expr : Node) (r : List Oid)
    (h : pgcd_get_query_expression_collations walker expr = .ok r) :
    ∀ x ∈ r, OidIsValid x = true := by
  have hnil : ∀ x ∈ ([] : List Oid), OidIsValid x = true := by
    intro x hx; cases hx
  unfold pgcd_get_query_expression_collations at h
  split at h
  · exact tree_walker_valid walker hw _ [] r hnil h
  · exact hw expr [] r hnil h

theorem rel_body_valid (tc : Oid → Except PgError (List Oid))
    (htc : ∀ o r, tc o = .ok r → ∀ x ∈ r, OidIsValid x = true)
    (res : List Oid) (att : FormData_pg_attribute) (r : List Oid)
    (hres : ∀ x ∈ res, OidIsValid x = true)
    (h : pgcd_get_rel_collations.body tc res att = .ok r) :
    ∀ x ∈ r, OidIsValid x = true := by
  unfold pgcd_get_rel_collations.body at h
  split_ifs at h with h1 h2
  · injection h with h; subst h; exact hres
  · refine APPEND_TYPE_COLLS_valid tc htc _ _ r ?_ h
    intro x hx
    rcases List.mem_append.mp hx with hx | hx
    · exact hres x hx
    · rw [List.mem_singleton.mp hx]; exact h2
  · exact APPEND_TYPE_COLLS_valid tc htc _ _ r hres h

theorem constraint_body_valid (tc : Oid → Except PgError (List Oid))
    (htc : ∀ o r, tc o = .ok r → ∀ x ∈ r, OidIsValid x = true)
    (tupdesc : List FormData_pg_attribute) (res : List Oid) (conkey : Int) (r : List Oid)
    (hres : ∀ x ∈ res, OidIsValid x = true)
    (h : pgcd_get_constraint_collations.body tc tupdesc res conkey = .ok r) :
    ∀ x ∈ r, OidIsValid x = true := by
  unfold pgcd_get_constraint_collations.body at h
  simp only [bind, Except.bind, pure, Except.pure] at h
  split_ifs at h
  · injection h with h; subst h; exact hres
  · cases ha : TupleDescAttr tupdesc (int16_to_Oid conkey - 1) with
    | error e => rw [ha] at h; cases h
    | ok att =>
      rw [ha] at h
      exact APPEND_TYPE_COLLS_valid tc htc _ _ r hres h

theorem constraint_keys_valid (cat : Catalog) (tc : Oid → Except PgError (List Oid))
    (htc : ∀ o r, tc o = .ok r → ∀ x ∈ r, OidIsValid x = true)
    (tup : FormData_pg_constraint) (res r : List Oid)
    (hres : ∀ x ∈ res, OidIsValid x = true)
    (h : pgcd_get_constraint_collations.keys cat tc tup res = .ok r) :
    ∀ x ∈ r, OidIsValid x = true := by
  unfold pgcd_get_constraint_collations.keys at h
  split at h
  · injection h with h; subst h; exact hres
  · simp only [bind, Except.bind] at h
    cases ho : relation_open cat tup.conrelid with
    | error e => rw [ho] at h; cases h
    | ok rel =>
      rw [ho] at h
      split_ifs at h
      exact foldlM_invariant (fun l => ∀ x ∈ l, OidIsValid x = true) _
        (fun acc k acc' hacc hstep => constraint_body_valid tc htc _ acc k acc' hacc hstep)
        _ res r hres h

theorem type_body_valid (cc : Oid → Except PgError (List Oid))
    (hcc : ∀ o r, cc o = .ok r → ∀ x ∈ r, OidIsValid x = true)
    (res : List Oid) (dep : FormData_pg_depend) (r : List Oid)
    (hres : ∀ x ∈ res, OidIsValid x = true)
    (h : pgcd_get_type_collations.body cc res dep = .ok r) :
    ∀ x ∈ r, OidIsValid x = true := by
  unfold pgcd_get_type_collations.body at h
  simp only [bind, Except.bind, pure, Except.pure] at h
  split_ifs at h
  · injection h with h; subst h; exact hres
  · cases hc : cc dep.objid with
    | error e => rw [hc] at h; cases h
    | ok rc =>
      rw [hc] at h
      injection h with h; subst h
      intro x hx
      rcases List.mem_append.mp hx with hx | hx
      · exact hres x hx
      · exact hcc _ rc hc x hx

theorem type_primary_valid (v : Nat) (tc rc : Oid → Except PgError (List Oid))
    (rg : Oid → Bool → Except PgError (List Oid))
    (htc : ∀ o r, tc o = .ok r → ∀ x ∈ r, OidIsValid x = true)
    (hrc : ∀ o r, rc o = .ok r → ∀ x ∈ r, OidIsValid x = true)
    (hrg : ∀ o m r, rg o m = .ok r → ∀ x ∈ r, OidIsValid x = true)
    (typtup : FormData_pg_type) (r : List Oid)
    (h : pgcd_get_type_collations.primary v tc rc rg typtup = .ok r) :
    ∀ x ∈ r, OidIsValid x = true := by
  unfold pgcd_get_type_collations.primary at h
  split_ifs at h with h1 h2 h3 h4 h5
  · injection h with h; subst h
    intro x hx
    rw [List.mem_singleton.mp hx]; exact h1
  · exact htc _ r h
  · exact htc _ r h
  · exact hrc _ r h
  · exact hrg _ _ r h
  · injection h with h; subst h
    intro x hx; cases hx

theorem resolvers_valid (cat : Catalog) (depth : Nat) :
    (∀ node l r, (∀ x ∈ l, OidIsValid x = true) →
      pgcd_query_expression_walker cat depth node l = .ok r →
      ∀ x ∈ r, OidIsValid x = true) ∧
    (∀ relid r, pgcd_get_rel_collations cat depth relid = .ok r →
      ∀ x ∈ r, OidIsValid x = true) ∧
    (∀ conid r, pgcd_get_constraint_collations cat depth conid = .ok r →
      ∀ x ∈ r, OidIsValid x = true) ∧
    (∀ rngid m r, pgcd_get_range_type_collations cat depth rngid m = .ok r →
      ∀ x ∈ r, OidIsValid x = true) ∧
    (∀ typid r, pgcd_get_type_collations cat depth typid = .ok r →
      ∀ x ∈ r, OidIsValid x = true) := by
  induction depth with
  | zero =>
    refine ⟨?_, ?_, ?_, ?_, ?_⟩
    · intro node l r _ h; rw [pgcd_query_expression_walker] at h; cases h
    · intro o r h; rw [pgcd_get_rel_collations] at h; cases h
    · intro o r h; rw [pgcd_get_constraint_collations] at h; cases h
    · intro o m r h; rw [pgcd_get_range_type_collations] at h; cases h
    · intro o r h; rw [pgcd_get_type_collations] at h; cases h
  | succ d ih =>
    obtain ⟨ihW, ihRel, ihCon, ihRng, ihTy⟩ := ih
    have hnil : ∀ x ∈ ([] : List Oid), OidIsValid x = true := by
      intro x hx; cases hx
    refine ⟨?_, ?_, ?_, ?_, ?_⟩
    · intro node l r hl h
      cases node with
      | null =>
        rw [pgcd_query_expression_walker] at h
        injection h with h; subst h; exact hl
      | node kind children =>
        rw [pgcd_query_expression_walker] at h
        cases hs : walker_switch cat.PG_VERSION_NUM (pgcd_get_type_collations cat d) l kind with
        | error e => simp only [hs, bind, Except.bind] at h; cases h
        | ok c1 =>
          simp only [hs, bind, Except.bind] at h
          have hc1 := walker_switch_valid _ _ ihTy l kind c1 hl hs
          split at h
          · cases hb : coerce_arg_is_scalar_reference children with
            | error e => simp only [hb] at h; cases h
            | ok b =>
              simp only [hb] at h
              split_ifs at h
              · injection h with h; subst h; exact hc1
              · exact tree_walker_valid _ ihW children c1 r hc1 h
          · exact tree_walker_valid _ ihW children c1 r hc1 h
    · intro relid r h
      rw [pgcd_get_rel_collations] at h
      exact foldlM_invariant (fun l => ∀ x ∈ l, OidIsValid x = true) _
        (fun acc a acc' hacc hstep => rel_body_valid _ ihTy acc a acc' hacc hstep)
        _ [] r hnil h
    · intro conid r h
      rw [pgcd_get_constraint_collations] at h
      split at h
      · cases h
      · rename_i tup _
        simp only [bind, Except.bind] at h
        cases he : pgcd_get_constraint_collations.expression
            (pgcd_query_expression_walker cat d) tup.conbin with
        | error e => rw [he] at h; cases h
        | ok r1 =>
          rw [he] at h
          have hr1 : ∀ x ∈ r1, OidIsValid x = true := by
            unfold pgcd_get_constraint_collations.expression at he
            split at he
            · exact pgcd_get_query_expression_collations_valid _ ihW _ r1 he
            · injection he with he; subst he; exact hnil
          exact constraint_keys_valid cat _ ihTy tup r1 r hr1 h
    · intro rngid m r h
      rw [pgcd_get_range_type_collations] at h
      split at h
      · cases h
      · rename_i pg_range _
        refine APPEND_TYPE_COLLS_valid _ ihTy _ _ r ?_ h
        intro x hx
        split_ifs at hx with hv
        · rw [List.mem_singleton.mp hx]; exact hv
        · cases hx
    · intro typid r h
      rw [pgcd_get_type_collations] at h
      split at h
      · cases h
      · rename_i typtup _
        simp only [bind, Except.bind] at h
        cases hp : pgcd_get_type_collations.primary cat.PG_VERSION_NUM
            (pgcd_get_type_collations cat d) (pgcd_get_rel_collations cat d)
            (pgcd_get_range_type_collations cat d) typtup with
        | error e => rw [hp] at h; cases h
        | ok r1 =>
          rw [hp] at h
          have hr1 := type_primary_valid _ _ _ _ ihTy ihRel ihRng typtup r1 hp
          exact foldlM_invariant (fun l => ∀ x ∈ l, OidIsValid x = true) _
            (fun acc a acc' hacc hstep => type_body_valid _ ihCon acc a acc' hacc hstep)
            _ r1 r hr1 h

theorem index_body_valid (cat : Catalog) (depth : Nat) (rd_index : FormData_pg_index)
    (state : List Oid × List Node) (i : Nat) (state' : List Oid × List Node)
    (hs : ∀ x ∈ state.1, OidIsValid x = true)
    (h : pgcd_index_deps.body cat depth rd_index state i = .ok state') :
    ∀ x ∈ state'.1, OidIsValid x = true := by
  have hty := (resolvers_valid cat depth).2.2.2.2
  have hw := (resolvers_valid cat depth).1
  have happ : ∀ (r : List Oid), (∀ x ∈ r, OidIsValid x = true) →
      ∀ x ∈ state.1 ++ r, OidIsValid x = true := by
    intro r hr x hx
    rcases List.mem_append.mp hx with hx | hx
    · exact hs x hx
    · exact hr x hx
  unfold pgcd_index_deps.body at h
  simp only [bind, Except.bind, pure, Except.pure] at h
  split at h
  · cases h
  · split_ifs at h with hk
    · split at h
      · split at h
        · cases h
        · rename_i coll _
          split_ifs at h with hc
          · injection h with h; subst h
            refine happ [coll] ?_
            intro x hx
            rw [List.mem_singleton.mp hx]; exact hc
          · split at h
            · cases h
            · rename_i r hr
              injection h with h; subst h
              exact happ r (hty _ r hr)
      · split at h
        · cases h
        · rename_i r hr
          injection h with h; subst h
          exact happ r (hty _ r hr)
    · split at h
      · cases h
      · split at h
        · cases h
        · rename_i r hr
          injection h with h; subst h
          exact happ r (pgcd_get_query_expression_collations_valid _ hw _ r hr)

theorem pgcd_constraint_deps_valid (cat : Catalog) (depth : Nat) (oid : Oid)
    (res : List Oid) (h : pgcd_constraint_deps cat depth oid = .ok res) :
    ∀ x ∈ res, OidIsValid x = true := by
  obtain ⟨raw, hraw, rfl⟩ := pgcd_constraint_deps_normalized cat depth oid res h
  intro x hx
  exact (resolvers_valid cat depth).2.2.1 oid raw hraw x ((normalize_mem x raw).mp hx)

theorem pgcd_index_deps_valid (cat : Catalog) (depth : Nat) (oid : Oid)
    (res : List Oid) (h : pgcd_index_deps cat depth oid = .ok res) :
    ∀ x ∈ res, OidIsValid x = true := by
  unfold pgcd_index_deps at h
  split at h
  · cases h
  · rename_i rd_index _
    cases hs : (List.range rd_index.indnkeyatts).foldlM
        (pgcd_index_deps.body cat depth rd_index)
        ([], match rd_index.indexprs with | some l => l | none => []) with
    | error e => simp only [hs] at h; cases h
    | ok state =>
      simp only [hs] at h
      have hstate : ∀ x ∈ state.1, OidIsValid x = true :=
        foldlM_invariant (fun st : List Oid × List Node => ∀ x ∈ st.1, OidIsValid x = true) _
          (fun acc i acc' hacc hstep => index_body_valid cat depth rd_index acc i acc' hacc hstep)
          _ _ state (by intro x hx; cases hx) hs
      cases hp : rd_index.indpred with
      | none =>
        simp only [hp] at h
        injection h with h; subst h
        intro x hx
        exact hstate x ((normalize_mem x _).mp hx)
      | some indpred =>
        simp only [hp] at h
        cases hw : pgcd_get_query_expression_collations
            (pgcd_query_expression_walker cat depth) indpred with
        | error e => simp only [hw] at h; cases h
        | ok r =>
          simp only [hw] at h
          injection h with h; subst h
          intro x hx
          rcases List.mem_append.mp ((normalize_mem x _).mp hx) with hx | hx
          · exact hstate x hx
          · exact pgcd_get_query_expression_collations_valid _
              (resolvers_valid cat depth).1 _ r hw x hx

theorem pgcd_matview_deps_valid (cat : Catalog) (depth : Nat) (oid : Oid)
    (res : List Oid) (h : pgcd_matview_deps cat depth oid = .ok res) :
    ∀ x ∈ res, OidIsValid x = true := by
  unfold pgcd_matview_deps at h
  cases hr : relation_open cat oid with
  | error e => rw [hr] at h; cases h
  | ok rel =>
    rw [hr] at h
    simp only [bind, Except.bind] at h
    split_ifs at h
    split at h
    · cases h
    · split_ifs at h
      split at h
      · rename_i dataQuery _
        cases hw : pgcd_get_query_expression_collations
            (pgcd_query_expression_walker cat depth) dataQuery with
        | error e => simp only [hw] at h; cases h
        | ok r =>
          simp only [hw] at h
          injection h with h; subst h
          intro x hx
          exact pgcd_get_query_expression_collations_valid _
            (resolvers_valid cat depth).1 _ r hw x ((normalize_mem x r).mp hx)
      · cases h

/-- C3: whenever an entry point succeeds, no element of the list it returns
is the invalid identifier. -/
theorem entry_points_never_return_invalid (cat : Catalog) (depth : Nat) (oid : Oid)
    (res : List Oid)
    (h : pg_collation_constraint_dependencies cat depth oid = .ok res ∨
      pg_collation_index_dependencies cat depth oid = .ok res ∨
      pg_collation_matview_dependencies cat depth oid = .ok res) :
    ∀ x ∈ res, x ≠ InvalidOid := by
  have hv : ∀ x ∈ res, OidIsValid x = true := by
    rcases h with h | h | h
    · exact pgcd_constraint_deps_valid cat depth oid res h
    · exact pgcd_index_deps_valid cat depth oid res h
    · exact pgcd_matview_deps_valid cat depth oid res h
  intro x hx
  have := hv x hx
  simpa [OidIsValid] using this

/-- Witness of C3: the check constraint of the fixture returns `[100]`. -/
theorem entry_points_never_return_invalid_witness :
    pg_collation_constraint_dependencies (fixture 100) 4 16390 = .ok [100] ∧
      ∀ x ∈ ([100] : List Oid), x ≠ InvalidOid :=
  ⟨rfl, entry_points_never_return_invalid (fixture 100) 4 16390 [100] (Or.inl rfl)⟩

/-! ## Key columns of a constraint -/

/-- C4, evaluation of the source where it omits a collation: on the
constraint `16401` of `fixture_keyed`, keyed on the column `a` whose
explicit collation `950` is valid, the constraint resolver and the entry
point return `[100]`, the collation of the type of `a`, at every depth from
`2` on, and `950` is not in that list. -/
theorem keyed_column_collation_omitted :
    (∃ att ∈ rd_att fixture_keyed 16400,
      att.attnum = 1 ∧ att.attcollation = 950 ∧ OidIsValid att.attcollation = true) ∧
    (∀ depth, pgcd_get_constraint_collations fixture_keyed (depth + 2) 16401 = .ok [100]) ∧
    (∀ depth, pg_collation_constraint_dependencies fixture_keyed (depth + 2) 16401
      = .ok [100]) ∧
    (950 : Oid) ∉ ([100] : List Oid) := by
  have hraw : ∀ depth,
      pgcd_get_constraint_collations fixture_keyed (depth + 2) 16401 = .ok [100] := by
    intro depth
    rfl
  refine ⟨⟨_, List.mem_singleton.mpr rfl, rfl, rfl, rfl⟩, hraw, ?_, by decide⟩
  intro depth
  simp only [pg_collation_constraint_dependencies, pgcd_constraint_deps, hraw depth]
  rfl

/-! ## Key columns of an index -/

theorem index_body_explicit (cat : Catalog) (depth : Nat) (rd_index : FormData_pg_index)
    (state : List Oid × List Node) (i : Nat) (indkey : Int) (indcollation : List Oid)
    (Y : Oid) (hkey : rd_index.indkey.get? i = some indkey)
    (hattr : AttributeNumberIsValid indkey = true)
    (hcolls : rd_index.indcollation = some indcollation)
    (hcoll : indcollation.get? i = some Y) (hY : OidIsValid Y = true) :
    pgcd_index_deps.body cat depth rd_index state i = .ok (state.1 ++ [Y], state.2) := by
  unfold pgcd_index_deps.body
  simp only [hkey, hattr, hcolls, hcoll, hY, if_true, pure, Except.pure]

/-- C5: a key column of an index that names an attribute and has a valid
explicit collation `Y` appends exactly `Y` to the raw list and leaves the
cursor into the expressions where it is, on every catalog and at every
depth, so without a call of the type resolver (which fails at depth `0` and
on a type the catalog does not have); and an index whose only key column is
such a column, with no predicate, resolves to exactly `[Y]`. -/
theorem index_explicit_collation_suppresses_type (cat : Catalog) (depth : Nat)
    (index_oid : Oid) (rd_index : FormData_pg_index) (indkey : Int)
    (indcollation : List Oid) (Y : Oid)
    (hcolls : rd_index.indcollation = some indcollation)
    (hY : OidIsValid Y = true) (hattr : AttributeNumberIsValid indkey = true) :
    (∀ (state : List Oid × List Node) (i : Nat),
      rd_index.indkey.get? i = some indkey → indcollation.get? i = some Y →
      pgcd_index_deps.body cat depth rd_index state i = .ok (state.1 ++ [Y], state.2)) ∧
    (SearchSysCache1_INDEXRELID cat index_oid = some rd_index →
      rd_index.indnkeyatts = 1 → rd_index.indpred = none →
      rd_index.indkey.get? 0 = some indkey → indcollation.get? 0 = some Y →
      pgcd_index_deps cat depth index_oid = .ok [Y]) := by
  refine ⟨?_, ?_⟩
  · intro state i hkey hcoll
    exact index_body_explicit cat depth rd_index state i indkey indcollation Y hkey hattr
      hcolls hcoll hY
  · intro hidx hn hpred hkey hcoll
    unfold pgcd_index_deps
    simp only [hidx, hn, hpred]
    have hbody := index_body_explicit cat depth rd_index
      ([], match rd_index.indexprs with | some l => l | none => []) 0 indkey indcollation Y
      hkey hattr hcolls hcoll hY
    have hrange : List.range 1 = [0] := rfl
    simp only [hrange, List.foldlM, bind, Except.bind, pure, Except.pure, hbody,
      List.nil_append]
    rfl

/-- Witness of C5: the index `16393` of the fixture, on the column `a` with
the explicit collation `950`, resolves to `[950]` at depth `0`, where the
type resolver cannot be called, although the type of `a` has the collation
`100`. -/
theorem index_explicit_collation_suppresses_type_witness :
    pgcd_get_type_collations (fixture 100) 1 (get_atttype (fixture 100) 16384 1)
      = .ok [100] ∧
    pgcd_index_deps.body (fixture 100) 0
      { indexrelid := 16393, indrelid := 16384, indnkeyatts := 1, indkey := [1],
        indcollation := some [950], indexprs := none, indpred := none } ([], []) 0
      = .ok ([950], []) ∧
    pgcd_index_deps (fixture 100) 0 16393 = .ok [950] :=
  have h := index_explicit_collation_suppresses_type (fixture 100) 0 16393
    { indexrelid := 16393, indrelid := 16384, indnkeyatts := 1, indkey := [1],
      indcollation := some [950], indexprs := none, indpred := none } 1 [950] 950
    rfl rfl rfl
  ⟨rfl, h.1 ([], []) 0 rfl rfl, h.2 rfl rfl rfl rfl rfl⟩

/-! ## The type resolver -/

theorem type_body_foldlM (cc : Oid → Except PgError (List Oid))
    (l : List FormData_pg_depend) (res : List Oid) :
    l.foldlM (pgcd_get_type_collations.body cc) res =
      (do
        let cs ← (l.filter (fun e => e.classid == ConstraintRelationId)).mapM
          (fun e => cc e.objid)
        pure (res ++ cs.flatten)) := by
  induction l generalizing res with
  | nil =>
    simp only [List.foldlM, List.filter_nil, List.mapM_nil, pure_bind, List.flatten_nil,
      List.append_nil]
  | cons a t ih =>
    rw [List.foldlM_cons]
    have hbody : pgcd_get_type_collations.body cc res a =
        if a.classid != ConstraintRelationId then pure res
        else (do let r ← cc a.objid; pure (res ++ r)) := rfl
    rw [hbody]
    by_cases hc : a.classid = ConstraintRelationId
    · have hb : (a.classid != ConstraintRelationId) = false := by simp [hc]
      have hf : (a.classid == ConstraintRelationId) = true := by simp [hc]
      simp only [hb, Bool.false_eq_true, if_false, List.filter_cons, hf, if_true,
        List.mapM_cons]
      cases hcc : cc a.objid with
      | error e => rfl
      | ok rc =>
        simp only [bind, Except.bind, pure, Except.pure]
        rw [ih (res ++ rc)]
        simp only [bind, Except.bind, pure, Except.pure]
        cases List.mapM (fun e => cc e.objid)
          (List.filter (fun e => e.classid == ConstraintRelationId) t) with
        | error e => rfl
        | ok cs => simp only [List.flatten_cons, List.append_assoc]
    · have hb : (a.classid != ConstraintRelationId) = true := by simp [hc]
      have hf : (a.classid == ConstraintRelationId) = false := by simp [hc]
      simp only [hb, if_true, List.filter_cons, hf, Bool.false_eq_true, if_false, pure_bind]
      exact ih res

theorem type_collations_succ (cat : Catalog) (depth : Nat) (typid : Oid)
    (typtup : FormData_pg_type) (h : SearchSysCache1_TYPEOID cat typid = some typtup) :
    pgcd_get_type_collations cat (depth + 1) typid =
      (do
        let primary ← pgcd_get_type_collations.primary cat.PG_VERSION_NUM
          (pgcd_get_type_collations cat depth) (pgcd_get_rel_collations cat depth)
          (pgcd_get_range_type_collations cat depth) typtup
        let cs ← (listConstraintDependents cat typid).mapM
          (fun e => pgcd_get_constraint_collations cat depth e.objid)
        pure (primary ++ cs.flatten)) := by
  rw [pgcd_get_type_collations]
  simp only [h, listConstraintDependents]
  congr 1
  funext res
  exact type_body_foldlM _ _ res

/-- C6 as stated fails: the last branch of the priority chain depends on
the kind of the type. On `fixture_range 'b'`, where the type `16600` has a
range record but not the kind of a range, the type resolver returns the
empty list, and not the range contribution `[950, 100]` that the rule of the
specification gives and that the resolver returns on the same catalog with
the kind `'r'`. -/
theorem type_priority_depends_on_kind :
    SearchSysCache1_TYPEOID (fixture_range 'b') 16600 = some (fixture_range_type 'b') ∧
    pgcd_get_type_collations (fixture_range 'b') 3 16600 = .ok [] ∧
    type_collations_spec (fixture_range 'b') 2 (fixture_range_type 'b') = .ok [950, 100] ∧
    pgcd_get_type_collations (fixture_range 'r') 3 16600 = .ok [950, 100] ∧
    pgcd_get_type_collations (fixture_range 'b') 3 16600 ≠
      type_collations_spec (fixture_range 'b') 2 (fixture_range_type 'b') := by
  refine ⟨rfl, rfl, rfl, rfl, ?_⟩
  intro h
  have h1 : pgcd_get_type_collations (fixture_range 'b') 3 16600 = .ok [] := rfl
  have h2 : type_collations_spec (fixture_range 'b') 2 (fixture_range_type 'b')
      = .ok [950, 100] := rfl
  rw [h1, h2] at h
  injection h with h
  cases h

theorem type_collations_chain (cat : Catalog) (depth : Nat) (typid : Oid)
    (typtup : FormData_pg_type) (h : SearchSysCache1_TYPEOID cat typid = some typtup) :
    pgcd_get_type_collations cat (depth + 1) typid =
      (do
        let primary ←
          (if typtup.typcollation ≠ InvalidOid then pure [typtup.typcollation]
           else if typtup.typelem ≠ InvalidOid then
             pgcd_get_type_collations cat depth typtup.typelem
           else if typtup.typbasetype ≠ InvalidOid then
             pgcd_get_type_collations cat depth typtup.typbasetype
           else if typtup.typrelid ≠ InvalidOid then
             pgcd_get_rel_collations cat depth typtup.typrelid
           else if typtup.typtype = 'r' ∨
               (cat.PG_VERSION_NUM ≥ 140000 ∧ typtup.typtype = 'm') then
             pgcd_get_range_type_collations cat depth typtup.oid (typtup.typtype != 'r')
           else pure [])
        let cs ← (listConstraintDependents cat typid).mapM
          (fun e => pgcd_get_constraint_collations cat depth e.objid)
        pure (primary ++ cs.flatten)) := by
  rw [type_collations_succ cat depth typid typtup h]
  congr 1
  unfold pgcd_get_type_collations.primary is_range_typtype OidIsValid
    TYPTYPE_RANGE TYPTYPE_MULTIRANGE
  simp only [bne_iff_ne, ne_eq, Bool.or_eq_true, Bool.and_eq_true, beq_iff_eq,
    decide_eq_true_eq]

/-- C6, amended: for every type found in the catalog, the result of the
type resolver is the primary contribution followed by the results of the
constraint resolver for the dependency edges from a constraint to the type,
in the order of the scan. The primary contribution is the declared
collation if valid, else the element type's result if valid, else the base
type's result if valid, else the relation resolver's result if valid, and
else, only for a type whose kind is range (or multirange from release 14),
the result of the range resolver, and nothing for another kind. The range
resolver returns the collation of the range if valid, followed by the
result for its subtype. A failure of a part is the failure of the whole. -/
theorem type_collations_priority (cat : Catalog) (depth : Nat) (typid : Oid)
    (typtup : FormData_pg_type) (h : SearchSysCache1_TYPEOID cat typid = some typtup) :
    pgcd_get_type_collations cat (depth + 1) typid =
      (do
        let primary ←
          (if typtup.typcollation ≠ InvalidOid then pure [typtup.typcollation]
           else if typtup.typelem ≠ InvalidOid then
             pgcd_get_type_collations cat depth typtup.typelem
           else if typtup.typbasetype ≠ InvalidOid then
             pgcd_get_type_collations cat depth typtup.typbasetype
           else if typtup.typrelid ≠ InvalidOid then
             pgcd_get_rel_collations cat depth typtup.typrelid
           else if typtup.typtype = 'r' ∨
               (cat.PG_VERSION_NUM ≥ 140000 ∧ typtup.typtype = 'm') then
             pgcd_get_range_type_collations cat depth typtup.oid (typtup.typtype != 'r')
           else pure [])
        let cs ← (listConstraintDependents cat typid).mapM
          (fun e => pgcd_get_constraint_collations cat depth e.objid)
        pure (primary ++ cs.flatten)) ∧
    ∀ (rngid : Oid) (ismultirange : Bool) (pg_range : FormData_pg_range),
      scan_pg_range cat rngid ismultirange = some pg_range →
      pgcd_get_range_type_collations cat (depth + 1) rngid ismultirange =
        (do
          let sub ← pgcd_get_type_collations cat depth pg_range.rngsubtype
          pure ((if pg_range.rngcollation ≠ InvalidOid then [pg_range.rngcollation]
            else []) ++ sub)) := by
  refine ⟨type_collations_chain cat depth typid typtup h, ?_⟩
  · intro rngid ismultirange pg_range hr
    rw [pgcd_get_range_type_collations]
    simp only [hr, APPEND_TYPE_COLLS, OidIsValid, bne_iff_ne, ne_eq]

/-- Witness of C6: the range type of `fixture_range 'r'` resolves to the
collation of the range followed by the collation of its subtype, and the
domain of `fixture_domain` to the collation of its base type followed by
the collations of its check constraint. -/
theorem type_collations_priority_witness :
    pgcd_get_type_collations (fixture_range 'r') 3 16600 = .ok [950, 100] ∧
    pgcd_get_type_collations fixture_domain 6 16700 = .ok [100, 950, 100, 100, 950, 100, 100] ∧
    pgcd_get_type_collations fixture_domain 6 16700 =
      (do
        let primary ← pgcd_get_type_collations fixture_domain 5 TEXTOID
        let cs ← (listConstraintDependents fixture_domain 16700).mapM
          (fun e => pgcd_get_constraint_collations fixture_domain 5 e.objid)
        pure (primary ++ cs.flatten)) :=
  ⟨rfl, rfl, (type_collations_priority fixture_domain 5 16700
    { oid := 16700, typcollation := 0, typelem := 0, typbasetype := TEXTOID,
      typrelid := 0, typtype := 'd' } rfl).1⟩

theorem mapM_ok_mem {α : Type} (f : α → Except PgError (List Oid)) (l : List α)
    (cs : List (List Oid)) (h : l.mapM f = .ok cs) (c : List Oid) :
    c ∈ cs ↔ ∃ e ∈ l, f e = .ok c := by
  induction l generalizing cs with
  | nil =>
    simp only [List.mapM_nil, pure, Except.pure] at h
    injection h with h
    subst h
    simp
  | cons a t ih =>
    simp only [List.mapM_cons, bind, Except.bind, pure, Except.pure] at h
    cases hfa : f a with
    | error e => simp only [hfa] at h; cases h
    | ok ra =>
      simp only [hfa] at h
      cases ht : List.mapM f t with
      | error e => simp only [ht] at h; cases h
      | ok rt =>
        simp only [ht] at h
        injection h with h
        subst h
        simp only [List.mem_cons, ih rt ht]
        constructor
        · rintro (rfl | ⟨e, he, hfe⟩)
          · exact ⟨a, Or.inl rfl, hfa⟩
          · exact ⟨e, Or.inr he, hfe⟩
        · rintro ⟨e, he | he, hfe⟩
          · subst he
            rw [hfa] at hfe
            injection hfe with hfe
            exact Or.inl hfe.symm
          · exact Or.inr ⟨e, he, hfe⟩

/-- C7: for a domain type with no valid declared collation and no element
type, over a base type `B`: when the base type and every constraint
attached to the domain by a dependency edge resolve, the type resolver
succeeds and its set of collations is the union of the set for `B` and of
the sets for those constraints; and when the type resolver succeeds, they
all resolve. -/
theorem domain_type_collations (cat : Catalog) (depth : Nat) (typid : Oid)
    (typtup : FormData_pg_type) (B : Oid)
    (h : SearchSysCache1_TYPEOID cat typid = some typtup)
    (hcoll : typtup.typcollation = InvalidOid) (helem : typtup.typelem = InvalidOid)
    (hbase : typtup.typbasetype = B) (hB : B ≠ InvalidOid) :
    (∀ res, pgcd_get_type_collations cat (depth + 1) typid = .ok res →
      ∃ rb cs, pgcd_get_type_collations cat depth B = .ok rb ∧
        (listConstraintDependents cat typid).mapM
          (fun e => pgcd_get_constraint_collations cat depth e.objid) = .ok cs) ∧
    (∀ rb cs, pgcd_get_type_collations cat depth B = .ok rb →
      (listConstraintDependents cat typid).mapM
        (fun e => pgcd_get_constraint_collations cat depth e.objid) = .ok cs →
      ∃ res, pgcd_get_type_collations cat (depth + 1) typid = .ok res ∧
        ∀ x, x ∈ res ↔
          (x ∈ rb ∨ ∃ e ∈ listConstraintDependents cat typid,
            ∃ rc, pgcd_get_constraint_collations cat depth e.objid = .ok rc ∧ x ∈ rc)) := by
  have heq := type_collations_chain cat depth typid typtup h
  subst hbase
  rw [if_neg (not_not.mpr hcoll), if_neg (not_not.mpr helem), if_pos hB] at heq
  refine ⟨?_, ?_⟩
  · intro res hres
    rw [heq] at hres
    cases hrb : pgcd_get_type_collations cat depth typtup.typbasetype with
    | error e => simp only [hrb, bind, Except.bind] at hres; cases hres
    | ok rb =>
      cases hcs : (listConstraintDependents cat typid).mapM
          (fun e => pgcd_get_constraint_collations cat depth e.objid) with
      | error e => simp only [hrb, hcs, bind, Except.bind] at hres; cases hres
      | ok cs => exact ⟨rb, cs, rfl, rfl⟩
  · intro rb cs hrb hcs
    refine ⟨rb ++ cs.flatten, ?_, ?_⟩
    · rw [heq]
      simp only [hrb, hcs, bind, Except.bind, pure, Except.pure]
    · intro x
      simp only [List.mem_append, List.mem_flatten]
      constructor
      · rintro (hx | ⟨c, hc, hx⟩)
        · exact Or.inl hx
        · obtain ⟨e, he, hfe⟩ := (mapM_ok_mem _ _ cs hcs c).mp hc
          exact Or.inr ⟨e, he, c, hfe, hx⟩
      · rintro (hx | ⟨e, he, rc, hfe, hx⟩)
        · exact Or.inl hx
        · exact Or.inr ⟨rc, (mapM_ok_mem _ _ cs hcs rc).mpr ⟨e, he, hfe⟩, hx⟩

/-- Witness of C7: the domain `16700` of `fixture_domain`, over `text`,
with one check constraint. -/
theorem domain_type_collations_witness :
    ∃ res, pgcd_get_type_collations fixture_domain 6 16700 = .ok res ∧
      ∀ x, x ∈ res ↔
        (x ∈ ([100] : List Oid) ∨ ∃ e ∈ listConstraintDependents fixture_domain 16700,
          ∃ rc, pgcd_get_constraint_collations fixture_domain 5 e.objid = .ok rc ∧ x ∈ rc) :=
  (domain_type_collations fixture_domain 5 16700
    { oid := 16700, typcollation := 0, typelem := 0, typbasetype := TEXTOID,
      typrelid := 0, typtype := 'd' } TEXTOID rfl rfl rfl rfl (by decide)).2
    [100] [[950, 100, 100, 950, 100, 100]] rfl rfl

/-! ## The relation resolver on a single scalar column -/

theorem scalar_type_collations (cat : Catalog) (depth : Nat) (typid : Oid)
    (typtup : FormData_pg_type) (X : Oid)
    (h : SearchSysCache1_TYPEOID cat typid = some typtup)
    (hcoll : typtup.typcollation = X ∨ typtup.typcollation = InvalidOid)
    (helem : typtup.typelem = InvalidOid) (hbase : typtup.typbasetype = InvalidOid)
    (hrel : typtup.typrelid = InvalidOid)
    (hkind : typtup.typtype ≠ 'r' ∧ typtup.typtype ≠ 'm')
    (hdep : listConstraintDependents cat typid = []) :
    ∃ t, pgcd_get_type_collations cat (depth + 1) typid = .ok t ∧ ∀ x ∈ t, x = X := by
  have heq := type_collations_chain cat depth typid typtup h
  have hk : ¬ (typtup.typtype = 'r' ∨ (cat.PG_VERSION_NUM ≥ 140000 ∧ typtup.typtype = 'm')) := by
    rintro (hr | ⟨_, hm⟩)
    · exact hkind.1 hr
    · exact hkind.2 hm
  rw [if_neg (not_not.mpr helem), if_neg (not_not.mpr hbase), if_neg (not_not.mpr hrel),
    if_neg hk, hdep] at heq
  by_cases hv : typtup.typcollation = InvalidOid
  · rw [if_neg (not_not.mpr hv)] at heq
    refine ⟨[], heq, ?_⟩
    intro x hx; cases hx
  · rw [if_pos hv] at heq
    refine ⟨[typtup.typcollation], heq, ?_⟩
    intro x hx
    rcases hcoll with hc | hc
    · rw [List.mem_singleton.mp hx, hc]
    · exact absurd hc hv

theorem rel_fold_single (tc : Oid → Except PgError (List Oid))
    (att : FormData_pg_attribute) (X : Oid) (t : List Oid)
    (hnum : 0 ≤ att.attnum) (hX : att.attcollation = X) (hXv : X ≠ InvalidOid)
    (htc : tc att.atttypid = .ok t) (ht : ∀ x ∈ t, x = X)
    (l : List FormData_pg_attribute) (hl : ∀ a ∈ l, a.attnum < 0 ∨ a = att)
    (res : List Oid) :
    ∃ r, l.foldlM (pgcd_get_rel_collations.body tc) res = .ok r ∧
      ∀ x, x ∈ r ↔ (x ∈ res ∨ (x = X ∧ att ∈ l)) := by
  induction l generalizing res with
  | nil =>
    refine ⟨res, rfl, ?_⟩
    intro x
    simp
  | cons a rest ih =>
    have hrest : ∀ b ∈ rest, b.attnum < 0 ∨ b = att :=
      fun b hb => hl b (List.mem_cons_of_mem _ hb)
    rw [List.foldlM_cons]
    rcases hl a (List.mem_cons_self _ _) with hsys | ha
    · have hbody : pgcd_get_rel_collations.body tc res a = .ok res := by
        unfold pgcd_get_rel_collations.body
        rw [if_pos hsys]
        rfl
      rw [hbody]
      obtain ⟨r, hr, hmem⟩ := ih hrest res
      refine ⟨r, hr, ?_⟩
      intro x
      rw [hmem x]
      have hne : a ≠ att := by
        intro he
        rw [he] at hsys
        exact absurd hsys (not_lt.mpr hnum)
      constructor
      · rintro (hx | ⟨hx, hmemr⟩)
        · exact Or.inl hx
        · exact Or.inr ⟨hx, List.mem_cons_of_mem _ hmemr⟩
      · rintro (hx | ⟨hx, hmemr⟩)
        · exact Or.inl hx
        · rcases List.mem_cons.mp hmemr with he | hmemr
          · exact absurd he.symm hne
          · exact Or.inr ⟨hx, hmemr⟩
    · subst ha
      have hvalid : OidIsValid a.attcollation = true := by
        rw [hX]
        simpa [OidIsValid] using hXv
      have hbody : pgcd_get_rel_collations.body tc res a
          = .ok (res ++ [a.attcollation] ++ t) := by
        unfold pgcd_get_rel_collations.body APPEND_TYPE_COLLS
        rw [if_neg (not_lt.mpr hnum)]
        simp only [hvalid, if_true, htc, bind, Except.bind, pure, Except.pure]
      rw [hbody]
      obtain ⟨r, hr, hmem⟩ := ih hrest (res ++ [a.attcollation] ++ t)
      refine ⟨r, hr, ?_⟩
      intro x
      rw [hmem x]
      constructor
      · rintro (hx | ⟨hx, _⟩)
        · rcases List.mem_append.mp hx with hx | hx
          · rcases List.mem_append.mp hx with hx | hx
            · exact Or.inl hx
            · exact Or.inr ⟨by rw [List.mem_singleton.mp hx, hX], List.mem_cons_self _ _⟩
          · exact Or.inr ⟨ht x hx, List.mem_cons_self _ _⟩
        · exact Or.inr ⟨hx, List.mem_cons_self _ _⟩
      · rintro (hx | ⟨hx, _⟩)
        · exact Or.inl (List.mem_append_left _ (List.mem_append_left _ hx))
        · refine Or.inl (List.mem_append_left _ (List.mem_append_right _ ?_))
          rw [hx, hX]
          exact List.mem_singleton.mpr rfl

/-- C8: on a relation whose only non-system attribute is a column with the
valid collation `X`, of a type with no other collatable structure (its
declared collation, if valid, is `X`; it has no element type, no base type,
no relation, is not a range or multirange) and no constraint attached by a
dependency edge, the relation resolver succeeds and the set of members of
its result is exactly `{X}`. -/
theorem rel_single_scalar_column (cat : Catalog) (depth : Nat) (relid : Oid)
    (att : FormData_pg_attribute) (typtup : FormData_pg_type) (X : Oid)
    (hatt : att ∈ scan_pg_attribute cat relid)
    (honly : ∀ a ∈ scan_pg_attribute cat relid, a.attnum < 0 ∨ a = att)
    (hnum : 0 ≤ att.attnum) (hX : att.attcollation = X) (hXv : X ≠ InvalidOid)
    (htyp : SearchSysCache1_TYPEOID cat att.atttypid = some typtup)
    (hcoll : typtup.typcollation = X ∨ typtup.typcollation = InvalidOid)
    (helem : typtup.typelem = InvalidOid) (hbase : typtup.typbasetype = InvalidOid)
    (hrel : typtup.typrelid = InvalidOid)
    (hkind : typtup.typtype ≠ 'r' ∧ typtup.typtype ≠ 'm')
    (hdep : listConstraintDependents cat att.atttypid = []) :
    ∃ res, pgcd_get_rel_collations cat (depth + 2) relid = .ok res ∧
      ∀ x, x ∈ res ↔ x = X := by
  obtain ⟨t, htc, ht⟩ := scalar_type_collations cat depth att.atttypid typtup X htyp hcoll
    helem hbase hrel hkind hdep
  obtain ⟨r, hr, hmem⟩ := rel_fold_single (pgcd_get_type_collations cat (depth + 1)) att X t
    hnum hX hXv htc ht (scan_pg_attribute cat relid) honly []
  refine ⟨r, ?_, ?_⟩
  · rw [pgcd_get_rel_collations]
    exact hr
  · intro x
    rw [hmem x]
    constructor
    · rintro (hx | ⟨hx, _⟩)
      · cases hx
      · exact hx
    · intro hx
      exact Or.inr ⟨hx, hatt⟩

/-- Witness of C8: the relation `16710` of `fixture_domain`, with the
column `x` of type `text` and collation `100` and a system column. -/
theorem rel_single_scalar_column_witness :
    pgcd_get_rel_collations fixture_domain 2 16710 = .ok [100, 100] ∧
    ∃ res, pgcd_get_rel_collations fixture_domain 2 16710 = .ok res ∧
      ∀ x, x ∈ res ↔ x = 100 :=
  ⟨rfl, rel_single_scalar_column fixture_domain 0 16710
    { attrelid := 16710, attnum := 1, atttypid := TEXTOID, attcollation := 100 }
    { oid := TEXTOID, typcollation := 100, typelem := 0, typbasetype := 0,
      typrelid := 0, typtype := 'b' } 100
    (by decide) (by decide) (by decide) rfl (by decide) rfl (Or.inl rfl) rfl rfl rfl
    (by decide) rfl⟩

/-! ## End to end on the fixture -/

theorem sorted_lt_all_eq (l : List Oid) (c : Oid) (hs : l.Sorted (fun a b => a < b))
    (hc : c ∈ l) (hall : ∀ x ∈ l, x = c) : l = [c] := by
  match l, hs, hc, hall with
  | [], _, hc, _ => cases hc
  | [a], _, _, hall => rw [hall a (List.mem_singleton.mpr rfl)]
  | a :: b :: t, hs, _, hall =>
    have ha : a = c := hall a (List.mem_cons_self _ _)
    have hb : b = c := hall b (List.mem_cons_of_mem _ (List.mem_cons_self _ _))
    have hlt : a < b := List.rel_of_sorted_cons hs b (List.mem_cons_self _ _)
    rw [ha, hb] at hlt
    exact absurd hlt (lt_irrefl c)

theorem normalize_eq_singleton (l : List Oid) (c : Oid) (hc : c ∈ l)
    (hall : ∀ x ∈ l, x = c) : normalize l = [c] :=
  sorted_lt_all_eq (normalize l) c (normalize_sorted l) ((normalize_mem c l).mpr hc)
    (fun x hx => hall x ((normalize_mem x l).mp hx))

/-- C9: on the fixture, relation `T(a text with collation C1, b int[])` and
constraint `CHECK (a <> '')` with key list `[a]`, the constraint entry
point returns exactly `[C1]`, for every valid `C1` and every depth from `4`
on. -/
theorem check_constraint_end_to_end (C1 : Oid) (hC1 : C1 ≠ InvalidOid) (depth : Nat) :
    pg_collation_constraint_dependencies (fixture C1) (depth + 4) 16390 = .ok [C1] := by
  cases C1 with
  | zero => exact absurd rfl hC1
  | succ n =>
    have hraw : pgcd_get_constraint_collations (fixture (n + 1)) (depth + 4) 16390
        = .ok [n + 1, n + 1, n + 1, n + 1, n + 1, n + 1] := rfl
    simp only [pg_collation_constraint_dependencies, pgcd_constraint_deps, hraw, bind,
      Except.bind, pure, Except.pure]
    rw [normalize_eq_singleton _ (n + 1) (List.mem_cons_self _ _)]
    intro x hx
    simp only [List.mem_cons, List.mem_singleton, or_self, List.not_mem_nil, or_false] at hx
    exact hx

/-- Witness of C9: with the collation `100`. -/
theorem check_constraint_end_to_end_witness :
    pg_collation_constraint_dependencies (fixture 100) 4 16390 = .ok [100] :=
  check_constraint_end_to_end 100 (by decide) 0

/-- C10: on the fixture, the index on `T` whose single key column is `a`,
with no collation of its own, no expression and no predicate, the index
entry point returns exactly `[C1]`, which is the result of the type
resolver for the type of `a`, for every valid `C1` and every depth from `1`
on. -/
theorem index_end_to_end (C1 : Oid) (hC1 : C1 ≠ InvalidOid) (depth : Nat) :
    pg_collation_index_dependencies (fixture C1) (depth + 1) 16391 = .ok [C1] ∧
    pgcd_get_type_collations (fixture C1) (depth + 1) (get_atttype (fixture C1) 16384 1)
      = .ok [C1] := by
  cases C1 with
  | zero => exact absurd rfl hC1
  | succ n => exact ⟨rfl, rfl⟩

/-- Witness of C10: with the collation `100`. -/
theorem index_end_to_end_witness :
    pg_collation_index_dependencies (fixture 100) 1 16391 = .ok [100] ∧
    pgcd_get_type_collations (fixture 100) 1 (get_atttype (fixture 100) 16384 1)
      = .ok [100] :=
  index_end_to_end 100 (by decide) 0


/-! ## A relation with no attribute -/

/-- C14 as stated fails: the relation `16801` of `fixture_empty_composite`
has no row in `pg_attribute`, and the relation resolver returns the empty
list for it, as does the type resolver for its composite type; no error of
the class `NotFound` is raised. -/
theorem rel_without_attributes_is_not_an_error :
    scan_pg_attribute fixture_empty_composite 16801 = [] ∧
    pgcd_get_rel_collations fixture_empty_composite 1 16801 = .ok [] ∧
    pgcd_get_type_collations fixture_empty_composite 2 16800 = .ok [] ∧
    ¬ ∃ e, pgcd_get_rel_collations fixture_empty_composite 1 16801 = .error e ∧
      e.errorClass = ErrorClass.NotFound := by
  refine ⟨rfl, rfl, rfl, ?_⟩
  rintro ⟨e, he, _⟩
  have h1 : pgcd_get_rel_collations fixture_empty_composite 1 16801 = .ok [] := rfl
  rw [h1] at he
  cases he

/-- C14, amended: for every relation identifier for which the catalog
holds no attribute record, the relation resolver succeeds and returns the
empty list, at every depth from `1` on. -/
theorem rel_without_attributes_returns_empty (cat : Catalog) (depth : Nat) (relid : Oid)
    (h : scan_pg_attribute cat relid = []) :
    pgcd_get_rel_collations cat (depth + 1) relid = .ok [] := by
  rw [pgcd_get_rel_collations, h]
  rfl

/-- Witness of C14: an identifier with no attribute record in the
fixture. -/
theorem rel_without_attributes_returns_empty_witness :
    pgcd_get_rel_collations (fixture 100) 1 99999 = .ok [] :=
  rel_without_attributes_returns_empty (fixture 100) 0 99999 rfl

/-! ## Invalid positions in the key list of a constraint -/

/-- C13, evaluation of the source: the loop over the key list skips an
invalid (zero) position whatever the collector and the tuple descriptor
are, with no test on the presence of a stored expression. On the
constraint `16902` of `fixture_wholerow`, with a stored expression and the
key list `[0, 1]`, the position is skipped and the resolution goes on to
the column `1`. On the constraint `16901`, with the key list `[0]` and no
stored expression, the resolver and the entry point return the empty list
at every depth from `1` on: no error is raised. -/
theorem invalid_key_position_is_skipped :
    (∀ (tc : Oid → Except PgError (List Oid)) (tupdesc : List FormData_pg_attribute)
      (res : List Oid), pgcd_get_constraint_collations.body tc tupdesc res 0 = .ok res) ∧
    (∀ depth, pgcd_get_constraint_collations fixture_wholerow (depth + 6) 16902
      = .ok [100, 100, 100]) ∧
    (∀ depth, pgcd_get_constraint_collations fixture_wholerow (depth + 1) 16901 = .ok []) ∧
    (∀ depth, pg_collation_constraint_dependencies fixture_wholerow (depth + 1) 16901
      = .ok []) :=
  ⟨fun _ _ _ => rfl, fun _ => rfl, fun _ => rfl, fun _ => rfl⟩

/-! ## Errors and the catalog -/

theorem foldlM_error {α β : Type} (f : β → α → Except PgError β) (l : List α) (init : β)
    (e : PgError) (h : l.foldlM f init = .error e) :
    ∃ acc x, x ∈ l ∧ f acc x = .error e := by
  induction l generalizing init with
  | nil => simp only [List.foldlM, pure, Except.pure] at h; cases h
  | cons a t ih =>
    rw [List.foldlM_cons] at h
    cases hfa : f init a with
    | error e' =>
      simp only [hfa, bind, Except.bind] at h
      injection h with h
      subst h
      exact ⟨init, a, List.mem_cons_self _ _, hfa⟩
    | ok acc =>
      simp only [hfa, bind, Except.bind] at h
      obtain ⟨acc', x, hx, hfx⟩ := ih acc h
      exact ⟨acc', x, List.mem_cons_of_mem _ hx, hfx⟩

theorem APPEND_TYPE_COLLS_error (tc : Oid → Except PgError (List Oid)) (l : List Oid)
    (o : Oid) (e : PgError) (h : APPEND_TYPE_COLLS tc l o = .error e) : tc o = .error e := by
  unfold APPEND_TYPE_COLLS at h
  cases ht : tc o with
  | error e' =>
    simp only [ht, bind, Except.bind] at h
    injection h with h
    rw [h]
  | ok r => simp only [ht, bind, Except.bind, pure, Except.pure] at h; cases h

theorem foldlM_APPEND_TYPE_COLLS_error (tc : Oid → Except PgError (List Oid))
    (os l : List Oid) (e : PgError) (h : os.foldlM (APPEND_TYPE_COLLS tc) l = .error e) :
    ∃ o, tc o = .error e := by
  obtain ⟨acc, o, _, ho⟩ := foldlM_error _ os l e h
  exact ⟨o, APPEND_TYPE_COLLS_error tc acc o e ho⟩

theorem walker_switch_error (v : Nat) (tc : Oid → Except PgError (List Oid))
    (l : List Oid) (kind : NodeKind) (e : PgError)
    (h : walker_switch v tc l kind = .error e) :
    e = .unexpected_node_type ∨ ∃ o, tc o = .error e := by
  cases kind <;> simp only [walker_switch, pure, Except.pure] at h
  case T_SubscriptingRef =>
    split_ifs at h
    injection h with h
    exact Or.inl h.symm
  case T_RowExpr =>
    split_ifs at h
    exact Or.inr ⟨_, APPEND_TYPE_COLLS_error tc _ _ e h⟩
  case T_SQLValueFunction =>
    split_ifs at h
    injection h with h
    exact Or.inl h.symm
  case other =>
    injection h with h
    exact Or.inl h.symm
  all_goals
    first
    | exact Or.inr ⟨_, APPEND_TYPE_COLLS_error tc _ _ e h⟩
    | exact Or.inr (foldlM_APPEND_TYPE_COLLS_error tc _ _ e h)
    | cases h

theorem tree_walker_error (walker : Node → List Oid → Except PgError (List Oid))
    (children : List Node) (l : List Oid) (e : PgError)
    (h : tree_walker walker children l = .error e) :
    ∃ child acc, child ∈ children ∧ walker child acc = .error e := by
  obtain ⟨acc, x, hx, hfx⟩ := foldlM_error _ children l e h
  exact ⟨x, acc, hx, hfx⟩

theorem resolvers_errors_justified (cat : Catalog) (depth : Nat) :
    (∀ node l e, pgcd_query_expression_walker cat depth node l = .error e →
      ErrorJustified cat e) ∧
    (∀ relid e, pgcd_get_rel_collations cat depth relid = .error e → ErrorJustified cat e) ∧
    (∀ conid e, pgcd_get_constraint_collations cat depth conid = .error e →
      ErrorJustified cat e) ∧
    (∀ rngid m e, pgcd_get_range_type_collations cat depth rngid m = .error e →
      ErrorJustified cat e) ∧
    (∀ typid e, pgcd_get_type_collations cat depth typid = .error e →
      ErrorJustified cat e) := by
  induction depth with
  | zero =>
    refine ⟨?_, ?_, ?_, ?_, ?_⟩
    · intro node l e h; rw [pgcd_query_expression_walker] at h
      injection h with h; subst h; exact True.intro
    · intro o e h; rw [pgcd_get_rel_collations] at h
      injection h with h; subst h; exact True.intro
    · intro o e h; rw [pgcd_get_constraint_collations] at h
      injection h with h; subst h; exact True.intro
    · intro o m e h; rw [pgcd_get_range_type_collations] at h
      injection h with h; subst h; exact True.intro
    · intro o e h; rw [pgcd_get_type_collations] at h
      injection h with h; subst h; exact True.intro
  | succ d ih =>
    obtain ⟨ihW, ihRel, ihCon, ihRng, ihTy⟩ := ih
    have hwalk : ∀ children l e,
        tree_walker (pgcd_query_expression_walker cat d) children l = .error e →
        ErrorJustified cat e := by
      intro children l e h
      obtain ⟨child, acc, _, hc⟩ := tree_walker_error _ children l e h
      exact ihW child acc e hc
    refine ⟨?_, ?_, ?_, ?_, ?_⟩
    · intro node l e h
      cases node with
      | null => rw [pgcd_query_expression_walker] at h; cases h
      | node kind children =>
        rw [pgcd_query_expression_walker] at h
        cases hs : walker_switch cat.PG_VERSION_NUM (pgcd_get_type_collations cat d) l kind with
        | error e' =>
          simp only [hs, bind, Except.bind] at h
          injection h with h
          subst h
          rcases walker_switch_error _ _ l kind e' hs with he | ⟨o, ho⟩
          · subst he; exact True.intro
          · exact ihTy o e' ho
        | ok c1 =>
          simp only [hs, bind, Except.bind] at h
          split at h
          · cases hb : coerce_arg_is_scalar_reference children with
            | error e' =>
              simp only [hb] at h
              injection h with h
              subst h
              unfold coerce_arg_is_scalar_reference at hb
              split at hb
              · cases hb
              · injection hb with hb; subst hb; exact True.intro
            | ok b =>
              simp only [hb] at h
              split_ifs at h
              · cases h
              · exact hwalk children c1 e h
          · exact hwalk children c1 e h
    · intro relid e h
      rw [pgcd_get_rel_collations] at h
      obtain ⟨acc, att, _, hstep⟩ := foldlM_error _ _ _ e h
      unfold pgcd_get_rel_collations.body at hstep
      split_ifs at hstep
      · cases hstep
      · exact ihTy _ e (APPEND_TYPE_COLLS_error _ _ _ e hstep)
      · exact ihTy _ e (APPEND_TYPE_COLLS_error _ _ _ e hstep)
    · intro conid e h
      rw [pgcd_get_constraint_collations] at h
      split at h
      · rename_i hscan
        injection h with h
        subst h
        exact hscan
      · rename_i tup _
        cases he : pgcd_get_constraint_collations.expression
            (pgcd_query_expression_walker cat d) tup.conbin with
        | error e' =>
          simp only [he, bind, Except.bind] at h
          injection h with h
          subst h
          unfold pgcd_get_constraint_collations.expression at he
          split at he
          · unfold pgcd_get_query_expression_collations at he
            split at he
            · exact hwalk _ _ e' he
            · exact ihW _ _ e' he
          · cases he
        | ok r1 =>
          simp only [he, bind, Except.bind] at h
          unfold pgcd_get_constraint_collations.keys at h
          split at h
          · cases h
          · cases ho : relation_open cat tup.conrelid with
            | error e' =>
              simp only [ho, bind, Except.bind] at h
              injection h with h
              subst h
              unfold relation_open at ho
              split at ho
              · cases ho
              · rename_i hfind
                injection ho with ho
                subst ho
                exact hfind
            | ok rel =>
              simp only [ho, bind, Except.bind] at h
              split_ifs at h
              · injection h with h; subst h; exact True.intro
              · obtain ⟨acc, k, _, hstep⟩ := foldlM_error _ _ _ e h
                unfold pgcd_get_constraint_collations.body at hstep
                simp only [bind, Except.bind, pure, Except.pure] at hstep
                split_ifs at hstep
                · cases ha : TupleDescAttr (rd_att cat tup.conrelid)
                      (int16_to_Oid k - 1) with
                  | error e' =>
                    simp only [ha] at hstep
                    injection hstep with hstep
                    subst hstep
                    unfold TupleDescAttr at ha
                    split at ha
                    · cases ha
                    · injection ha with ha; subst ha; exact True.intro
                  | ok att =>
                    simp only [ha] at hstep
                    exact ihTy _ e (APPEND_TYPE_COLLS_error _ _ _ e hstep)
    · intro rngid m e h
      rw [pgcd_get_range_type_collations] at h
      split at h
      · rename_i hscan
        injection h with h
        subst h
        exact ⟨m, hscan⟩
      · exact ihTy _ e (APPEND_TYPE_COLLS_error _ _ _ e h)
    · intro typid e h
      rw [pgcd_get_type_collations] at h
      split at h
      · rename_i hlook
        injection h with h
        subst h
        exact hlook
      · rename_i typtup _
        cases hp : pgcd_get_type_collations.primary cat.PG_VERSION_NUM
            (pgcd_get_type_collations cat d) (pgcd_get_rel_collations cat d)
            (pgcd_get_range_type_collations cat d) typtup with
        | error e' =>
          simp only [hp, bind, Except.bind] at h
          injection h with h
          subst h
          unfold pgcd_get_type_collations.primary at hp
          split_ifs at hp
          · cases hp
          · exact ihTy _ e' hp
          · exact ihTy _ e' hp
          · exact ihRel _ e' hp
          · exact ihRng _ _ e' hp
          · cases hp
        | ok r1 =>
          simp only [hp, bind, Except.bind] at h
          obtain ⟨acc, dep, _, hstep⟩ := foldlM_error _ _ _ e h
          unfold pgcd_get_type_collations.body at hstep
          simp only [bind, Except.bind, pure, Except.pure] at hstep
          split_ifs at hstep
          cases hc : pgcd_get_constraint_collations cat d dep.objid with
          | error e' =>
            simp only [hc] at hstep
            injection hstep with hstep
            subst hstep
            exact ihCon _ e' hc
          | ok rc => simp only [hc] at hstep; cases hstep

/-- C12 as stated fails: the constraint `17611` of `fixture_dropped_column`
exists, and the resolver fails on it with an error of class `NotFound`. Its
expression is on the whole row, so the type resolver goes through the
columns of the table, and the type identifier of the dropped column is not
a type: the error is the one for a type that was not found. -/
theorem existing_constraint_fails_with_not_found :
    (∃ tup, scan_pg_constraint fixture_dropped_column 17611 = some tup) ∧
    (∀ depth, pgcd_get_constraint_collations fixture_dropped_column (depth + 6) 17611
      = .error (.could_not_find_type InvalidOid)) ∧
    (PgError.could_not_find_type InvalidOid).errorClass = ErrorClass.NotFound :=
  ⟨⟨_, rfl⟩, fun _ => rfl, rfl⟩

/-- C12, amended: an existing constraint that has neither a stored
expression nor a key list resolves to the empty list, at every depth from
`1` on; a constraint identifier absent from the catalog makes the resolver
fail with the not-found error of the constraint, of class `NotFound`; the
resolver reports that error for the identifier only when the catalog has no
constraint with this identifier; and when an existing constraint fails, the
error is another one, which, if it is for an object that was not found,
names a constraint, a type, a range or a relation that the catalog does not
have. -/
theorem constraint_neither_form_or_absent (cat : Catalog) (depth : Nat) (conid : Oid) :
    (∀ tup, scan_pg_constraint cat conid = some tup → tup.conbin = none →
      tup.conkey = none → pgcd_get_constraint_collations cat (depth + 1) conid = .ok []) ∧
    (scan_pg_constraint cat conid = none →
      pgcd_get_constraint_collations cat (depth + 1) conid
        = .error (.could_not_find_constraint conid) ∧
      (PgError.could_not_find_constraint conid).errorClass = ErrorClass.NotFound) ∧
    (pgcd_get_constraint_collations cat (depth + 1) conid
        = .error (.could_not_find_constraint conid) →
      scan_pg_constraint cat conid = none) ∧
    (∀ tup e, scan_pg_constraint cat conid = some tup →
      pgcd_get_constraint_collations cat (depth + 1) conid = .error e →
      e ≠ .could_not_find_constraint conid ∧ ErrorJustified cat e) := by
  refine ⟨?_, ?_, ?_, ?_⟩
  · intro tup hscan hbin hkey
    rw [pgcd_get_constraint_collations]
    simp only [hscan, hbin, pgcd_get_constraint_collations.expression,
      pgcd_get_constraint_collations.keys, hkey, bind, Except.bind, pure, Except.pure]
  · intro hscan
    refine ⟨?_, rfl⟩
    rw [pgcd_get_constraint_collations]
    simp only [hscan]
  · intro h
    exact (resolvers_errors_justified cat (depth + 1)).2.2.1 conid _ h
  · intro tup e hscan h
    have hj := (resolvers_errors_justified cat (depth + 1)).2.2.1 conid e h
    refine ⟨fun he => ?_, hj⟩
    subst he
    have hnone : scan_pg_constraint cat conid = none := hj
    rw [hnone] at hscan
    cases hscan

/-- Witness of C12: the constraint `16903` of `fixture_wholerow` has
neither form, the identifier `16999` is not a constraint, and the error of
the existing constraint `17611` of `fixture_dropped_column` names a type
that the catalog does not have. -/
theorem constraint_neither_form_or_absent_witness :
    pgcd_get_constraint_collations fixture_wholerow 1 16903 = .ok [] ∧
    pgcd_get_constraint_collations fixture_wholerow 1 16999
      = .error (.could_not_find_constraint 16999) ∧
    PgError.could_not_find_type InvalidOid ≠ .could_not_find_constraint 17611 ∧
    SearchSysCache1_TYPEOID fixture_dropped_column InvalidOid = none :=
  ⟨(constraint_neither_form_or_absent fixture_wholerow 0 16903).1
      { oid := 16903, conrelid := 16900, conbin := none, conkey := none } rfl rfl rfl,
    ((constraint_neither_form_or_absent fixture_wholerow 0 16999).2.1 rfl).1,
    (constraint_neither_form_or_absent fixture_dropped_column 5 17611).2.2.2
      { oid := 17611, conrelid := 17610,
        conbin := some fixture_dropped_column_check_expr,
        conkey := some { ndim := 1, hasnull := false, elemtype := INT2OID, elems := [0] } }
      (.could_not_find_type InvalidOid) rfl rfl⟩

/-! ## The normalizer and the order of its input -/

/-- C19: the normalizer does not depend on the order of its input: two
lists that are permutations of each other have the same normalized list. -/
theorem normalize_order_independent (l l' : List Oid) (h : l.Perm l') :
    list_deduplicate_oid (list_sort l' list_oid_cmp) =
      list_deduplicate_oid (list_sort l list_oid_cmp) := by
  have hp : (list_sort l' list_oid_cmp).Perm (list_sort l list_oid_cmp) :=
    (list_sort_perm l').trans (h.symm.trans (list_sort_perm l).symm)
  rw [List.eq_of_perm_of_sorted hp (list_sort_sorted l') (list_sort_sorted l)]

/-- Witness of C19: two orders of the same collations. -/
theorem normalize_order_independent_witness :
    list_deduplicate_oid (list_sort [100, 950, 100, 12] list_oid_cmp) =
      list_deduplicate_oid (list_sort [950, 100, 12, 100] list_oid_cmp) ∧
    list_deduplicate_oid (list_sort [950, 100, 12, 100] list_oid_cmp) = [12, 100, 950] :=
  ⟨normalize_order_independent [950, 100, 12, 100] [100, 950, 100, 12] (by decide), rfl⟩


/-! ## The materialized view resolver -/

/-- C16 as stated fails in its last part: the materialized view `17001` of
`fixture_matview` has exactly one `SELECT INSTEAD` rule with exactly one
action, and the resolver does not succeed on it at any depth: the walk of
its query meets a node of a kind the walker has no case for, and from depth
`4` on the resolver fails with that error, of class
`UnsupportedConstruct`. -/
theorem matview_walk_failure_is_resolver_failure :
    (∃ rel rule query, relation_open fixture_matview 17001 = .ok rel ∧
      rel.relkind = RELKIND_MATVIEW ∧ rel.relhasrules = true ∧ rel.rd_rules = [rule] ∧
      rule.event = CmdType.CMD_SELECT ∧ rule.isInstead = true ∧ rule.actions = [query]) ∧
    (∀ depth, pgcd_matview_deps fixture_matview (depth + 4) 17001
      = .error .unexpected_node_type) ∧
    (∀ depth res, pgcd_matview_deps fixture_matview depth 17001 ≠ .ok res) ∧
    PgError.unexpected_node_type.errorClass = ErrorClass.UnsupportedConstruct := by
  have h4 : ∀ depth, pgcd_matview_deps fixture_matview (depth + 4) 17001
      = .error .unexpected_node_type := fun _ => rfl
  refine ⟨⟨_, _, _, rfl, rfl, rfl, rfl, rfl, rfl, rfl⟩, h4, ?_, rfl⟩
  intro depth res h
  match depth, h with
  | 0, h => cases h
  | 1, h => cases h
  | 2, h => cases h
  | 3, h => cases h
  | d + 4, h => rw [h4 d] at h; cases h

theorem pgcd_matview_deps_of_open (cat : Catalog) (depth : Nat) (matview_oid : Oid)
    (rel : FormData_pg_class) (h : relation_open cat matview_oid = .ok rel) :
    pgcd_matview_deps cat depth matview_oid =
      (if rel.relkind != RELKIND_MATVIEW then
        .error (.is_not_a_materialized_view matview_oid)
      else if rel.relhasrules == false || rel.rd_rules.length < 1 then
        .error (.missing_rewrite_information matview_oid)
      else if rel.rd_rules.length > 1 then
        .error (.has_too_many_rules matview_oid)
      else
        match rel.rd_rules with
        | [] => .error (.missing_rewrite_information matview_oid)
        | rule :: _ =>
          if rule.event != CmdType.CMD_SELECT || !rule.isInstead then
            .error (.not_a_SELECT_INSTEAD_OF_rule matview_oid)
          else
            match rule.actions with
            | [dataQuery] => do
              let res ← pgcd_get_query_expression_collations
                (pgcd_query_expression_walker cat depth) dataQuery
              pure (normalize res)
            | _ => .error (.not_a_single_action matview_oid)) := by
  unfold pgcd_matview_deps
  rw [h]
  rfl

/-- C16, amended: the materialized view resolver fails with an error of
class `NotFound` when the identifier names no relation or a relation that
is not a materialized view; it fails with an error of class
`CorruptCatalog` when the view has no rewrite rule, more than one rule, a
rule that is not `SELECT INSTEAD`, or a rule whose action list does not
have exactly one action; in every other case its outcome is the outcome of
the walk of the single defining query, the normalized list when the walk
succeeds and the error of the walk when it fails. -/
theorem matview_resolver_outcomes (cat : Catalog) (depth : Nat) (matview_oid : Oid) :
    (cat.pg_class.find? (fun c => c.oid == matview_oid) = none →
      ∃ e, pgcd_matview_deps cat depth matview_oid = .error e ∧
        e.errorClass = ErrorClass.NotFound) ∧
    (∀ rel, relation_open cat matview_oid = .ok rel → rel.relkind ≠ RELKIND_MATVIEW →
      ∃ e, pgcd_matview_deps cat depth matview_oid = .error e ∧
        e.errorClass = ErrorClass.NotFound) ∧
    (∀ rel, relation_open cat matview_oid = .ok rel → rel.relkind = RELKIND_MATVIEW →
      (rel.relhasrules = false ∨ rel.rd_rules.length ≠ 1 ∨
        ∃ rule, rel.rd_rules = [rule] ∧
          (rule.event ≠ CmdType.CMD_SELECT ∨ rule.isInstead = false ∨
            rule.actions.length ≠ 1)) →
      ∃ e, pgcd_matview_deps cat depth matview_oid = .error e ∧
        e.errorClass = ErrorClass.CorruptCatalog) ∧
    (∀ rel rule dataQuery, relation_open cat matview_oid = .ok rel →
      rel.relkind = RELKIND_MATVIEW → rel.relhasrules = true → rel.rd_rules = [rule] →
      rule.event = CmdType.CMD_SELECT → rule.isInstead = true →
      rule.actions = [dataQuery] →
      pgcd_matview_deps cat depth matview_oid =
        (do
          let res ← pgcd_get_query_expression_collations
            (pgcd_query_expression_walker cat depth) dataQuery
          pure (normalize res))) := by
  refine ⟨?_, ?_, ?_, ?_⟩
  · intro hfind
    refine ⟨.could_not_open_relation matview_oid, ?_, rfl⟩
    unfold pgcd_matview_deps relation_open
    rw [hfind]
    rfl
  · intro rel hopen hkind
    refine ⟨.is_not_a_materialized_view matview_oid, ?_, rfl⟩
    rw [pgcd_matview_deps_of_open cat depth matview_oid rel hopen]
    have hb : (rel.relkind != RELKIND_MATVIEW) = true := by simpa using hkind
    rw [if_pos hb]
  · intro rel hopen hkind hbad
    rw [pgcd_matview_deps_of_open cat depth matview_oid rel hopen]
    have hb : ¬ (rel.relkind != RELKIND_MATVIEW) = true := by simp [hkind]
    rw [if_neg hb]
    by_cases h1 : (rel.relhasrules == false || decide (rel.rd_rules.length < 1)) = true
    · rw [if_pos h1]
      exact ⟨_, rfl, rfl⟩
    · rw [if_neg h1]
      by_cases h2 : rel.rd_rules.length > 1
      · rw [if_pos h2]
        exact ⟨_, rfl, rfl⟩
      · rw [if_neg h2]
        simp only [Bool.or_eq_true, beq_iff_eq, decide_eq_true_eq, not_or] at h1
        obtain ⟨hrules, hlen⟩ := h1
        match hr : rel.rd_rules, hlen, h2 with
        | [], hlen, _ => exact absurd (by simp) hlen
        | [rule], _, _ =>
          simp only []
          by_cases h3 : (rule.event != CmdType.CMD_SELECT || !rule.isInstead) = true
          · rw [if_pos h3]
            exact ⟨_, rfl, rfl⟩
          · rw [if_neg h3]
            simp only [Bool.or_eq_true, bne_iff_ne, ne_eq, Bool.not_eq_true', not_or,
              not_not, Bool.not_eq_false] at h3
            rcases hbad with hbad | hbad | ⟨rule', hrule', hbad⟩
            · exact absurd hbad hrules
            · rw [hr] at hbad; exact absurd rfl hbad
            · rw [hr] at hrule'
              injection hrule' with hrule' _
              subst hrule'
              rcases hbad with hbad | hbad | hbad
              · exact absurd h3.1 hbad
              · rw [h3.2] at hbad; cases hbad
              · match ha : rule.actions, hbad with
                | [], _ => exact ⟨_, rfl, rfl⟩
                | [q], hbad => exact absurd rfl hbad
                | _ :: _ :: _, _ => exact ⟨_, rfl, rfl⟩
        | _ :: _ :: _, _, h2 => exact absurd (by simp) h2
  · intro rel rule dataQuery hopen hkind hrules hr hev hins hact
    rw [pgcd_matview_deps_of_open cat depth matview_oid rel hopen]
    have hb : ¬ (rel.relkind != RELKIND_MATVIEW) = true := by simp [hkind]
    rw [if_neg hb]
    simp [hrules, hr, hev, hins, hact]

/-- Witness of C16: in `fixture_matview`, the view `17000` resolves to the
normalized walk of its query, the table `17002` and the missing relation
`17999` give an error of class `NotFound`, and the views `17003` to `17006`
an error of class `CorruptCatalog`. -/
theorem matview_resolver_outcomes_witness :
    pgcd_matview_deps fixture_matview 4 17000 = .ok [100] ∧
    pgcd_matview_deps fixture_matview 4 17000 =
      (do
        let res ← pgcd_get_query_expression_collations
          (pgcd_query_expression_walker fixture_matview 4) fixture_matview_query
        pure (normalize res)) ∧
    (∃ e, pgcd_matview_deps fixture_matview 4 17999 = .error e ∧
      e.errorClass = ErrorClass.NotFound) ∧
    pgcd_matview_deps fixture_matview 4 17002 = .error (.is_not_a_materialized_view 17002) ∧
    pgcd_matview_deps fixture_matview 4 17003 = .error (.missing_rewrite_information 17003) ∧
    pgcd_matview_deps fixture_matview 4 17004 = .error (.has_too_many_rules 17004) ∧
    pgcd_matview_deps fixture_matview 4 17005
      = .error (.not_a_SELECT_INSTEAD_OF_rule 17005) ∧
    pgcd_matview_deps fixture_matview 4 17006 = .error (.not_a_single_action 17006) :=
  ⟨rfl,
    (matview_resolver_outcomes fixture_matview 4 17000).2.2.2 _ _ _ rfl rfl rfl rfl rfl rfl
      rfl,
    (matview_resolver_outcomes fixture_matview 4 17999).1 rfl,
    rfl, rfl, rfl, rfl, rfl⟩


/-! ## Expression columns of an index -/

theorem index_body_expression (cat : Catalog) (depth : Nat) (rd_index : FormData_pg_index)
    (state : List Oid × List Node) (i : Nat) (h : is_expression_column rd_index i = true) :
    pgcd_index_deps.body cat depth rd_index state i =
      (match state.2 with
      | [] => .error .too_few_entries_in_indexprs_list
      | indexkey :: next => do
        let r ← pgcd_get_query_expression_collations
          (pgcd_query_expression_walker cat depth) indexkey
        pure (state.1 ++ r, next)) := by
  unfold is_expression_column at h
  unfold pgcd_index_deps.body
  split at h
  · rename_i indkey hk
    have hv : AttributeNumberIsValid indkey = false := by simpa using h
    simp only [hk, hv, Bool.false_eq_true, if_false]
  · cases h

theorem index_body_cursor (cat : Catalog) (depth : Nat) (rd_index : FormData_pg_index)
    (state state' : List Oid × List Node) (i : Nat)
    (h : pgcd_index_deps.body cat depth rd_index state i = .ok state') :
    (is_expression_column rd_index i = true ∧ ∃ e, state.2 = e :: state'.2) ∨
    (is_expression_column rd_index i = false ∧ state'.2 = state.2) := by
  by_cases hx : is_expression_column rd_index i = true
  · left
    refine ⟨hx, ?_⟩
    rw [index_body_expression cat depth rd_index state i hx] at h
    split at h
    · cases h
    · rename_i indexkey next hs
      simp only [bind, Except.bind, pure, Except.pure] at h
      split at h
      · cases h
      · injection h with h
        subst h
        exact ⟨indexkey, hs⟩
  · right
    have hx' : is_expression_column rd_index i = false := by simpa using hx
    refine ⟨hx', ?_⟩
    unfold is_expression_column at hx'
    unfold pgcd_index_deps.body at h
    simp only [bind, Except.bind, pure, Except.pure] at h
    split at h
    · cases h
    · rename_i indkey hk
      simp only [hk] at hx'
      have hv : AttributeNumberIsValid indkey = true := by simpa using hx'
      simp only [hv, if_true] at h
      split at h
      · split at h
        · cases h
        · split_ifs at h
          · injection h with h; subst h; rfl
          · split at h
            · cases h
            · injection h with h; subst h; rfl
      · split at h
        · cases h
        · injection h with h; subst h; rfl

theorem index_fold_cursor (cat : Catalog) (depth : Nat) (rd_index : FormData_pg_index)
    (columns : List Nat) (state state' : List Oid × List Node)
    (h : columns.foldlM (pgcd_index_deps.body cat depth rd_index) state = .ok state') :
    expression_columns rd_index columns ≤ state.2.length ∧
      state'.2 = state.2.drop (expression_columns rd_index columns) := by
  induction columns generalizing state with
  | nil =>
    simp only [List.foldlM, pure, Except.pure] at h
    injection h with h
    subst h
    exact ⟨Nat.zero_le _, rfl⟩
  | cons i rest ih =>
    rw [List.foldlM_cons] at h
    cases hb : pgcd_index_deps.body cat depth rd_index state i with
    | error e => simp only [hb, bind, Except.bind] at h; cases h
    | ok st1 =>
      simp only [hb, bind, Except.bind] at h
      obtain ⟨hle, hdrop⟩ := ih st1 h
      rcases index_body_cursor cat depth rd_index state st1 i hb with ⟨hx, e, hs⟩ | ⟨hx, hs⟩
      · have hc : expression_columns rd_index (i :: rest)
            = expression_columns rd_index rest + 1 := by
          simp only [expression_columns, List.filter_cons, hx, if_true, List.length_cons]
        rw [hc, hs]
        refine ⟨?_, ?_⟩
        · simp only [List.length_cons]
          exact Nat.succ_le_succ hle
        · rw [List.drop_succ_cons]
          exact hdrop
      · have hc : expression_columns rd_index (i :: rest)
            = expression_columns rd_index rest := by
          simp only [expression_columns, List.filter_cons, hx, Bool.false_eq_true, if_false]
        rw [hc, ← hs]
        exact ⟨hle, hdrop⟩

theorem foldlM_append_error {α β : Type} (f : β → α → Except PgError β)
    (pre post : List α) (x : α) (init acc : β) (e : PgError)
    (hpre : pre.foldlM f init = .ok acc) (hx : f acc x = .error e) :
    (pre ++ x :: post).foldlM f init = .error e := by
  rw [List.foldlM_append, hpre]
  simp only [bind, Except.bind, List.foldlM_cons, hx]

theorem pgcd_index_deps_of_lookup (cat : Catalog) (depth : Nat) (index_oid : Oid)
    (rd_index : FormData_pg_index)
    (hidx : SearchSysCache1_INDEXRELID cat index_oid = some rd_index) :
    pgcd_index_deps cat depth index_oid =
      (do
        let state ← (List.range rd_index.indnkeyatts).foldlM
          (pgcd_index_deps.body cat depth rd_index) ([], indexprs_list rd_index)
        let res ← match rd_index.indpred with
          | some indpred => do
            let r ← pgcd_get_query_expression_collations
              (pgcd_query_expression_walker cat depth) indpred
            pure (state.1 ++ r)
          | none => pure state.1
        pure (normalize res)) := by
  unfold pgcd_index_deps
  rw [hidx]
  rfl

theorem pgcd_index_deps_of_loop_error (cat : Catalog) (depth : Nat) (index_oid : Oid)
    (rd_index : FormData_pg_index) (e : PgError)
    (hidx : SearchSysCache1_INDEXRELID cat index_oid = some rd_index)
    (h : (List.range rd_index.indnkeyatts).foldlM (pgcd_index_deps.body cat depth rd_index)
      ([], indexprs_list rd_index) = .error e) :
    pgcd_index_deps cat depth index_oid = .error e := by
  rw [pgcd_index_deps_of_lookup cat depth index_oid rd_index hidx, h]
  rfl

theorem range_split (n j : Nat) (h : j < n) :
    ∃ post, List.range n = List.range j ++ j :: post := by
  induction n with
  | zero => exact absurd h (Nat.not_lt_zero _)
  | succ m ih =>
    rw [List.range_succ]
    by_cases hj : j < m
    · obtain ⟨post, hp⟩ := ih hj
      refine ⟨post ++ [m], ?_⟩
      rw [hp]
      simp only [List.append_assoc, List.cons_append]
    · have hjm : j = m := by omega
      subst hjm
      exact ⟨[], rfl⟩

/-- C15 as stated fails: the index `17100` of `fixture_index_short` has two
expression columns and one stored expression, so its expression list is
shorter than its expression columns, and from depth `1` on the resolver
fails with the error of the walk of the first expression, of class
`UnsupportedConstruct`; it never fails with the error of the short list. -/
theorem index_short_list_other_error_first :
    (∃ rd_index, SearchSysCache1_INDEXRELID fixture_index_short 17100 = some rd_index ∧
      (indexprs_list rd_index).length <
        expression_columns rd_index (List.range rd_index.indnkeyatts)) ∧
    (∀ depth, pgcd_index_deps fixture_index_short (depth + 1) 17100
      = .error .unexpected_node_type) ∧
    (∀ depth, pgcd_index_deps fixture_index_short depth 17100
      ≠ .error .too_few_entries_in_indexprs_list) ∧
    PgError.unexpected_node_type.errorClass ≠ ErrorClass.CorruptCatalog := by
  have h1 : ∀ depth, pgcd_index_deps fixture_index_short (depth + 1) 17100
      = .error .unexpected_node_type := fun _ => rfl
  refine ⟨⟨_, rfl, by decide⟩, h1, ?_, by decide⟩
  intro depth h
  match depth, h with
  | 0, h => cases h
  | d + 1, h => rw [h1 d] at h; cases h

/-- C15, amended: in the loop of the index resolver, a key column that
names no attribute takes the entry under the cursor of the expression list,
walks it and moves the cursor by one, and fails with the error of the short
list, of class `CorruptCatalog`, when no entry is left; the cursor before
the column `i` is past as many entries as there are expression columns
before `i`, so the k-th expression column takes the k-th entry. When the
list has fewer entries than the index has expression columns the resolver
never succeeds; it fails with the error of the short list when the loop
reaches the first column left without an entry, and with the error of an
earlier column when one fails before. The resolver fails with an error of
class `NotFound` when the index identifier is absent. -/
theorem index_expression_columns (cat : Catalog) (depth : Nat) (index_oid : Oid)
    (rd_index : FormData_pg_index)
    (hidx : SearchSysCache1_INDEXRELID cat index_oid = some rd_index) :
    (∀ (state : List Oid × List Node) (i : Nat), is_expression_column rd_index i = true →
      pgcd_index_deps.body cat depth rd_index state i =
        (match state.2 with
        | [] => .error .too_few_entries_in_indexprs_list
        | indexkey :: next => do
          let r ← pgcd_get_query_expression_collations
            (pgcd_query_expression_walker cat depth) indexkey
          pure (state.1 ++ r, next))) ∧
    (∀ (i : Nat) (state : List Oid × List Node),
      (List.range i).foldlM (pgcd_index_deps.body cat depth rd_index)
        ([], indexprs_list rd_index) = .ok state →
      state.2 = (indexprs_list rd_index).drop
        (expression_columns rd_index (List.range i))) ∧
    ((indexprs_list rd_index).length <
        expression_columns rd_index (List.range rd_index.indnkeyatts) →
      ∀ res, pgcd_index_deps cat depth index_oid ≠ .ok res) ∧
    (∀ (j : Nat) (state : List Oid × List Node), j < rd_index.indnkeyatts →
      (List.range j).foldlM (pgcd_index_deps.body cat depth rd_index)
        ([], indexprs_list rd_index) = .ok state →
      is_expression_column rd_index j = true → state.2 = [] →
      pgcd_index_deps cat depth index_oid = .error .too_few_entries_in_indexprs_list) ∧
    PgError.too_few_entries_in_indexprs_list.errorClass = ErrorClass.CorruptCatalog ∧
    (∀ absent_oid, SearchSysCache1_INDEXRELID cat absent_oid = none →
      pgcd_index_deps cat depth absent_oid = .error (.could_not_open_index absent_oid) ∧
      (PgError.could_not_open_index absent_oid).errorClass = ErrorClass.NotFound) := by
  refine ⟨?_, ?_, ?_, ?_, rfl, ?_⟩
  · intro state i hx
    exact index_body_expression cat depth rd_index state i hx
  · intro i state h
    exact (index_fold_cursor cat depth rd_index (List.range i) _ state h).2
  · intro hshort res hres
    cases hfold : (List.range rd_index.indnkeyatts).foldlM
        (pgcd_index_deps.body cat depth rd_index) ([], indexprs_list rd_index) with
    | error e =>
      rw [pgcd_index_deps_of_loop_error cat depth index_oid rd_index e hidx hfold] at hres
      cases hres
    | ok state =>
      have hle := (index_fold_cursor cat depth rd_index _ _ state hfold).1
      exact absurd hle (Nat.not_le_of_gt hshort)
  · intro j state hj hfold hx hempty
    obtain ⟨post, hsplit⟩ := range_split rd_index.indnkeyatts j hj
    apply pgcd_index_deps_of_loop_error cat depth index_oid rd_index _ hidx
    rw [hsplit]
    apply foldlM_append_error _ _ _ _ _ state _ hfold
    rw [index_body_expression cat depth rd_index state j hx, hempty]
  · intro absent_oid habs
    refine ⟨?_, rfl⟩
    unfold pgcd_index_deps
    simp only [habs]

/-- Witness of C15: in `fixture_index_short`, the index `17101` has the
column `a` and one expression column with no stored expression, and fails
with the error of the short list once the column `a` is resolved; the
index `17102` has an expression column with its stored expression and
resolves. -/
theorem index_expression_columns_witness :
    pgcd_index_deps fixture_index_short 1 17101 = .error .too_few_entries_in_indexprs_list ∧
    pgcd_index_deps fixture_index_short 3 17102 = .ok [100, 950] :=
  ⟨(index_expression_columns fixture_index_short 1 17101
      { indexrelid := 17101, indrelid := 16384, indnkeyatts := 2, indkey := [1, 0],
        indcollation := some [0, 0], indexprs := none, indpred := none } rfl).2.2.2.1
      1 ([100], []) (by decide) rfl rfl rfl,
    rfl⟩


/-! ## The switch in normal form -/

theorem walker_switch_normal_form (v : Nat) (tc : Oid → Except PgError (List Oid))
    (l : List Oid) (kind : NodeKind) :
    walker_switch v tc l kind =
      (if in_dispatch_table v kind = true then
        (resolved_types kind).foldlM (APPEND_TYPE_COLLS tc)
          ((appended_collations v kind).foldl APPEND_COLL l)
      else .error .unexpected_node_type) := by
  cases kind <;>
    simp only [walker_switch, in_dispatch_table, appended_collations, resolved_types,
      List.foldl, List.foldlM, if_true, bind_pure, pure_bind, decide_eq_true_eq,
      Bool.false_eq_true, if_false]
  all_goals
    split_ifs <;> simp only [List.foldl, List.foldlM, bind_pure, pure_bind]

theorem pgcd_get_query_expression_collations_roots
    (walker : Node → List Oid → Except PgError (List Oid)) (expr : Node) :
    pgcd_get_query_expression_collations walker expr =
      tree_walker walker (expression_roots expr) [] := by
  unfold pgcd_get_query_expression_collations expression_roots
  split
  · rfl
  · simp only [tree_walker, List.foldlM, bind_pure]

theorem foldlM_split_ok {α β : Type} (f : β → α → Except PgError β)
    (pre post : List α) (x : α) (init r : β)
    (h : (pre ++ x :: post).foldlM f init = .ok r) :
    ∃ acc acc', pre.foldlM f init = .ok acc ∧ f acc x = .ok acc' ∧
      post.foldlM f acc' = .ok r := by
  rw [List.foldlM_append] at h
  cases hpre : pre.foldlM f init with
  | error e => simp only [hpre, bind, Except.bind] at h; cases h
  | ok acc =>
    simp only [hpre, bind, Except.bind, List.foldlM_cons] at h
    cases hx : f acc x with
    | error e => simp only [hx] at h; cases h
    | ok acc' =>
      simp only [hx] at h
      exact ⟨acc, acc', rfl, hx, h⟩

theorem mem_split_list {α : Type} (l : List α) (x : α) (h : x ∈ l) :
    ∃ pre post, l = pre ++ x :: post := by
  induction l with
  | nil => cases h
  | cons a t ih =>
    rcases List.mem_cons.mp h with rfl | h
    · exact ⟨[], t, rfl⟩
    · obtain ⟨pre, post, hp⟩ := ih h
      exact ⟨a :: pre, post, by rw [hp]; rfl⟩

theorem foldlM_grows {α : Type} (f : List Oid → α → Except PgError (List Oid))
    (hf : ∀ acc x acc', f acc x = .ok acc' → ∀ y ∈ acc, y ∈ acc')
    (l : List α) (init r : List Oid) (h : l.foldlM f init = .ok r) :
    ∀ y ∈ init, y ∈ r := by
  intro y hy
  exact foldlM_invariant (fun acc => y ∈ acc) f
    (fun acc x acc' hacc hstep => hf acc x acc' hstep y hacc) l init r hy h

theorem APPEND_TYPE_COLLS_ok (tc : Oid → Except PgError (List Oid)) (l : List Oid)
    (o : Oid) (r : List Oid) (h : APPEND_TYPE_COLLS tc l o = .ok r) :
    ∃ t, tc o = .ok t ∧ r = l ++ t := by
  unfold APPEND_TYPE_COLLS at h
  cases ht : tc o with
  | error e => simp only [ht, bind, Except.bind] at h; cases h
  | ok t =>
    simp only [ht, bind, Except.bind, pure, Except.pure] at h
    injection h with h
    exact ⟨t, rfl, h.symm⟩

theorem APPEND_TYPE_COLLS_grows (tc : Oid → Except PgError (List Oid)) (l : List Oid)
    (o : Oid) (r : List Oid) (h : APPEND_TYPE_COLLS tc l o = .ok r) : ∀ y ∈ l, y ∈ r := by
  obtain ⟨t, _, hr⟩ := APPEND_TYPE_COLLS_ok tc l o r h
  intro y hy
  rw [hr]
  exact List.mem_append_left _ hy

theorem APPEND_COLL_grows (l : List Oid) (o : Oid) : ∀ y ∈ l, y ∈ APPEND_COLL l o := by
  intro y hy
  unfold APPEND_COLL
  split_ifs
  · exact List.mem_append_left _ hy
  · exact hy

theorem foldl_APPEND_COLL_grows (os l : List Oid) :
    ∀ y ∈ l, y ∈ os.foldl APPEND_COLL l := by
  induction os generalizing l with
  | nil => exact fun y hy => hy
  | cons o t ih => exact fun y hy => ih _ y (APPEND_COLL_grows l o y hy)

theorem walker_switch_grows (v : Nat) (tc : Oid → Except PgError (List Oid))
    (l : List Oid) (kind : NodeKind) (r : List Oid)
    (h : walker_switch v tc l kind = .ok r) : ∀ y ∈ l, y ∈ r := by
  rw [walker_switch_normal_form] at h
  split_ifs at h
  intro y hy
  exact foldlM_grows _ (APPEND_TYPE_COLLS_grows tc) _ _ r h y
    (foldl_APPEND_COLL_grows _ l y hy)

theorem walker_succ_ok (cat : Catalog) (depth : Nat) (kind : NodeKind)
    (children : List Node) (l r : List Oid)
    (h : pgcd_query_expression_walker cat (depth + 1) (Node.node kind children) l = .ok r) :
    ∃ c1, walker_switch cat.PG_VERSION_NUM (pgcd_get_type_collations cat depth) l kind
        = .ok c1 ∧
      tree_walker (pgcd_query_expression_walker cat depth)
        (visited_children kind children) c1 = .ok r := by
  rw [pgcd_query_expression_walker] at h
  cases hs : walker_switch cat.PG_VERSION_NUM (pgcd_get_type_collations cat depth) l kind with
  | error e => simp only [hs, bind, Except.bind] at h; cases h
  | ok c1 =>
    simp only [hs, bind, Except.bind] at h
    refine ⟨c1, rfl, ?_⟩
    unfold visited_children
    split at h
    · cases hb : coerce_arg_is_scalar_reference children with
      | error e => simp only [hb] at h; cases h
      | ok b =>
        simp only [hb] at h
        cases b with
        | true =>
          simp only [if_true] at h
          exact h
        | false =>
          simp only [Bool.false_eq_true, if_false] at h
          exact h
    · exact h

theorem walker_succ_error (cat : Catalog) (depth : Nat) (kind : NodeKind)
    (children : List Node) (l c1 : List Oid) (e : PgError)
    (hs : walker_switch cat.PG_VERSION_NUM (pgcd_get_type_collations cat depth) l kind
      = .ok c1)
    (h : tree_walker (pgcd_query_expression_walker cat depth)
      (visited_children kind children) c1 = .error e) :
    pgcd_query_expression_walker cat (depth + 1) (Node.node kind children) l = .error e := by
  rw [pgcd_query_expression_walker]
  simp only [hs, bind, Except.bind]
  unfold visited_children at h
  split
  · cases hb : coerce_arg_is_scalar_reference children with
    | error e' => simp only [hb] at h; cases h
    | ok b =>
      cases b with
      | true => simp only [hb] at h; cases h
      | false =>
        simp only [hb] at h
        simp only [Bool.false_eq_true, if_false]
        exact h
  · rename_i hk
    split at h
    · rename_i a b
      exact absurd rfl (hk a b)
    · exact h


/-! ## Collectors only grow -/

theorem foldlM_le {α β : Type} (le : β → β → Prop) (hrefl : ∀ a, le a a)
    (htrans : ∀ a b c, le a b → le b c → le a c)
    (f : β → α → Except PgError β)
    (hf : ∀ acc x acc', f acc x = .ok acc' → le acc acc')
    (l : List α) (init r : β) (h : l.foldlM f init = .ok r) : le init r :=
  foldlM_invariant (fun acc => le init acc) f
    (fun acc x acc' hacc hstep => htrans init acc acc' hacc (hf acc x acc' hstep))
    l init r (hrefl init) h

theorem foldlM_reach_ok {α β : Type} (le : β → β → Prop) (hrefl : ∀ a, le a a)
    (htrans : ∀ a b c, le a b → le b c → le a c)
    (f : β → α → Except PgError β)
    (hf : ∀ acc x acc', f acc x = .ok acc' → le acc acc')
    (pre post : List α) (x : α) (init acc r : β)
    (hpre : pre.foldlM f init = .ok acc)
    (h : (pre ++ x :: post).foldlM f init = .ok r) :
    ∃ acc', f acc x = .ok acc' ∧ le acc' r := by
  obtain ⟨acc0, acc', hpre0, hx, hpost⟩ := foldlM_split_ok f pre post x init r h
  rw [hpre] at hpre0
  injection hpre0 with hpre0
  subst hpre0
  exact ⟨acc', hx, foldlM_le le hrefl htrans f hf post acc' r hpost⟩

theorem subset_refl_list (a : List Oid) : ∀ y ∈ a, y ∈ a := fun _ hy => hy

theorem subset_trans_list (a b c : List Oid) (hab : ∀ y ∈ a, y ∈ b)
    (hbc : ∀ y ∈ b, y ∈ c) : ∀ y ∈ a, y ∈ c := fun y hy => hbc y (hab y hy)

theorem walker_grows (cat : Catalog) (depth : Nat) :
    ∀ node l r, pgcd_query_expression_walker cat depth node l = .ok r → ∀ y ∈ l, y ∈ r := by
  induction depth with
  | zero => intro node l r h; rw [pgcd_query_expression_walker] at h; cases h
  | succ d ih =>
    intro node l r h
    cases node with
    | null =>
      rw [pgcd_query_expression_walker] at h
      injection h with h
      subst h
      exact fun _ hy => hy
    | node kind children =>
      obtain ⟨c1, hs, ht⟩ := walker_succ_ok cat d kind children l r h
      intro y hy
      exact foldlM_grows (fun acc child => pgcd_query_expression_walker cat d child acc)
        (fun acc x acc' hstep => ih x acc acc' hstep) _ c1 r ht y
        (walker_switch_grows _ _ l kind c1 hs y hy)

theorem tree_walker_grows (cat : Catalog) (depth : Nat) (children : List Node)
    (l r : List Oid)
    (h : tree_walker (pgcd_query_expression_walker cat depth) children l = .ok r) :
    ∀ y ∈ l, y ∈ r :=
  foldlM_grows (fun acc child => pgcd_query_expression_walker cat depth child acc)
    (fun acc x acc' hstep => walker_grows cat depth x acc acc' hstep) children l r h

theorem rel_body_grows (tc : Oid → Except PgError (List Oid)) (res : List Oid)
    (att : FormData_pg_attribute) (r : List Oid)
    (h : pgcd_get_rel_collations.body tc res att = .ok r) : ∀ y ∈ res, y ∈ r := by
  unfold pgcd_get_rel_collations.body at h
  split_ifs at h
  · injection h with h; subst h; exact fun _ hy => hy
  · intro y hy
    exact APPEND_TYPE_COLLS_grows tc _ _ r h y (List.mem_append_left _ hy)
  · exact APPEND_TYPE_COLLS_grows tc _ _ r h

theorem constraint_body_grows (tc : Oid → Except PgError (List Oid))
    (tupdesc : List FormData_pg_attribute) (res : List Oid) (conkey : Int) (r : List Oid)
    (h : pgcd_get_constraint_collations.body tc tupdesc res conkey = .ok r) :
    ∀ y ∈ res, y ∈ r := by
  unfold pgcd_get_constraint_collations.body at h
  simp only [bind, Except.bind, pure, Except.pure] at h
  split_ifs at h
  · injection h with h; subst h; exact fun _ hy => hy
  · cases ha : TupleDescAttr tupdesc (int16_to_Oid conkey - 1) with
    | error e => rw [ha] at h; cases h
    | ok att =>
      rw [ha] at h
      exact APPEND_TYPE_COLLS_grows tc _ _ r h

theorem type_body_grows (cc : Oid → Except PgError (List Oid)) (res : List Oid)
    (dep : FormData_pg_depend) (r : List Oid)
    (h : pgcd_get_type_collations.body cc res dep = .ok r) : ∀ y ∈ res, y ∈ r := by
  unfold pgcd_get_type_collations.body at h
  simp only [bind, Except.bind, pure, Except.pure] at h
  split_ifs at h
  · injection h with h; subst h; exact fun _ hy => hy
  · cases hc : cc dep.objid with
    | error e => rw [hc] at h; cases h
    | ok rc =>
      rw [hc] at h
      injection h with h
      subst h
      exact fun y hy => List.mem_append_left _ hy

theorem index_body_grows (cat : Catalog) (depth : Nat) (rd_index : FormData_pg_index)
    (state : List Oid × List Node) (i : Nat) (state' : List Oid × List Node)
    (h : pgcd_index_deps.body cat depth rd_index state i = .ok state') :
    ∀ y ∈ state.1, y ∈ state'.1 := by
  unfold pgcd_index_deps.body at h
  simp only [bind, Except.bind, pure, Except.pure] at h
  split at h
  · cases h
  · split_ifs at h
    · split at h
      · split at h
        · cases h
        · split_ifs at h
          · injection h with h; subst h
            exact fun y hy => List.mem_append_left _ hy
          · split at h
            · cases h
            · injection h with h; subst h
              exact fun y hy => List.mem_append_left _ hy
      · split at h
        · cases h
        · injection h with h; subst h
          exact fun y hy => List.mem_append_left _ hy
    · split at h
      · cases h
      · split at h
        · cases h
        · injection h with h; subst h
          exact fun y hy => List.mem_append_left _ hy


/-! ## A failure of a call is the failure of its caller -/

theorem APPEND_TYPE_COLLS_of_error (tc : Oid → Except PgError (List Oid)) (l : List Oid)
    (o : Oid) (e : PgError) (h : tc o = .error e) : APPEND_TYPE_COLLS tc l o = .error e := by
  unfold APPEND_TYPE_COLLS
  rw [h]
  rfl

theorem tree_walker_reach_error (walker : Node → List Oid → Except PgError (List Oid))
    (pre post : List Node) (x : Node) (init acc : List Oid) (e : PgError)
    (hpre : tree_walker walker pre init = .ok acc) (hx : walker x acc = .error e) :
    tree_walker walker (pre ++ x :: post) init = .error e :=
  foldlM_append_error (fun l child => walker child l) pre post x init acc e hpre hx

theorem expression_reach_error (walker : Node → List Oid → Except PgError (List Oid))
    (expr : Node) (pre post : List Node) (root : Node) (acc : List Oid) (e : PgError)
    (hsplit : expression_roots expr = pre ++ root :: post)
    (hpre : tree_walker walker pre [] = .ok acc) (hx : walker root acc = .error e) :
    pgcd_get_query_expression_collations walker expr = .error e := by
  rw [pgcd_get_query_expression_collations_roots, hsplit]
  exact tree_walker_reach_error walker pre post root [] acc e hpre hx

theorem index_body_type (cat : Catalog) (depth : Nat) (rd_index : FormData_pg_index)
    (state : List Oid × List Node) (i : Nat) (indkey : Int)
    (hkey : rd_index.indkey.get? i = some indkey)
    (hvalid : AttributeNumberIsValid indkey = true)
    (hcoll : index_column_without_collation rd_index i = true) :
    pgcd_index_deps.body cat depth rd_index state i =
      (do
        let r ← pgcd_get_type_collations cat depth
          (get_atttype cat rd_index.indrelid indkey)
        pure (state.1 ++ r, state.2)) := by
  unfold index_column_without_collation at hcoll
  unfold pgcd_index_deps.body
  simp only [hkey, hvalid, if_true]
  cases hc : rd_index.indcollation with
  | none => rfl
  | some indcollation =>
    simp only [hc] at hcoll
    simp only []
    cases hg : indcollation.get? i with
    | none => simp only [hg] at hcoll; cases hcoll
    | some coll =>
      simp only [hg] at hcoll
      have hv : OidIsValid coll = false := by simpa using hcoll
      simp only [hv, Bool.false_eq_true, if_false]

theorem invokes_error (cat : Catalog) (a b : Call) (h : Invokes cat a b) (e : PgError)
    (hb : b.outcome cat = .error e) : a.outcome cat = .error e := by
  cases h with
  | walker_type depth kind children collations pre post typid acc hin hsplit hpre =>
    simp only [Call.outcome] at hb ⊢
    have hsw : walker_switch cat.PG_VERSION_NUM (pgcd_get_type_collations cat depth)
        collations kind = .error e := by
      rw [walker_switch_normal_form, if_pos hin, hsplit]
      exact foldlM_append_error _ pre post typid _ acc e hpre
        (APPEND_TYPE_COLLS_of_error _ acc typid e hb)
    rw [pgcd_query_expression_walker]
    simp only [hsw, bind, Except.bind]
  | walker_child depth kind children collations pre post child c1 acc hswitch hsplit hpre =>
    simp only [Call.outcome] at hb ⊢
    apply walker_succ_error cat depth kind children collations c1 e hswitch
    rw [hsplit]
    exact tree_walker_reach_error _ pre post child c1 acc e hpre hb
  | rel_type depth relid pre post pg_att acc hsplit hpre hatt =>
    simp only [Call.outcome] at hb ⊢
    rw [pgcd_get_rel_collations, hsplit]
    apply foldlM_append_error _ pre post pg_att _ acc e hpre
    unfold pgcd_get_rel_collations.body
    rw [if_neg hatt]
    exact APPEND_TYPE_COLLS_of_error _ _ _ e hb
  | constraint_expression depth conid tup expr pre post root acc hscan hbin hsplit hpre =>
    simp only [Call.outcome] at hb ⊢
    rw [pgcd_get_constraint_collations]
    have hx : pgcd_get_constraint_collations.expression
        (pgcd_query_expression_walker cat depth) tup.conbin = .error e := by
      rw [hbin]
      exact expression_reach_error _ expr pre post root acc e hsplit hpre hb
    simp only [hscan, hx, bind, Except.bind]
  | constraint_key depth conid tup arr rel res acc pre post conkey att hscan hexpr hkey hopen
      hshape hsplit hpre hvalid hatt =>
    simp only [Call.outcome] at hb ⊢
    rw [pgcd_get_constraint_collations]
    simp only [hscan, hexpr, bind, Except.bind]
    unfold pgcd_get_constraint_collations.keys
    simp only [hkey, hopen, bind, Except.bind, hshape, Bool.false_eq_true, if_false, hsplit]
    apply foldlM_append_error _ pre post conkey _ acc e hpre
    unfold pgcd_get_constraint_collations.body
    simp only [hvalid, Bool.not_true, Bool.false_eq_true, if_false, hatt, bind, Except.bind]
    exact APPEND_TYPE_COLLS_of_error _ _ _ e hb
  | range_subtype depth rngid ismultirange pg_range hscan =>
    simp only [Call.outcome] at hb ⊢
    rw [pgcd_get_range_type_collations]
    simp only [hscan]
    exact APPEND_TYPE_COLLS_of_error _ _ _ e hb
  | type_element depth typid typtup hlook hcoll helem =>
    simp only [Call.outcome] at hb ⊢
    rw [pgcd_get_type_collations]
    simp only [hlook, pgcd_get_type_collations.primary, hcoll, helem, Bool.false_eq_true,
      if_false, if_true, hb, bind, Except.bind]
  | type_base depth typid typtup hlook hcoll helem hbase =>
    simp only [Call.outcome] at hb ⊢
    rw [pgcd_get_type_collations]
    simp only [hlook, pgcd_get_type_collations.primary, hcoll, helem, hbase,
      Bool.false_eq_true, if_false, if_true, hb, bind, Except.bind]
  | type_relation depth typid typtup hlook hcoll helem hbase hrel =>
    simp only [Call.outcome] at hb ⊢
    rw [pgcd_get_type_collations]
    simp only [hlook, pgcd_get_type_collations.primary, hcoll, helem, hbase, hrel,
      Bool.false_eq_true, if_false, if_true, hb, bind, Except.bind]
  | type_range depth typid typtup hlook hcoll helem hbase hrel hrange =>
    simp only [Call.outcome] at hb ⊢
    rw [pgcd_get_type_collations]
    simp only [hlook, pgcd_get_type_collations.primary, hcoll, helem, hbase, hrel, hrange,
      Bool.false_eq_true, if_false, if_true, hb, bind, Except.bind]
  | type_constraint depth typid typtup primary acc pre post pg_depend hlook hprimary hsplit
      hpre hclass =>
    simp only [Call.outcome] at hb ⊢
    rw [pgcd_get_type_collations]
    simp only [hlook, hprimary, bind, Except.bind, hsplit]
    apply foldlM_append_error _ pre post pg_depend _ acc e hpre
    unfold pgcd_get_type_collations.body
    have hc : (pg_depend.classid != ConstraintRelationId) = false := by simp [hclass]
    simp only [hc, Bool.false_eq_true, if_false, hb, bind, Except.bind]
  | constraint_deps depth constraint_oid =>
    simp only [Call.outcome] at hb ⊢
    unfold pgcd_constraint_deps
    simp only [hb, bind, Except.bind]
  | index_type depth index_oid rd_index i state indkey hidx hi hpre hkey hvalid hcoll =>
    simp only [Call.outcome] at hb ⊢
    obtain ⟨post, hsplit⟩ := range_split rd_index.indnkeyatts i hi
    apply pgcd_index_deps_of_loop_error cat depth index_oid rd_index e hidx
    rw [hsplit]
    apply foldlM_append_error _ _ post i _ state e hpre
    rw [index_body_type cat depth rd_index state i indkey hkey hvalid hcoll]
    simp only [hb, bind, Except.bind]
  | index_expression depth index_oid rd_index i state indexkey next pre post root acc hidx hi
      hfold hexpr hcursor hsplit hpre =>
    simp only [Call.outcome] at hb ⊢
    obtain ⟨post', hsplit'⟩ := range_split rd_index.indnkeyatts i hi
    apply pgcd_index_deps_of_loop_error cat depth index_oid rd_index e hidx
    rw [hsplit']
    apply foldlM_append_error _ _ post' i _ state e hfold
    rw [index_body_expression cat depth rd_index state i hexpr, hcursor]
    simp only [expression_reach_error _ indexkey pre post root acc e hsplit hpre hb, bind,
      Except.bind]
  | index_predicate depth index_oid rd_index state indpred pre post root acc hidx hfold hpred
      hsplit hpre =>
    simp only [Call.outcome] at hb ⊢
    rw [pgcd_index_deps_of_lookup cat depth index_oid rd_index hidx, hfold]
    simp only [hpred, expression_reach_error _ indpred pre post root acc e hsplit hpre hb,
      bind, Except.bind]
  | matview_query depth matview_oid rel rule dataQuery pre post root acc hopen hkind hrules
      hrule hevent hinstead hactions hsplit hpre =>
    simp only [Call.outcome] at hb ⊢
    rw [pgcd_matview_deps_of_open cat depth matview_oid rel hopen]
    have hk : ¬ (rel.relkind != RELKIND_MATVIEW) = true := by simp [hkind]
    rw [if_neg hk]
    simp only [hrules, hrule, hevent, hinstead, hactions,
      expression_reach_error _ dataQuery pre post root acc e hsplit hpre hb, bind,
      Except.bind]
    simp

theorem reaches_error (cat : Catalog) (a b : Call) (h : Reaches cat a b) (e : PgError)
    (hb : b.outcome cat = .error e) : a.outcome cat = .error e := by
  induction h with
  | refl => exact hb
  | tail _ hstep ih => exact ih (invokes_error cat _ _ hstep e hb)


/-! ## The result of a call is part of the result of its caller -/

theorem tree_walker_reach_ok (cat : Catalog) (depth : Nat) (pre post : List Node)
    (x : Node) (init acc r : List Oid)
    (hpre : tree_walker (pgcd_query_expression_walker cat depth) pre init = .ok acc)
    (h : tree_walker (pgcd_query_expression_walker cat depth) (pre ++ x :: post) init
      = .ok r) :
    ∃ acc', pgcd_query_expression_walker cat depth x acc = .ok acc' ∧ ∀ y ∈ acc', y ∈ r :=
  foldlM_reach_ok (fun a b : List Oid => ∀ y ∈ a, y ∈ b) subset_refl_list subset_trans_list
    (fun l child => pgcd_query_expression_walker cat depth child l)
    (fun acc x acc' hstep => walker_grows cat depth x acc acc' hstep)
    pre post x init acc r hpre h

theorem expression_reach_ok (cat : Catalog) (depth : Nat) (expr : Node)
    (pre post : List Node) (root : Node) (acc r : List Oid)
    (hsplit : expression_roots expr = pre ++ root :: post)
    (hpre : tree_walker (pgcd_query_expression_walker cat depth) pre [] = .ok acc)
    (h : pgcd_get_query_expression_collations (pgcd_query_expression_walker cat depth) expr
      = .ok r) :
    ∃ acc', pgcd_query_expression_walker cat depth root acc = .ok acc' ∧
      ∀ y ∈ acc', y ∈ r := by
  rw [pgcd_get_query_expression_collations_roots, hsplit] at h
  exact tree_walker_reach_ok cat depth pre post root [] acc r hpre h

theorem constraint_keys_grows (cat : Catalog) (tc : Oid → Except PgError (List Oid))
    (tup : FormData_pg_constraint) (res r : List Oid)
    (h : pgcd_get_constraint_collations.keys cat tc tup res = .ok r) :
    ∀ y ∈ res, y ∈ r := by
  unfold pgcd_get_constraint_collations.keys at h
  split at h
  · injection h with h; subst h; exact fun _ hy => hy
  · simp only [bind, Except.bind] at h
    cases ho : relation_open cat tup.conrelid with
    | error e => rw [ho] at h; cases h
    | ok rel =>
      rw [ho] at h
      split_ifs at h
      exact foldlM_grows _ (constraint_body_grows tc _) _ res r h

theorem constraint_ok (cat : Catalog) (depth : Nat) (conid : Oid)
    (tup : FormData_pg_constraint) (r : List Oid)
    (hscan : scan_pg_constraint cat conid = some tup)
    (h : pgcd_get_constraint_collations cat (depth + 1) conid = .ok r) :
    ∃ res, pgcd_get_constraint_collations.expression
        (pgcd_query_expression_walker cat depth) tup.conbin = .ok res ∧
      pgcd_get_constraint_collations.keys cat (pgcd_get_type_collations cat depth) tup res
        = .ok r := by
  rw [pgcd_get_constraint_collations] at h
  simp only [hscan] at h
  cases he : pgcd_get_constraint_collations.expression
      (pgcd_query_expression_walker cat depth) tup.conbin with
  | error e => simp only [he, bind, Except.bind] at h; cases h
  | ok res =>
    simp only [he, bind, Except.bind] at h
    exact ⟨res, rfl, h⟩

theorem type_ok (cat : Catalog) (depth : Nat) (typid : Oid) (typtup : FormData_pg_type)
    (r : List Oid) (hlook : SearchSysCache1_TYPEOID cat typid = some typtup)
    (h : pgcd_get_type_collations cat (depth + 1) typid = .ok r) :
    ∃ primary, pgcd_get_type_collations.primary cat.PG_VERSION_NUM
        (pgcd_get_type_collations cat depth) (pgcd_get_rel_collations cat depth)
        (pgcd_get_range_type_collations cat depth) typtup = .ok primary ∧
      (scan_pg_depend cat typid).foldlM
        (pgcd_get_type_collations.body (pgcd_get_constraint_collations cat depth)) primary
        = .ok r := by
  rw [pgcd_get_type_collations] at h
  simp only [hlook] at h
  cases hp : pgcd_get_type_collations.primary cat.PG_VERSION_NUM
      (pgcd_get_type_collations cat depth) (pgcd_get_rel_collations cat depth)
      (pgcd_get_range_type_collations cat depth) typtup with
  | error e => simp only [hp, bind, Except.bind] at h; cases h
  | ok primary =>
    simp only [hp, bind, Except.bind] at h
    exact ⟨primary, rfl, h⟩

theorem type_primary_part (cat : Catalog) (depth : Nat) (typid : Oid)
    (typtup : FormData_pg_type) (r : List Oid)
    (hlook : SearchSysCache1_TYPEOID cat typid = some typtup)
    (h : pgcd_get_type_collations cat (depth + 1) typid = .ok r) :
    ∃ primary, pgcd_get_type_collations.primary cat.PG_VERSION_NUM
        (pgcd_get_type_collations cat depth) (pgcd_get_rel_collations cat depth)
        (pgcd_get_range_type_collations cat depth) typtup = .ok primary ∧
      ∀ y ∈ primary, y ∈ r := by
  obtain ⟨primary, hp, hfold⟩ := type_ok cat depth typid typtup r hlook h
  exact ⟨primary, hp, foldlM_grows _ (type_body_grows _) _ primary r hfold⟩

theorem index_ok (cat : Catalog) (depth : Nat) (index_oid : Oid)
    (rd_index : FormData_pg_index) (r : List Oid)
    (hidx : SearchSysCache1_INDEXRELID cat index_oid = some rd_index)
    (h : pgcd_index_deps cat depth index_oid = .ok r) :
    ∃ state, (List.range rd_index.indnkeyatts).foldlM
        (pgcd_index_deps.body cat depth rd_index) ([], indexprs_list rd_index) = .ok state ∧
      (∀ y ∈ state.1, y ∈ r) ∧
      ∀ indpred, rd_index.indpred = some indpred →
        ∃ rp, pgcd_get_query_expression_collations
            (pgcd_query_expression_walker cat depth) indpred = .ok rp ∧
          ∀ y ∈ rp, y ∈ r := by
  rw [pgcd_index_deps_of_lookup cat depth index_oid rd_index hidx] at h
  cases hfold : (List.range rd_index.indnkeyatts).foldlM
      (pgcd_index_deps.body cat depth rd_index) ([], indexprs_list rd_index) with
  | error e => simp only [hfold, bind, Except.bind] at h; cases h
  | ok state =>
    simp only [hfold, bind, Except.bind] at h
    refine ⟨state, rfl, ?_, ?_⟩
    · cases hp : rd_index.indpred with
      | none =>
        simp only [hp, pure, Except.pure] at h
        injection h with h
        subst h
        exact fun y hy => (normalize_mem y _).mpr hy
      | some indpred =>
        simp only [hp] at h
        cases hw : pgcd_get_query_expression_collations
            (pgcd_query_expression_walker cat depth) indpred with
        | error e => simp only [hw] at h; cases h
        | ok rp =>
          simp only [hw, pure, Except.pure] at h
          injection h with h
          subst h
          exact fun y hy => (normalize_mem y _).mpr (List.mem_append_left _ hy)
    · intro indpred hp
      simp only [hp] at h
      cases hw : pgcd_get_query_expression_collations
          (pgcd_query_expression_walker cat depth) indpred with
      | error e => simp only [hw] at h; cases h
      | ok rp =>
        simp only [hw, pure, Except.pure] at h
        injection h with h
        subst h
        exact ⟨rp, rfl, fun y hy => (normalize_mem y _).mpr (List.mem_append_right _ hy)⟩

theorem index_fold_reach_ok (cat : Catalog) (depth : Nat) (rd_index : FormData_pg_index)
    (i : Nat) (hi : i < rd_index.indnkeyatts) (state final : List Oid × List Node)
    (hpre : (List.range i).foldlM (pgcd_index_deps.body cat depth rd_index)
      ([], indexprs_list rd_index) = .ok state)
    (h : (List.range rd_index.indnkeyatts).foldlM
      (pgcd_index_deps.body cat depth rd_index) ([], indexprs_list rd_index) = .ok final) :
    ∃ state', pgcd_index_deps.body cat depth rd_index state i = .ok state' ∧
      ∀ y ∈ state'.1, y ∈ final.1 := by
  obtain ⟨post, hsplit⟩ := range_split rd_index.indnkeyatts i hi
  rw [hsplit] at h
  exact foldlM_reach_ok (fun a b : List Oid × List Node => ∀ y ∈ a.1, y ∈ b.1)
    (fun _ _ hy => hy) (fun _ _ _ hab hbc y hy => hbc y (hab y hy))
    (pgcd_index_deps.body cat depth rd_index)
    (fun acc x acc' hstep => index_body_grows cat depth rd_index acc x acc' hstep)
    (List.range i) post i _ state final hpre h

theorem invokes_ok (cat : Catalog) (a b : Call) (h : Invokes cat a b) (r : List Oid)
    (ha : a.outcome cat = .ok r) : ∃ rb, b.outcome cat = .ok rb ∧ ∀ y ∈ rb, y ∈ r := by
  cases h with
  | walker_type depth kind children collations pre post typid acc hin hsplit hpre =>
    simp only [Call.outcome] at ha ⊢
    obtain ⟨c1, hs, ht⟩ := walker_succ_ok cat depth kind children collations r ha
    rw [walker_switch_normal_form, if_pos hin, hsplit] at hs
    obtain ⟨acc', hstep, hle⟩ := foldlM_reach_ok (fun a b : List Oid => ∀ y ∈ a, y ∈ b)
      subset_refl_list subset_trans_list _ (APPEND_TYPE_COLLS_grows _) pre post typid _ acc
      c1 hpre hs
    obtain ⟨t, htc, hacc'⟩ := APPEND_TYPE_COLLS_ok _ acc typid acc' hstep
    refine ⟨t, htc, ?_⟩
    intro y hy
    apply tree_walker_grows cat depth _ c1 r ht y
    apply hle y
    rw [hacc']
    exact List.mem_append_right _ hy
  | walker_child depth kind children collations pre post child c1 acc hswitch hsplit hpre =>
    simp only [Call.outcome] at ha ⊢
    obtain ⟨c1', hs, ht⟩ := walker_succ_ok cat depth kind children collations r ha
    rw [hswitch] at hs
    injection hs with hs
    subst hs
    rw [hsplit] at ht
    exact tree_walker_reach_ok cat depth pre post child c1 acc r hpre ht
  | rel_type depth relid pre post pg_att acc hsplit hpre hatt =>
    simp only [Call.outcome] at ha ⊢
    rw [pgcd_get_rel_collations, hsplit] at ha
    obtain ⟨acc', hstep, hle⟩ := foldlM_reach_ok (fun a b : List Oid => ∀ y ∈ a, y ∈ b)
      subset_refl_list subset_trans_list _ (rel_body_grows _) pre post pg_att _ acc r hpre ha
    unfold pgcd_get_rel_collations.body at hstep
    rw [if_neg hatt] at hstep
    obtain ⟨t, htc, hacc'⟩ := APPEND_TYPE_COLLS_ok _ _ _ acc' hstep
    refine ⟨t, htc, ?_⟩
    intro y hy
    apply hle y
    rw [hacc']
    exact List.mem_append_right _ hy
  | constraint_expression depth conid tup expr pre post root acc hscan hbin hsplit hpre =>
    simp only [Call.outcome] at ha ⊢
    obtain ⟨res, hexpr, hkeys⟩ := constraint_ok cat depth conid tup r hscan ha
    rw [hbin] at hexpr
    obtain ⟨acc', hw, hle⟩ := expression_reach_ok cat depth expr pre post root acc res hsplit
      hpre hexpr
    exact ⟨acc', hw, fun y hy => constraint_keys_grows cat _ tup res r hkeys y (hle y hy)⟩
  | constraint_key depth conid tup arr rel res acc pre post conkey att hscan hexpr hkey hopen
      hshape hsplit hpre hvalid hatt =>
    simp only [Call.outcome] at ha ⊢
    obtain ⟨res', hexpr', hkeys⟩ := constraint_ok cat depth conid tup r hscan ha
    rw [hexpr] at hexpr'
    injection hexpr' with hexpr'
    subst hexpr'
    unfold pgcd_get_constraint_collations.keys at hkeys
    simp only [hkey, hopen, bind, Except.bind, hshape, Bool.false_eq_true, if_false,
      hsplit] at hkeys
    obtain ⟨acc', hstep, hle⟩ := foldlM_reach_ok (fun a b : List Oid => ∀ y ∈ a, y ∈ b)
      subset_refl_list subset_trans_list _ (constraint_body_grows _ _) pre post conkey _ acc
      r hpre hkeys
    unfold pgcd_get_constraint_collations.body at hstep
    simp only [hvalid, Bool.not_true, Bool.false_eq_true, if_false, hatt, bind,
      Except.bind] at hstep
    obtain ⟨t, htc, hacc'⟩ := APPEND_TYPE_COLLS_ok _ _ _ acc' hstep
    refine ⟨t, htc, ?_⟩
    intro y hy
    apply hle y
    rw [hacc']
    exact List.mem_append_right _ hy
  | range_subtype depth rngid ismultirange pg_range hscan =>
    simp only [Call.outcome] at ha ⊢
    rw [pgcd_get_range_type_collations] at ha
    simp only [hscan] at ha
    obtain ⟨t, htc, hr⟩ := APPEND_TYPE_COLLS_ok _ _ _ r ha
    refine ⟨t, htc, ?_⟩
    intro y hy
    rw [hr]
    exact List.mem_append_right _ hy
  | type_element depth typid typtup hlook hcoll helem =>
    simp only [Call.outcome] at ha ⊢
    obtain ⟨primary, hp, hle⟩ := type_primary_part cat depth typid typtup r hlook ha
    simp only [pgcd_get_type_collations.primary, hcoll, helem, Bool.false_eq_true, if_false,
      if_true] at hp
    exact ⟨primary, hp, hle⟩
  | type_base depth typid typtup hlook hcoll helem hbase =>
    simp only [Call.outcome] at ha ⊢
    obtain ⟨primary, hp, hle⟩ := type_primary_part cat depth typid typtup r hlook ha
    simp only [pgcd_get_type_collations.primary, hcoll, helem, hbase, Bool.false_eq_true,
      if_false, if_true] at hp
    exact ⟨primary, hp, hle⟩
  | type_relation depth typid typtup hlook hcoll helem hbase hrel =>
    simp only [Call.outcome] at ha ⊢
    obtain ⟨primary, hp, hle⟩ := type_primary_part cat depth typid typtup r hlook ha
    simp only [pgcd_get_type_collations.primary, hcoll, helem, hbase, hrel,
      Bool.false_eq_true, if_false, if_true] at hp
    exact ⟨primary, hp, hle⟩
  | type_range depth typid typtup hlook hcoll helem hbase hrel hrange =>
    simp only [Call.outcome] at ha ⊢
    obtain ⟨primary, hp, hle⟩ := type_primary_part cat depth typid typtup r hlook ha
    simp only [pgcd_get_type_collations.primary, hcoll, helem, hbase, hrel, hrange,
      Bool.false_eq_true, if_false, if_true] at hp
    exact ⟨primary, hp, hle⟩
  | type_constraint depth typid typtup primary acc pre post pg_depend hlook hprimary hsplit
      hpre hclass =>
    simp only [Call.outcome] at ha ⊢
    obtain ⟨primary', hp, hfold⟩ := type_ok cat depth typid typtup r hlook ha
    rw [hprimary] at hp
    injection hp with hp
    subst hp
    rw [hsplit] at hfold
    obtain ⟨acc', hstep, hle⟩ := foldlM_reach_ok (fun a b : List Oid => ∀ y ∈ a, y ∈ b)
      subset_refl_list subset_trans_list _ (type_body_grows _) pre post pg_depend _ acc r
      hpre hfold
    unfold pgcd_get_type_collations.body at hstep
    have hc : (pg_depend.classid != ConstraintRelationId) = false := by simp [hclass]
    simp only [hc, Bool.false_eq_true, if_false, bind, Except.bind, pure,
      Except.pure] at hstep
    cases hcc : pgcd_get_constraint_collations cat depth pg_depend.objid with
    | error e => simp only [hcc] at hstep; cases hstep
    | ok rc =>
      simp only [hcc] at hstep
      injection hstep with hstep
      subst hstep
      exact ⟨rc, rfl, fun y hy => hle y (List.mem_append_right _ hy)⟩
  | constraint_deps depth constraint_oid =>
    simp only [Call.outcome] at ha ⊢
    obtain ⟨raw, hraw, hr⟩ := pgcd_constraint_deps_normalized cat depth constraint_oid r ha
    refine ⟨raw, hraw, ?_⟩
    intro y hy
    rw [hr]
    exact (normalize_mem y raw).mpr hy
  | index_type depth index_oid rd_index i state indkey hidx hi hpre hkey hvalid hcoll =>
    simp only [Call.outcome] at ha ⊢
    obtain ⟨final, hfold, hfinal, _⟩ := index_ok cat depth index_oid rd_index r hidx ha
    obtain ⟨state', hstep, hle⟩ := index_fold_reach_ok cat depth rd_index i hi state final
      hpre hfold
    rw [index_body_type cat depth rd_index state i indkey hkey hvalid hcoll] at hstep
    cases ht : pgcd_get_type_collations cat depth (get_atttype cat rd_index.indrelid indkey)
      with
    | error e => simp only [ht, bind, Except.bind] at hstep; cases hstep
    | ok t =>
      simp only [ht, bind, Except.bind, pure, Except.pure] at hstep
      injection hstep with hstep
      subst hstep
      exact ⟨t, rfl, fun y hy => hfinal y (hle y (List.mem_append_right _ hy))⟩
  | index_expression depth index_oid rd_index i state indexkey next pre post root acc hidx hi
      hfold hexpr hcursor hsplit hpre =>
    simp only [Call.outcome] at ha ⊢
    obtain ⟨final, hfold', hfinal, _⟩ := index_ok cat depth index_oid rd_index r hidx ha
    obtain ⟨state', hstep, hle⟩ := index_fold_reach_ok cat depth rd_index i hi state final
      hfold hfold'
    rw [index_body_expression cat depth rd_index state i hexpr, hcursor] at hstep
    cases hw : pgcd_get_query_expression_collations
        (pgcd_query_expression_walker cat depth) indexkey with
    | error e => simp only [hw, bind, Except.bind] at hstep; cases hstep
    | ok re =>
      simp only [hw, bind, Except.bind, pure, Except.pure] at hstep
      injection hstep with hstep
      subst hstep
      obtain ⟨acc', hroot, hacc'⟩ := expression_reach_ok cat depth indexkey pre post root acc
        re hsplit hpre hw
      exact ⟨acc', hroot,
        fun y hy => hfinal y (hle y (List.mem_append_right _ (hacc' y hy)))⟩
  | index_predicate depth index_oid rd_index state indpred pre post root acc hidx hfold hpred
      hsplit hpre =>
    simp only [Call.outcome] at ha ⊢
    obtain ⟨_, _, _, hp⟩ := index_ok cat depth index_oid rd_index r hidx ha
    obtain ⟨rp, hw, hrp⟩ := hp indpred hpred
    obtain ⟨acc', hroot, hacc'⟩ := expression_reach_ok cat depth indpred pre post root acc rp
      hsplit hpre hw
    exact ⟨acc', hroot, fun y hy => hrp y (hacc' y hy)⟩
  | matview_query depth matview_oid rel rule dataQuery pre post root acc hopen hkind hrules
      hrule hevent hinstead hactions hsplit hpre =>
    simp only [Call.outcome] at ha ⊢
    rw [pgcd_matview_deps_of_open cat depth matview_oid rel hopen] at ha
    have hk : ¬ (rel.relkind != RELKIND_MATVIEW) = true := by simp [hkind]
    rw [if_neg hk] at ha
    simp only [hrules, hrule, hevent, hinstead, hactions] at ha
    simp at ha
    cases hw : pgcd_get_query_expression_collations
        (pgcd_query_expression_walker cat depth) dataQuery with
    | error e => simp only [hw, bind, Except.bind] at ha; cases ha
    | ok res =>
      simp only [hw, bind, Except.bind, pure, Except.pure] at ha
      injection ha with ha
      subst ha
      obtain ⟨acc', hroot, hacc'⟩ := expression_reach_ok cat depth dataQuery pre post root acc
        res hsplit hpre hw
      exact ⟨acc', hroot, fun y hy => (normalize_mem y res).mpr (hacc' y hy)⟩

theorem reaches_ok (cat : Catalog) (a b : Call) (h : Reaches cat a b) (r : List Oid)
    (ha : a.outcome cat = .ok r) : ∃ rb, b.outcome cat = .ok rb ∧ ∀ y ∈ rb, y ∈ r := by
  induction h with
  | refl => exact ⟨r, ha, fun _ hy => hy⟩
  | tail _ hstep ih =>
    obtain ⟨rm, hm, hle⟩ := ih
    obtain ⟨rb, hb, hle'⟩ := invokes_ok cat _ _ hstep rm hm
    exact ⟨rb, hb, fun y hy => hle y (hle' y hy)⟩


/-! ## Nodes outside the dispatch table -/

theorem walker_unsupported (cat : Catalog) (depth : Nat) (kind : NodeKind)
    (children : List Node) (collations : List Oid)
    (hk : in_dispatch_table cat.PG_VERSION_NUM kind = false) :
    pgcd_query_expression_walker cat (depth + 1) (Node.node kind children) collations
      = .error .unexpected_node_type := by
  rw [pgcd_query_expression_walker, walker_switch_normal_form]
  simp only [hk, Bool.false_eq_true, if_false, bind, Except.bind]

theorem visited_walk_ok (cat : Catalog) (root target : Node)
    (hv : InVisitedTree root target) :
    ∀ depth l r, pgcd_query_expression_walker cat depth root l = .ok r →
      ∃ depth' l' r', pgcd_query_expression_walker cat depth' target l' = .ok r' := by
  induction hv with
  | root node => exact fun depth l r h => ⟨depth, l, r, h⟩
  | child kind children c target hc _ ih =>
    intro depth l r h
    cases depth with
    | zero => rw [pgcd_query_expression_walker] at h; cases h
    | succ d =>
      obtain ⟨c1, _, ht⟩ := walker_succ_ok cat d kind children l r h
      obtain ⟨pre, post, hsplit⟩ := mem_split_list _ c hc
      rw [hsplit] at ht
      obtain ⟨acc, acc', _, hx, _⟩ := foldlM_split_ok _ pre post c c1 r ht
      exact ih d acc acc' hx

/-- C17: a node whose kind is not in the dispatch table of the walker for
the release makes the walker fail with the unexpected node type error, of
class `UnsupportedConstruct`, whatever its children and the collector are;
every call that reaches a call of the walker on such a node, however deep,
fails with that error, entry points included; and a walk that succeeds has
no such node anywhere in the tree it visits: the node is never skipped. -/
theorem unsupported_node_is_never_skipped (cat : Catalog) (kind : NodeKind)
    (children : List Node) (hk : in_dispatch_table cat.PG_VERSION_NUM kind = false) :
    (∀ depth collations,
      pgcd_query_expression_walker cat (depth + 1) (Node.node kind children) collations
        = .error .unexpected_node_type) ∧
    PgError.unexpected_node_type.errorClass = ErrorClass.UnsupportedConstruct ∧
    (∀ (top : Call) depth collations,
      Reaches cat top (.walker (depth + 1) (Node.node kind children) collations) →
      top.outcome cat = .error .unexpected_node_type) ∧
    (∀ root depth l r, pgcd_query_expression_walker cat depth root l = .ok r →
      ¬ InVisitedTree root (Node.node kind children)) := by
  refine ⟨?_, rfl, ?_, ?_⟩
  · intro depth collations
    exact walker_unsupported cat depth kind children collations hk
  · intro top depth collations hreach
    exact reaches_error cat top _ hreach _
      (walker_unsupported cat depth kind children collations hk)
  · intro root depth l r h hv
    obtain ⟨depth', l', r', h'⟩ := visited_walk_ok cat root _ hv depth l r h
    cases depth' with
    | zero => rw [pgcd_query_expression_walker] at h'; cases h'
    | succ d =>
      rw [walker_unsupported cat d kind children l' hk] at h'
      cases h'

/-- Witness of C17: the query of the materialized view `17001` of
`fixture_matview` has a node of a kind outside the dispatch table under a
target entry of its target list; the entry point reaches the call of the
walker on that node and fails with the unexpected node type error. -/
theorem unsupported_node_is_never_skipped_witness :
    Reaches fixture_matview (.matview_deps 4 17001)
      (.walker 2 (Node.node (NodeKind.other 0) []) []) ∧
    pg_collation_matview_dependencies fixture_matview 4 17001
      = .error .unexpected_node_type :=
  have hreach : Reaches fixture_matview (.matview_deps 4 17001)
      (.walker 2 (Node.node (NodeKind.other 0) []) []) :=
    Relation.ReflTransGen.tail
      (Relation.ReflTransGen.tail
        (Relation.ReflTransGen.single
          (Invokes.matview_query 4 17001 _ _ _ [] [] _ [] rfl rfl rfl rfl rfl rfl rfl rfl rfl))
        (Invokes.walker_child 3 NodeKind.T_List _ [] [] [] _ [] [] rfl rfl rfl))
      (Invokes.walker_child 2 NodeKind.T_TargetEntry _ [] [] [] _ [] [] rfl rfl rfl)
  ⟨hreach,
    (unsupported_node_is_never_skipped fixture_matview (NodeKind.other 0) [] rfl).2.2.1
      (.matview_deps 4 17001) 1 [] hreach⟩

/-! ## A type that the catalog does not have -/

theorem type_absent (cat : Catalog) (depth : Nat) (typid : Oid)
    (h : SearchSysCache1_TYPEOID cat typid = none) :
    pgcd_get_type_collations cat (depth + 1) typid = .error (.could_not_find_type typid) := by
  rw [pgcd_get_type_collations]
  simp only [h]

/-- C18: on a type identifier absent from the catalog the type resolver
fails with the not-found error of the type, of class `NotFound`; and every
call that reaches such a call of the type resolver, at any depth of its
execution and whatever was collected before, fails with that same error:
this holds for the constraint, the index and the materialized view entry
points, which then return no list at all. -/
theorem absent_type_fails_the_whole_call (cat : Catalog) (typid : Oid)
    (habsent : SearchSysCache1_TYPEOID cat typid = none) :
    (∀ depth, pgcd_get_type_collations cat (depth + 1) typid
      = .error (.could_not_find_type typid)) ∧
    (PgError.could_not_find_type typid).errorClass = ErrorClass.NotFound ∧
    (∀ (top : Call) depth, Reaches cat top (.type (depth + 1) typid) →
      top.outcome cat = .error (.could_not_find_type typid)) ∧
    (∀ d oid depth, Reaches cat (.constraint_deps d oid) (.type (depth + 1) typid) →
      pg_collation_constraint_dependencies cat d oid
        = .error (.could_not_find_type typid)) ∧
    (∀ d oid depth, Reaches cat (.index_deps d oid) (.type (depth + 1) typid) →
      pg_collation_index_dependencies cat d oid = .error (.could_not_find_type typid)) ∧
    (∀ d oid depth, Reaches cat (.matview_deps d oid) (.type (depth + 1) typid) →
      pg_collation_matview_dependencies cat d oid
        = .error (.could_not_find_type typid)) := by
  have hall : ∀ (top : Call) depth, Reaches cat top (.type (depth + 1) typid) →
      top.outcome cat = .error (.could_not_find_type typid) :=
    fun top depth hreach =>
      reaches_error cat top _ hreach _ (type_absent cat depth typid habsent)
  exact ⟨fun depth => type_absent cat depth typid habsent, rfl, hall,
    fun d oid depth hreach => hall _ depth hreach,
    fun d oid depth hreach => hall _ depth hreach,
    fun d oid depth hreach => hall _ depth hreach⟩

/-- Witness of C18: the index `17200` of `fixture_missing_type` is on the
columns `a`, of type `text`, and `b`, of a type the catalog does not have.
The loop has collected `[100]` for `a` when it calls the type resolver for
`b`, and the entry point fails with the not-found error of that type. -/
theorem absent_type_fails_the_whole_call_witness :
    (List.range 1).foldlM (pgcd_index_deps.body fixture_missing_type 1
      { indexrelid := 17200, indrelid := 16384, indnkeyatts := 2, indkey := [1, 2],
        indcollation := some [0, 0], indexprs := none, indpred := none }) ([], [])
      = .ok ([100], []) ∧
    pg_collation_index_dependencies fixture_missing_type 1 17200
      = .error (.could_not_find_type 99999) :=
  have hreach : Reaches fixture_missing_type (.index_deps 1 17200) (.type 1 99999) :=
    Relation.ReflTransGen.single
      (Invokes.index_type 1 17200
        { indexrelid := 17200, indrelid := 16384, indnkeyatts := 2, indkey := [1, 2],
          indcollation := some [0, 0], indexprs := none, indpred := none }
        1 ([100], []) 2 rfl (by decide) rfl rfl rfl rfl)
  ⟨rfl,
    (absent_type_fails_the_whole_call fixture_missing_type 99999 rfl).2.2.2.2.1 1 17200 0
      hreach⟩


/-! ## From the tree and the catalog to the calls of a successful resolution -/

theorem foldlM_prefix_ok {α β : Type} (f : β → α → Except PgError β) (l : List α) (x : α)
    (init r : β) (hx : x ∈ l) (h : l.foldlM f init = .ok r) :
    ∃ pre post acc, l = pre ++ x :: post ∧ pre.foldlM f init = .ok acc := by
  obtain ⟨pre, post, hsplit⟩ := mem_split_list l x hx
  rw [hsplit] at h
  obtain ⟨acc, _, hpre, _, _⟩ := foldlM_split_ok f pre post x init r h
  exact ⟨pre, post, acc, hsplit, hpre⟩

theorem invokes_walker_child (cat : Catalog) (depth : Nat) (kind : NodeKind)
    (children : List Node) (l r : List Oid) (c : Node)
    (h : pgcd_query_expression_walker cat (depth + 1) (Node.node kind children) l = .ok r)
    (hc : c ∈ visited_children kind children) :
    ∃ acc, Invokes cat (.walker (depth + 1) (Node.node kind children) l)
      (.walker depth c acc) := by
  obtain ⟨c1, hs, ht⟩ := walker_succ_ok cat depth kind children l r h
  obtain ⟨pre, post, acc, hsplit, hpre⟩ := foldlM_prefix_ok _ _ c c1 r hc ht
  exact ⟨acc, Invokes.walker_child depth kind children l pre post c c1 acc hs hsplit hpre⟩

theorem invokes_walker_type (cat : Catalog) (depth : Nat) (kind : NodeKind)
    (children : List Node) (l r : List Oid) (typid : Oid)
    (h : pgcd_query_expression_walker cat (depth + 1) (Node.node kind children) l = .ok r)
    (ht : typid ∈ resolved_types kind) :
    Invokes cat (.walker (depth + 1) (Node.node kind children) l) (.type depth typid) := by
  obtain ⟨c1, hs, _⟩ := walker_succ_ok cat depth kind children l r h
  rw [walker_switch_normal_form] at hs
  by_cases hin : in_dispatch_table cat.PG_VERSION_NUM kind = true
  · rw [if_pos hin] at hs
    obtain ⟨pre, post, acc, hsplit, hpre⟩ := foldlM_prefix_ok _ _ typid _ c1 ht hs
    exact Invokes.walker_type depth kind children l pre post typid acc hin hsplit hpre
  · rw [if_neg hin] at hs
    cases hs

theorem invokes_rel_type (cat : Catalog) (depth : Nat) (relid : Oid) (r : List Oid)
    (pg_att : FormData_pg_attribute)
    (h : pgcd_get_rel_collations cat (depth + 1) relid = .ok r)
    (hmem : pg_att ∈ scan_pg_attribute cat relid) (hatt : ¬ pg_att.attnum < 0) :
    Invokes cat (.rel (depth + 1) relid) (.type depth pg_att.atttypid) := by
  rw [pgcd_get_rel_collations] at h
  obtain ⟨pre, post, acc, hsplit, hpre⟩ := foldlM_prefix_ok _ _ pg_att _ r hmem h
  exact Invokes.rel_type depth relid pre post pg_att acc hsplit hpre hatt

theorem invokes_constraint_root (cat : Catalog) (depth : Nat) (conid : Oid)
    (tup : FormData_pg_constraint) (expr root : Node) (r : List Oid)
    (hscan : scan_pg_constraint cat conid = some tup) (hbin : tup.conbin = some expr)
    (h : pgcd_get_constraint_collations cat (depth + 1) conid = .ok r)
    (hroot : root ∈ expression_roots expr) :
    ∃ acc, Invokes cat (.constraint (depth + 1) conid) (.walker depth root acc) := by
  obtain ⟨res, hexpr, _⟩ := constraint_ok cat depth conid tup r hscan h
  rw [hbin] at hexpr
  have hexpr' : pgcd_get_query_expression_collations
      (pgcd_query_expression_walker cat depth) expr = .ok res := hexpr
  rw [pgcd_get_query_expression_collations_roots] at hexpr'
  obtain ⟨pre, post, acc, hsplit, hpre⟩ := foldlM_prefix_ok _ _ root _ res hroot hexpr'
  exact ⟨acc, Invokes.constraint_expression depth conid tup expr pre post root acc hscan hbin
    hsplit hpre⟩

theorem invokes_constraint_key (cat : Catalog) (depth : Nat) (conid : Oid)
    (tup : FormData_pg_constraint) (arr : ArrayType) (conkey : Int)
    (att : FormData_pg_attribute) (r : List Oid)
    (hscan : scan_pg_constraint cat conid = some tup) (hkey : tup.conkey = some arr)
    (h : pgcd_get_constraint_collations cat (depth + 1) conid = .ok r)
    (hmem : conkey ∈ arr.elems)
    (hvalid : AttributeNumberIsValid (int16_to_Oid conkey) = true)
    (hatt : TupleDescAttr (rd_att cat tup.conrelid) (int16_to_Oid conkey - 1) = .ok att) :
    Invokes cat (.constraint (depth + 1) conid) (.type depth att.atttypid) := by
  obtain ⟨res, hexpr, hkeys⟩ := constraint_ok cat depth conid tup r hscan h
  unfold pgcd_get_constraint_collations.keys at hkeys
  simp only [hkey, bind, Except.bind] at hkeys
  cases hopen : relation_open cat tup.conrelid with
  | error e => simp only [hopen] at hkeys; cases hkeys
  | ok rel =>
    simp only [hopen] at hkeys
    by_cases hshape : (arr.ndim != 1 || arr.hasnull || arr.elemtype != INT2OID) = true
    · rw [if_pos hshape] at hkeys
      cases hkeys
    · rw [if_neg hshape] at hkeys
      obtain ⟨pre, post, acc, hsplit, hpre⟩ := foldlM_prefix_ok _ _ conkey _ r hmem hkeys
      exact Invokes.constraint_key depth conid tup arr rel res acc pre post conkey att hscan
        hexpr hkey hopen (by simpa using hshape) hsplit hpre hvalid hatt

theorem visited_reaches (cat : Catalog) (root target : Node)
    (hv : InVisitedTree root target) :
    ∀ depth l r, pgcd_query_expression_walker cat depth root l = .ok r →
      ∃ depth' l', Reaches cat (.walker depth root l) (.walker depth' target l') := by
  induction hv with
  | root node => exact fun depth l _ _ => ⟨depth, l, Relation.ReflTransGen.refl⟩
  | child kind children c target hc _ ih =>
    intro depth l r h
    cases depth with
    | zero => rw [pgcd_query_expression_walker] at h; cases h
    | succ d =>
      obtain ⟨acc, hinv⟩ := invokes_walker_child cat d kind children l r c h hc
      obtain ⟨rc, hrc, _⟩ := invokes_ok cat _ _ hinv r h
      obtain ⟨depth', l', hreach⟩ := ih d acc rc hrc
      exact ⟨depth', l', Relation.ReflTransGen.head hinv hreach⟩

theorem type_with_collation (cat : Catalog) (depth : Nat) (typid : Oid)
    (typtup : FormData_pg_type) (r : List Oid)
    (hlook : SearchSysCache1_TYPEOID cat typid = some typtup)
    (hvalid : OidIsValid typtup.typcollation = true)
    (h : pgcd_get_type_collations cat depth typid = .ok r) : typtup.typcollation ∈ r := by
  cases depth with
  | zero => rw [pgcd_get_type_collations] at h; cases h
  | succ d =>
    obtain ⟨primary, hp, hle⟩ := type_primary_part cat d typid typtup r hlook h
    simp only [pgcd_get_type_collations.primary, hvalid, if_true, pure, Except.pure] at hp
    injection hp with hp
    apply hle
    rw [← hp]
    exact List.mem_singleton.mpr rfl

/-! ## End to end on a composite type over a domain -/

theorem domain_contains (cat : Catalog) (C2 D : Oid) (typD : FormData_pg_type)
    (hC2 : OidIsValid C2 = true)
    (hD : SearchSysCache1_TYPEOID cat D = some typD)
    (hDC : typD.typcollation = C2 ∨
      (OidIsValid typD.typcollation = false ∧ OidIsValid typD.typelem = false ∧
        OidIsValid typD.typbasetype = true ∧
        ∃ typT, SearchSysCache1_TYPEOID cat typD.typbasetype = some typT ∧
          typT.typcollation = C2))
    (depth : Nat) (r : List Oid) (h : pgcd_get_type_collations cat depth D = .ok r) :
    C2 ∈ r := by
  rcases hDC with hc | ⟨hc, he, hb, typT, hT, hTC⟩
  · have := type_with_collation cat depth D typD r hD (by rw [hc]; exact hC2) h
    rwa [hc] at this
  · cases depth with
    | zero => rw [pgcd_get_type_collations] at h; cases h
    | succ d =>
      obtain ⟨rb, hrb, hle⟩ := invokes_ok cat _ _
        (Invokes.type_base d D typD hD hc he hb) r h
      have := type_with_collation cat d typD.typbasetype typT rb hT
        (by rw [hTC]; exact hC2) hrb
      rw [hTC] at this
      exact hle C2 this

theorem composite_contains (cat : Catalog) (C2 D S : Oid) (typS typD : FormData_pg_type)
    (x : FormData_pg_attribute) (hC2 : OidIsValid C2 = true)
    (hS : SearchSysCache1_TYPEOID cat S = some typS)
    (hS1 : OidIsValid typS.typcollation = false) (hS2 : OidIsValid typS.typelem = false)
    (hS3 : OidIsValid typS.typbasetype = false) (hS4 : OidIsValid typS.typrelid = true)
    (hx : x ∈ scan_pg_attribute cat typS.typrelid) (hxn : ¬ x.attnum < 0)
    (hxt : x.atttypid = D)
    (hD : SearchSysCache1_TYPEOID cat D = some typD)
    (hDC : typD.typcollation = C2 ∨
      (OidIsValid typD.typcollation = false ∧ OidIsValid typD.typelem = false ∧
        OidIsValid typD.typbasetype = true ∧
        ∃ typT, SearchSysCache1_TYPEOID cat typD.typbasetype = some typT ∧
          typT.typcollation = C2))
    (depth : Nat) (r : List Oid) (h : pgcd_get_type_collations cat depth S = .ok r) :
    C2 ∈ r := by
  cases depth with
  | zero => rw [pgcd_get_type_collations] at h; cases h
  | succ d =>
    obtain ⟨rr, hrr, hle⟩ := invokes_ok cat _ _
      (Invokes.type_relation d S typS hS hS1 hS2 hS3 hS4) r h
    simp only [Call.outcome] at hrr
    cases d with
    | zero => rw [pgcd_get_rel_collations] at hrr; cases hrr
    | succ d' =>
      obtain ⟨rd, hrd, hle'⟩ := invokes_ok cat _ _
        (invokes_rel_type cat d' typS.typrelid rr x hrr hx hxn) rr hrr
      simp only [Call.outcome] at hrd
      rw [hxt] at hrd
      exact hle C2 (hle' C2 (domain_contains cat C2 D typD hC2 hD hDC d' rd hrd))

/-- C11: in a catalog with a domain `D` whose collation is `C2` (recorded
on the domain, or on its base type when the domain records none) and a
composite type `S` whose relation has an attribute `x` of type `D`, every
constraint that is keyed on a column of type `S`, or whose stored
expression has, in the tree that the walker visits, a variable reference of
type `S`, resolves to a list that contains `C2` whenever its resolution
succeeds, at any depth; so does the entry point. -/
theorem composite_domain_collation_reached (cat : Catalog) (C2 D S : Oid)
    (typS typD : FormData_pg_type) (x : FormData_pg_attribute)
    (conid : Oid) (tup : FormData_pg_constraint) (hC2 : OidIsValid C2 = true)
    (hS : SearchSysCache1_TYPEOID cat S = some typS)
    (hS1 : OidIsValid typS.typcollation = false) (hS2 : OidIsValid typS.typelem = false)
    (hS3 : OidIsValid typS.typbasetype = false) (hS4 : OidIsValid typS.typrelid = true)
    (hx : x ∈ scan_pg_attribute cat typS.typrelid) (hxn : ¬ x.attnum < 0)
    (hxt : x.atttypid = D)
    (hD : SearchSysCache1_TYPEOID cat D = some typD)
    (hDC : typD.typcollation = C2 ∨
      (OidIsValid typD.typcollation = false ∧ OidIsValid typD.typelem = false ∧
        OidIsValid typD.typbasetype = true ∧
        ∃ typT, SearchSysCache1_TYPEOID cat typD.typbasetype = some typT ∧
          typT.typcollation = C2))
    (hscan : scan_pg_constraint cat conid = some tup)
    (hcon : (∃ arr conkey att, tup.conkey = some arr ∧ conkey ∈ arr.elems ∧
        AttributeNumberIsValid (int16_to_Oid conkey) = true ∧
        TupleDescAttr (rd_att cat tup.conrelid) (int16_to_Oid conkey - 1) = .ok att ∧
        att.atttypid = S) ∨
      (∃ expr root varcollid children, tup.conbin = some expr ∧
        root ∈ expression_roots expr ∧
        InVisitedTree root (Node.node (NodeKind.T_Var varcollid S) children)))
    (depth : Nat) (res : List Oid)
    (hres : pgcd_get_constraint_collations cat depth conid = .ok res ∨
      pg_collation_constraint_dependencies cat depth conid = .ok res) :
    C2 ∈ res := by
  have hraw : ∀ raw, pgcd_get_constraint_collations cat depth conid = .ok raw → C2 ∈ raw := by
    intro raw h
    cases depth with
    | zero => rw [pgcd_get_constraint_collations] at h; cases h
    | succ d =>
      have hSok : ∀ d' rS, pgcd_get_type_collations cat d' S = .ok rS → C2 ∈ rS :=
        fun d' rS hrS => composite_contains cat C2 D S typS typD x hC2 hS hS1 hS2 hS3 hS4 hx
          hxn hxt hD hDC d' rS hrS
      rcases hcon with ⟨arr, conkey, att, hkey, hmem, hvalid, hatt, hattS⟩ |
        ⟨expr, root, varcollid, children, hbin, hroot, hv⟩
      · obtain ⟨rS, hrS, hle⟩ := invokes_ok cat _ _
          (invokes_constraint_key cat d conid tup arr conkey att raw hscan hkey h hmem hvalid
            hatt) raw h
        simp only [Call.outcome] at hrS
        rw [hattS] at hrS
        exact hle C2 (hSok d rS hrS)
      · obtain ⟨acc, hinv⟩ := invokes_constraint_root cat d conid tup expr root raw hscan hbin
          h hroot
        obtain ⟨rroot, hrw, hle⟩ := invokes_ok cat _ _ hinv raw h
        simp only [Call.outcome] at hrw
        obtain ⟨depth', l', hreach⟩ := visited_reaches cat root _ hv d acc rroot hrw
        obtain ⟨rv, hrv, hle'⟩ := reaches_ok cat _ _ hreach rroot hrw
        simp only [Call.outcome] at hrv
        cases depth' with
        | zero => rw [pgcd_query_expression_walker] at hrv; cases hrv
        | succ d'' =>
          obtain ⟨rS, hrS, hle''⟩ := invokes_ok cat _ _
            (invokes_walker_type cat d'' (NodeKind.T_Var varcollid S) children l' rv S hrv
              (List.mem_singleton.mpr rfl)) rv hrv
          simp only [Call.outcome] at hrS
          exact hle C2 (hle' C2 (hle'' C2 (hSok d'' rS hrS)))
  rcases hres with hres | hres
  · exact hraw res hres
  · obtain ⟨raw, hr, hn⟩ := pgcd_constraint_deps_normalized cat depth conid res hres
    rw [hn]
    exact (normalize_mem C2 raw).mpr (hraw raw hr)

/-- Witness of C11: in `fixture_composite 950` the constraint `17311`,
keyed on the column `s` of the composite type, and the constraint `17312`,
whose stored expression refers to `s`, both resolve to `[950]`. -/
theorem composite_domain_collation_reached_witness :
    pgcd_get_constraint_collations (fixture_composite 950) 5 17311 = .ok [950] ∧
    pgcd_get_constraint_collations (fixture_composite 950) 7 17312 = .ok [950] ∧
    (950 : Oid) ∈ ([950] : List Oid) ∧ (950 : Oid) ∈ ([950] : List Oid) :=
  ⟨rfl, rfl,
    composite_domain_collation_reached (fixture_composite 950) 950 17300 17301
      { oid := 17301, typcollation := 0, typelem := 0, typbasetype := 0,
        typrelid := 17302, typtype := 'c' }
      { oid := 17300, typcollation := 0, typelem := 0, typbasetype := TEXTOID,
        typrelid := 0, typtype := 'd' }
      { attrelid := 17302, attnum := 1, atttypid := 17300, attcollation := 0 }
      17311
      { oid := 17311, conrelid := 17310, conbin := none,
        conkey := some { ndim := 1, hasnull := false, elemtype := INT2OID, elems := [1] } }
      rfl rfl rfl rfl rfl rfl (List.mem_singleton.mpr rfl) (by decide) rfl rfl
      (Or.inr ⟨rfl, rfl, rfl, _, rfl, rfl⟩) rfl
      (Or.inl ⟨_, 1, _, rfl, List.mem_singleton.mpr rfl, rfl, rfl, rfl⟩)
      5 [950] (Or.inl rfl),
    composite_domain_collation_reached (fixture_composite 950) 950 17300 17301
      { oid := 17301, typcollation := 0, typelem := 0, typbasetype := 0,
        typrelid := 17302, typtype := 'c' }
      { oid := 17300, typcollation := 0, typelem := 0, typbasetype := TEXTOID,
        typrelid := 0, typtype := 'd' }
      { attrelid := 17302, attnum := 1, atttypid := 17300, attcollation := 0 }
      17312
      { oid := 17312, conrelid := 17310,
        conbin := some (Node.node NodeKind.T_NullTest
          [Node.node (NodeKind.T_Var 0 17301) []]),
        conkey := none }
      rfl rfl rfl rfl rfl rfl (List.mem_singleton.mpr rfl) (by decide) rfl rfl
      (Or.inr ⟨rfl, rfl, rfl, _, rfl, rfl⟩) rfl
      (Or.inr ⟨_, _, 0, [], rfl, List.mem_singleton.mpr rfl,
        InVisitedTree.child NodeKind.T_NullTest _ _ _ (List.mem_singleton.mpr rfl)
          (InVisitedTree.root _)⟩)
      7 [950] (Or.inl rfl)⟩


/-! ## Termination of the type resolver -/

theorem fixture_cycle_type_graph_acyclic : TypeGraphAcyclic fixture_cycle := by
  refine ⟨fun t => if t = 17400 then 1 else 0, ?_⟩
  rintro t u ⟨typtup, hlook, hedge⟩
  have hmem := List.mem_of_find?_eq_some hlook
  have ht := List.find?_some hlook
  simp only [fixture_cycle, List.mem_cons, List.mem_singleton, List.not_mem_nil,
    or_false] at hmem
  rcases hmem with rfl | rfl | rfl
  · rcases hedge with ⟨h, _⟩ | ⟨h, _⟩ | ⟨h, _⟩ | ⟨m, r, h, _⟩
    · cases h
    · cases h
    · cases h
    · cases m <;> cases h
  · rcases hedge with ⟨h, _⟩ | ⟨h, _⟩ | ⟨h, _⟩ | ⟨m, r, h, _⟩
    · cases h
    · cases h
    · cases h
    · cases m <;> cases h
  · rcases hedge with ⟨h, _⟩ | ⟨_, hu⟩ | ⟨h, _⟩ | ⟨m, r, h, _⟩
    · cases h
    · have ht' : (17400 : Oid) = t := by simpa using ht
      subst ht' hu
      decide
    · cases h
    · cases m <;> cases h

theorem fixture_cycle_never_ends (depth : Nat) :
    pgcd_get_type_collations fixture_cycle depth 17400
      = .error .stack_depth_limit_exceeded ∧
    pgcd_get_constraint_collations fixture_cycle depth 17411
      = .error .stack_depth_limit_exceeded ∧
    (∀ l, pgcd_query_expression_walker fixture_cycle depth
      (Node.node (NodeKind.T_CoerceToDomain 100 17400)
        [Node.node (NodeKind.T_Var 100 TEXTOID) []]) l
      = .error .stack_depth_limit_exceeded) ∧
    pgcd_query_expression_walker fixture_cycle depth fixture_cycle_check_expr []
      = .error .stack_depth_limit_exceeded := by
  induction depth with
  | zero => exact ⟨rfl, rfl, fun _ => rfl, rfl⟩
  | succ d ih =>
    obtain ⟨hty, hcon, hco, hroot⟩ := ih
    refine ⟨?_, ?_, ?_, ?_⟩
    · rw [pgcd_get_type_collations]
      have hl : SearchSysCache1_TYPEOID fixture_cycle 17400 = some
          { oid := 17400, typcollation := 100, typelem := 0, typbasetype := TEXTOID,
            typrelid := 0, typtype := 'd' } := rfl
      have hd : scan_pg_depend fixture_cycle 17400 =
          [ { classid := ConstraintRelationId, objid := 17411,
              refclassid := TypeRelationId, refobjid := 17400 } ] := rfl
      simp only [hl, hd]
      have hp : pgcd_get_type_collations.primary fixture_cycle.PG_VERSION_NUM
          (pgcd_get_type_collations fixture_cycle d) (pgcd_get_rel_collations fixture_cycle d)
          (pgcd_get_range_type_collations fixture_cycle d)
          { oid := 17400, typcollation := 100, typelem := 0, typbasetype := TEXTOID,
            typrelid := 0, typtype := 'd' } = .ok [100] := rfl
      rw [hp]
      simp only [bind, Except.bind, List.foldlM, pgcd_get_type_collations.body]
      have hc : ((ConstraintRelationId : Oid) != ConstraintRelationId) = false := by decide
      simp only [hc, Bool.false_eq_true, if_false, hcon, bind, Except.bind]
    · rw [pgcd_get_constraint_collations]
      have hs : scan_pg_constraint fixture_cycle 17411 = some
          { oid := 17411, conrelid := 17410, conbin := some fixture_cycle_check_expr,
            conkey := some { ndim := 1, hasnull := false, elemtype := INT2OID,
                             elems := [1] } } := rfl
      simp only [hs]
      have he : pgcd_get_constraint_collations.expression
          (pgcd_query_expression_walker fixture_cycle d) (some fixture_cycle_check_expr)
          = .error .stack_depth_limit_exceeded := hroot
      simp only [he, bind, Except.bind]
    · intro l
      rw [pgcd_query_expression_walker]
      have hsw : walker_switch fixture_cycle.PG_VERSION_NUM
          (pgcd_get_type_collations fixture_cycle d) l (NodeKind.T_CoerceToDomain 100 17400)
          = .error .stack_depth_limit_exceeded := by
        simp only [walker_switch]
        exact APPEND_TYPE_COLLS_of_error _ _ _ _ hty
      simp only [hsw, bind, Except.bind]
    · unfold fixture_cycle_check_expr
      cases hsw : walker_switch fixture_cycle.PG_VERSION_NUM
          (pgcd_get_type_collations fixture_cycle d) [] (NodeKind.T_OpExpr 0 100 BOOLOID) with
      | error e =>
        have he : e = .stack_depth_limit_exceeded := by
          cases d with
          | zero =>
            have : walker_switch fixture_cycle.PG_VERSION_NUM
                (pgcd_get_type_collations fixture_cycle 0) []
                (NodeKind.T_OpExpr 0 100 BOOLOID) = .error .stack_depth_limit_exceeded := rfl
            rw [this] at hsw
            injection hsw with hsw
            exact hsw.symm
          | succ d' =>
            have : walker_switch fixture_cycle.PG_VERSION_NUM
                (pgcd_get_type_collations fixture_cycle (d' + 1)) []
                (NodeKind.T_OpExpr 0 100 BOOLOID) = .ok [100] := rfl
            rw [this] at hsw
            cases hsw
        subst he
        rw [pgcd_query_expression_walker]
        simp only [hsw, bind, Except.bind]
      | ok c1 =>
        exact walker_succ_error fixture_cycle d _ _ [] c1 _ hsw
          (tree_walker_reach_error _ [] _ _ c1 c1 _ rfl (hco c1))

/-- C20 as stated fails: the type graph of `fixture_cycle` is acyclic (its
only edge goes from the domain `17400` to its base type `text`), yet the
type resolver does not end on the domain at any depth: it recurses into the
check constraint that `pg_depend` attaches to the domain, whose expression
casts to the domain again, until the stack depth guard stops it. -/
theorem type_resolver_cycle_through_constraint :
    TypeGraphAcyclic fixture_cycle ∧
    ∀ depth, pgcd_get_type_collations fixture_cycle depth 17400
      = .error .stack_depth_limit_exceeded :=
  ⟨fixture_cycle_type_graph_acyclic, fun depth => (fixture_cycle_never_ends depth).1⟩


theorem endsAs_refl {α : Type} (x : Except PgError α) : EndsAs x x := fun _ => rfl

theorem endsAs_stack {α : Type} (y : Except PgError α) :
    EndsAs (.error .stack_depth_limit_exceeded) y := fun h => absurd rfl h

theorem endsAs_bind {α β : Type} (x y : Except PgError α) (f g : α → Except PgError β)
    (hxy : EndsAs x y) (hfg : ∀ a, EndsAs (f a) (g a)) : EndsAs (x >>= f) (y >>= g) := by
  intro h
  cases x with
  | error e =>
    have hy : y = .error e := hxy (fun he => h (by rw [he]; rfl))
    rw [hy]
    rfl
  | ok a =>
    have hy : y = .ok a := hxy (fun he => by cases he)
    rw [hy]
    exact hfg a h

theorem endsAs_foldlM {α β : Type} (f g : β → α → Except PgError β)
    (hfg : ∀ acc x, EndsAs (f acc x) (g acc x)) (l : List α) (init : β) :
    EndsAs (l.foldlM f init) (l.foldlM g init) := by
  induction l generalizing init with
  | nil => exact endsAs_refl _
  | cons a t ih =>
    rw [List.foldlM_cons, List.foldlM_cons]
    exact endsAs_bind _ _ _ _ (hfg init a) (fun b => ih b)

theorem APPEND_TYPE_COLLS_endsAs (tc tc' : Oid → Except PgError (List Oid))
    (h : ∀ o, EndsAs (tc o) (tc' o)) (l : List Oid) (o : Oid) :
    EndsAs (APPEND_TYPE_COLLS tc l o) (APPEND_TYPE_COLLS tc' l o) := by
  unfold APPEND_TYPE_COLLS
  exact endsAs_bind _ _ _ _ (h o) (fun _ => endsAs_refl _)

theorem walker_switch_endsAs (v : Nat) (tc tc' : Oid → Except PgError (List Oid))
    (h : ∀ o, EndsAs (tc o) (tc' o)) (l : List Oid) (kind : NodeKind) :
    EndsAs (walker_switch v tc l kind) (walker_switch v tc' l kind) := by
  rw [walker_switch_normal_form, walker_switch_normal_form]
  split_ifs
  · exact endsAs_foldlM _ _ (APPEND_TYPE_COLLS_endsAs tc tc' h) _ _
  · exact endsAs_refl _

theorem tree_walker_endsAs (w w' : Node → List Oid → Except PgError (List Oid))
    (h : ∀ node l, EndsAs (w node l) (w' node l)) (children : List Node) (l : List Oid) :
    EndsAs (tree_walker w children l) (tree_walker w' children l) :=
  endsAs_foldlM _ _ (fun acc x => h x acc) children l

theorem expression_endsAs (w w' : Node → List Oid → Except PgError (List Oid))
    (h : ∀ node l, EndsAs (w node l) (w' node l)) (conbin : Option Node) :
    EndsAs (pgcd_get_constraint_collations.expression w conbin)
      (pgcd_get_constraint_collations.expression w' conbin) := by
  cases conbin with
  | none => exact endsAs_refl _
  | some expr =>
    simp only [pgcd_get_constraint_collations.expression,
      pgcd_get_query_expression_collations_roots]
    exact tree_walker_endsAs w w' h _ _

theorem constraint_body_endsAs (tc tc' : Oid → Except PgError (List Oid))
    (h : ∀ o, EndsAs (tc o) (tc' o)) (tupdesc : List FormData_pg_attribute)
    (res : List Oid) (conkey : Int) :
    EndsAs (pgcd_get_constraint_collations.body tc tupdesc res conkey)
      (pgcd_get_constraint_collations.body tc' tupdesc res conkey) := by
  unfold pgcd_get_constraint_collations.body
  simp only
  split_ifs
  · exact endsAs_refl _
  · exact endsAs_bind _ _ _ _ (endsAs_refl _) (fun att => APPEND_TYPE_COLLS_endsAs tc tc' h _ _)

theorem constraint_keys_endsAs (cat : Catalog) (tc tc' : Oid → Except PgError (List Oid))
    (h : ∀ o, EndsAs (tc o) (tc' o)) (tup : FormData_pg_constraint) (res : List Oid) :
    EndsAs (pgcd_get_constraint_collations.keys cat tc tup res)
      (pgcd_get_constraint_collations.keys cat tc' tup res) := by
  unfold pgcd_get_constraint_collations.keys
  split
  · exact endsAs_refl _
  · refine endsAs_bind _ _ _ _ (endsAs_refl _) (fun _ => ?_)
    split_ifs
    · exact endsAs_refl _
    · exact endsAs_foldlM _ _ (constraint_body_endsAs tc tc' h _) _ _

theorem rel_body_endsAs (tc tc' : Oid → Except PgError (List Oid))
    (h : ∀ o, EndsAs (tc o) (tc' o)) (res : List Oid) (att : FormData_pg_attribute) :
    EndsAs (pgcd_get_rel_collations.body tc res att)
      (pgcd_get_rel_collations.body tc' res att) := by
  unfold pgcd_get_rel_collations.body
  simp only
  split_ifs
  · exact endsAs_refl _
  · exact APPEND_TYPE_COLLS_endsAs tc tc' h _ _
  · exact APPEND_TYPE_COLLS_endsAs tc tc' h _ _

theorem type_primary_endsAs (v : Nat) (tc tc' rc rc' : Oid → Except PgError (List Oid))
    (rg rg' : Oid → Bool → Except PgError (List Oid))
    (htc : ∀ o, EndsAs (tc o) (tc' o)) (hrc : ∀ o, EndsAs (rc o) (rc' o))
    (hrg : ∀ o m, EndsAs (rg o m) (rg' o m)) (typtup : FormData_pg_type) :
    EndsAs (pgcd_get_type_collations.primary v tc rc rg typtup)
      (pgcd_get_type_collations.primary v tc' rc' rg' typtup) := by
  unfold pgcd_get_type_collations.primary
  split_ifs
  · exact endsAs_refl _
  · exact htc _
  · exact htc _
  · exact hrc _
  · exact hrg _ _
  · exact endsAs_refl _

theorem type_body_endsAs (cc cc' : Oid → Except PgError (List Oid))
    (h : ∀ o, EndsAs (cc o) (cc' o)) (res : List Oid) (dep : FormData_pg_depend) :
    EndsAs (pgcd_get_type_collations.body cc res dep)
      (pgcd_get_type_collations.body cc' res dep) := by
  unfold pgcd_get_type_collations.body
  split_ifs
  · exact endsAs_refl _
  · exact endsAs_bind _ _ _ _ (h _) (fun _ => endsAs_refl _)

theorem resolvers_end_alike (cat : Catalog) (depth : Nat) :
    (∀ node l, EndsAs (pgcd_query_expression_walker cat depth node l)
      (pgcd_query_expression_walker cat (depth + 1) node l)) ∧
    (∀ relid, EndsAs (pgcd_get_rel_collations cat depth relid)
      (pgcd_get_rel_collations cat (depth + 1) relid)) ∧
    (∀ conid, EndsAs (pgcd_get_constraint_collations cat depth conid)
      (pgcd_get_constraint_collations cat (depth + 1) conid)) ∧
    (∀ rngid m, EndsAs (pgcd_get_range_type_collations cat depth rngid m)
      (pgcd_get_range_type_collations cat (depth + 1) rngid m)) ∧
    (∀ typid, EndsAs (pgcd_get_type_collations cat depth typid)
      (pgcd_get_type_collations cat (depth + 1) typid)) := by
  induction depth with
  | zero =>
    exact ⟨fun _ _ => endsAs_stack _, fun _ => endsAs_stack _, fun _ => endsAs_stack _,
      fun _ _ => endsAs_stack _, fun _ => endsAs_stack _⟩
  | succ d ih =>
    obtain ⟨ihW, ihRel, ihCon, ihRng, ihTy⟩ := ih
    refine ⟨?_, ?_, ?_, ?_, ?_⟩
    · intro node l
      cases node with
      | null => exact endsAs_refl _
      | node kind children =>
        rw [pgcd_query_expression_walker, pgcd_query_expression_walker]
        refine endsAs_bind _ _ _ _ (walker_switch_endsAs _ _ _ ihTy l kind) (fun c => ?_)
        split
        · refine endsAs_bind _ _ _ _ (endsAs_refl _) (fun b => ?_)
          split_ifs
          · exact endsAs_refl _
          · exact tree_walker_endsAs _ _ ihW _ _
        · exact tree_walker_endsAs _ _ ihW _ _
    · intro relid
      rw [pgcd_get_rel_collations, pgcd_get_rel_collations]
      exact endsAs_foldlM _ _ (rel_body_endsAs _ _ ihTy) _ _
    · intro conid
      rw [pgcd_get_constraint_collations, pgcd_get_constraint_collations]
      split
      · exact endsAs_refl _
      · exact endsAs_bind _ _ _ _ (expression_endsAs _ _ ihW _)
          (fun r => constraint_keys_endsAs cat _ _ ihTy _ r)
    · intro rngid m
      rw [pgcd_get_range_type_collations, pgcd_get_range_type_collations]
      split
      · exact endsAs_refl _
      · exact APPEND_TYPE_COLLS_endsAs _ _ ihTy _ _
    · intro typid
      rw [pgcd_get_type_collations, pgcd_get_type_collations]
      split
      · exact endsAs_refl _
      · exact endsAs_bind _ _ _ _ (type_primary_endsAs _ _ _ _ _ _ _ ihTy ihRel ihRng _)
          (fun r => endsAs_foldlM _ _ (type_body_endsAs _ _ ihCon) _ _)


theorem ends_alike_from (f : Nat → Except PgError (List Oid))
    (hstep : ∀ d, EndsAs (f d) (f (d + 1))) (b : Nat)
    (hb : f b ≠ .error .stack_depth_limit_exceeded) (d : Nat) (hd : b ≤ d) : f d = f b := by
  induction d with
  | zero =>
    have : b = 0 := Nat.le_zero.1 hd
    rw [this]
  | succ n ih =>
    rcases Nat.lt_or_ge b (n + 1) with hlt | hge
    · have hn : f n = f b := ih (Nat.le_of_lt_succ hlt)
      rw [← hn]
      exact hstep n (by rw [hn]; exact hb)
    · have : b = n + 1 := Nat.le_antisymm hd hge
      rw [this]

theorem eventually_forall_mem {α : Type} (P : Nat → α → Prop) (l : List α)
    (h : ∀ x ∈ l, ∃ b, ∀ d, b ≤ d → P d x) : ∃ b, ∀ d, b ≤ d → ∀ x ∈ l, P d x := by
  induction l with
  | nil => exact ⟨0, fun _ _ x hx => absurd hx (List.not_mem_nil x)⟩
  | cons a t ih =>
    obtain ⟨b1, h1⟩ := h a (List.mem_cons_self _ _)
    obtain ⟨b2, h2⟩ := ih (fun x hx => h x (List.mem_cons_of_mem _ hx))
    refine ⟨max b1 b2, fun d hd x hx => ?_⟩
    rcases List.mem_cons.1 hx with rfl | hx
    · exact h1 d (le_trans (le_max_left _ _) hd)
    · exact h2 d (le_trans (le_max_right _ _) hd) x hx

theorem walker_switch_error_type (v : Nat) (tc : Oid → Except PgError (List Oid))
    (l : List Oid) (kind : NodeKind) (e : PgError)
    (h : walker_switch v tc l kind = .error e) :
    e = .unexpected_node_type ∨ ∃ o ∈ resolved_types kind, tc o = .error e := by
  rw [walker_switch_normal_form] at h
  split_ifs at h
  · obtain ⟨acc, o, ho, hs⟩ := foldlM_error _ _ _ e h
    exact Or.inr ⟨o, ho, APPEND_TYPE_COLLS_error tc acc o e hs⟩
  · injection h with h
    exact Or.inl h.symm

theorem visited_children_mem (kind : NodeKind) (children : List Node) (c : Node)
    (h : c ∈ visited_children kind children) : c ∈ children := by
  unfold visited_children at h
  split at h
  · split at h
    · exact h
    · exact absurd h (List.not_mem_nil c)
  · exact h

theorem walker_stack_error (cat : Catalog) (d : Nat) (kind : NodeKind)
    (children : List Node) (l : List Oid)
    (h : pgcd_query_expression_walker cat (d + 1) (Node.node kind children) l
      = .error .stack_depth_limit_exceeded) :
    (∃ o ∈ resolved_types kind,
      pgcd_get_type_collations cat d o = .error .stack_depth_limit_exceeded) ∨
    (∃ c ∈ visited_children kind children, ∃ acc,
      pgcd_query_expression_walker cat d c acc = .error .stack_depth_limit_exceeded) := by
  rw [pgcd_query_expression_walker] at h
  cases hs : walker_switch cat.PG_VERSION_NUM (pgcd_get_type_collations cat d) l kind with
  | error e' =>
    simp only [hs, bind, Except.bind] at h
    injection h with h
    subst h
    rcases walker_switch_error_type _ _ l kind _ hs with he | ⟨o, ho, hty⟩
    · cases he
    · exact Or.inl ⟨o, ho, hty⟩
  | ok c1 =>
    simp only [hs, bind, Except.bind] at h
    split at h
    · cases hb : coerce_arg_is_scalar_reference children with
      | error e' =>
        simp only [hb] at h
        injection h with h
        subst h
        unfold coerce_arg_is_scalar_reference at hb
        split at hb
        · cases hb
        · cases hb
      | ok b =>
        simp only [hb] at h
        split_ifs at h with hbt
        · cases h
        · obtain ⟨child, acc, hc, hw⟩ := tree_walker_error _ children c1 _ h
          have hbf : b = false := by simpa using hbt
          subst hbf
          refine Or.inr ⟨child, ?_, acc, hw⟩
          simp only [visited_children, hb]
          exact hc
    · rename_i hk
      obtain ⟨child, acc, hc, hw⟩ := tree_walker_error _ children c1 _ h
      refine Or.inr ⟨child, ?_, acc, hw⟩
      unfold visited_children
      split
      · rename_i a b
        exact absurd rfl (hk a b)
      · exact hc

theorem walker_ends (cat : Catalog) (node : Node)
    (h : ∀ kind children o, InVisitedTree node (Node.node kind children) →
      o ∈ resolved_types kind →
      ∃ b, ∀ d, b ≤ d → pgcd_get_type_collations cat d o ≠ .error .stack_depth_limit_exceeded) :
    ∃ b, ∀ d, b ≤ d → ∀ l,
      pgcd_query_expression_walker cat d node l ≠ .error .stack_depth_limit_exceeded := by
  match node with
  | Node.null =>
    refine ⟨1, fun d hd l hw => ?_⟩
    obtain ⟨d', rfl⟩ : ∃ d', d = d' + 1 := ⟨d - 1, by omega⟩
    rw [pgcd_query_expression_walker] at hw
    cases hw
  | Node.node kind children =>
    have hch : ∀ c ∈ visited_children kind children, ∃ b, ∀ d, b ≤ d → ∀ l,
        pgcd_query_expression_walker cat d c l ≠ .error .stack_depth_limit_exceeded :=
      fun c hc => walker_ends cat c
        (fun k ch o hv ho => h k ch o (InVisitedTree.child kind children c _ hc hv) ho)
    obtain ⟨bc, hbc⟩ := eventually_forall_mem
      (fun d c => ∀ l,
        pgcd_query_expression_walker cat d c l ≠ .error .stack_depth_limit_exceeded) _ hch
    obtain ⟨bt, hbt⟩ := eventually_forall_mem
      (fun d o => pgcd_get_type_collations cat d o ≠ .error .stack_depth_limit_exceeded)
      (resolved_types kind)
      (fun o ho => h kind children o (InVisitedTree.root _) ho)
    refine ⟨max bc bt + 1, fun d hd l hw => ?_⟩
    obtain ⟨d', rfl⟩ : ∃ d', d = d' + 1 := ⟨d - 1, by omega⟩
    have hd' : max bc bt ≤ d' := Nat.le_of_succ_le_succ hd
    rcases walker_stack_error cat d' kind children l hw with ⟨o, ho, hty⟩ | ⟨c, hc, acc, hwc⟩
    · exact hbt d' (le_trans (le_max_right _ _) hd') o ho hty
    · exact hbc d' (le_trans (le_max_left _ _) hd') c hc acc hwc
termination_by sizeOf node
decreasing_by
  have hm := List.sizeOf_lt_of_mem (visited_children_mem kind children c hc)
  simp only [Node.node.sizeOf_spec]
  omega


theorem constraint_body_ends (cat : Catalog) (relid : Oid) (conkey : Int)
    (h : ∀ att, AttributeNumberIsValid (int16_to_Oid conkey) = true →
      TupleDescAttr (rd_att cat relid) (int16_to_Oid conkey - 1) = .ok att →
      ∃ b, ∀ d, b ≤ d →
        pgcd_get_type_collations cat d att.atttypid ≠ .error .stack_depth_limit_exceeded) :
    ∃ b, ∀ d, b ≤ d → ∀ res,
      pgcd_get_constraint_collations.body (pgcd_get_type_collations cat d) (rd_att cat relid)
        res conkey ≠ .error .stack_depth_limit_exceeded := by
  by_cases hv : AttributeNumberIsValid (int16_to_Oid conkey) = true
  · cases ha : TupleDescAttr (rd_att cat relid) (int16_to_Oid conkey - 1) with
    | error e =>
      refine ⟨0, fun d _ res hb => ?_⟩
      unfold pgcd_get_constraint_collations.body at hb
      simp only [hv, Bool.not_true, Bool.false_eq_true, if_false, ha, bind, Except.bind] at hb
      injection hb with hb
      subst hb
      unfold TupleDescAttr at ha
      split at ha
      · cases ha
      · cases ha
    | ok att =>
      obtain ⟨b, hb⟩ := h att hv ha
      refine ⟨b, fun d hd res hbody => ?_⟩
      unfold pgcd_get_constraint_collations.body at hbody
      simp only [hv, Bool.not_true, Bool.false_eq_true, if_false, ha, bind, Except.bind] at hbody
      exact hb d hd (APPEND_TYPE_COLLS_error _ _ _ _ hbody)
  · refine ⟨0, fun d _ res hb => ?_⟩
    have hf : AttributeNumberIsValid (int16_to_Oid conkey) = false := by
      simpa using hv
    unfold pgcd_get_constraint_collations.body at hb
    simp only [hf, Bool.not_false, if_true] at hb
    cases hb

theorem constraint_ends (cat : Catalog) (conid : Oid)
    (h : ∀ u, constraint_type cat conid u → ∃ b, ∀ d, b ≤ d →
      pgcd_get_type_collations cat d u ≠ .error .stack_depth_limit_exceeded) :
    ∃ b, ∀ d, b ≤ d →
      pgcd_get_constraint_collations cat d conid ≠ .error .stack_depth_limit_exceeded := by
  cases hscan : scan_pg_constraint cat conid with
  | none =>
    refine ⟨1, fun d hd hc => ?_⟩
    obtain ⟨d', rfl⟩ : ∃ d', d = d' + 1 := ⟨d - 1, by omega⟩
    rw [pgcd_get_constraint_collations] at hc
    simp only [hscan] at hc
    cases hc
  | some tup =>
    have hexpr : ∃ b, ∀ d, b ≤ d →
        pgcd_get_constraint_collations.expression (pgcd_query_expression_walker cat d)
          tup.conbin ≠ .error .stack_depth_limit_exceeded := by
      cases hcb : tup.conbin with
      | none => exact ⟨0, fun d _ he => by cases he⟩
      | some expr =>
        obtain ⟨b, hb⟩ := eventually_forall_mem
          (fun d root => ∀ l,
            pgcd_query_expression_walker cat d root l ≠ .error .stack_depth_limit_exceeded)
          (expression_roots expr)
          (fun root hroot => walker_ends cat root (fun kind children o hv ho =>
            h o ⟨tup, hscan, Or.inl ⟨expr, root, kind, children, hcb, hroot, hv, ho⟩⟩))
        refine ⟨b, fun d hd he => ?_⟩
        simp only [pgcd_get_constraint_collations.expression,
          pgcd_get_query_expression_collations_roots] at he
        obtain ⟨root, acc, hroot, hw⟩ := tree_walker_error _ _ _ _ he
        exact hb d hd root hroot acc hw
    have hkeys : ∃ b, ∀ d, b ≤ d → ∀ res,
        pgcd_get_constraint_collations.keys cat (pgcd_get_type_collations cat d) tup res
          ≠ .error .stack_depth_limit_exceeded := by
      cases hck : tup.conkey with
      | none =>
        refine ⟨0, fun d _ res hk => ?_⟩
        unfold pgcd_get_constraint_collations.keys at hk
        simp only [hck] at hk
        cases hk
      | some arr =>
        obtain ⟨b, hb⟩ := eventually_forall_mem
          (fun d conkey => ∀ res,
            pgcd_get_constraint_collations.body (pgcd_get_type_collations cat d)
              (rd_att cat tup.conrelid) res conkey ≠ .error .stack_depth_limit_exceeded)
          arr.elems
          (fun conkey hmem => constraint_body_ends cat tup.conrelid conkey
            (fun att hv ha =>
              h att.atttypid ⟨tup, hscan, Or.inr ⟨arr, conkey, att, hck, hmem, hv, ha, rfl⟩⟩))
        refine ⟨b, fun d hd res hk => ?_⟩
        unfold pgcd_get_constraint_collations.keys at hk
        simp only [hck] at hk
        cases ho : relation_open cat tup.conrelid with
        | error e =>
          simp only [ho, bind, Except.bind] at hk
          injection hk with hk
          subst hk
          unfold relation_open at ho
          split at ho
          · cases ho
          · cases ho
        | ok rel =>
          simp only [ho, bind, Except.bind] at hk
          split_ifs at hk
          · cases hk
          · obtain ⟨acc, conkey, hmem, hbody⟩ := foldlM_error _ _ _ _ hk
            exact hb d hd conkey hmem acc hbody
    obtain ⟨be, hbe⟩ := hexpr
    obtain ⟨bk, hbk⟩ := hkeys
    refine ⟨max be bk + 1, fun d hd hc => ?_⟩
    obtain ⟨d', rfl⟩ : ∃ d', d = d' + 1 := ⟨d - 1, by omega⟩
    have hd' : max be bk ≤ d' := Nat.le_of_succ_le_succ hd
    rw [pgcd_get_constraint_collations] at hc
    simp only [hscan] at hc
    cases he : pgcd_get_constraint_collations.expression
        (pgcd_query_expression_walker cat d') tup.conbin with
    | error e =>
      simp only [he, bind, Except.bind] at hc
      injection hc with hc
      subst hc
      exact hbe d' (le_trans (le_max_left _ _) hd') he
    | ok r =>
      simp only [he, bind, Except.bind] at hc
      exact hbk d' (le_trans (le_max_right _ _) hd') r hc

theorem rel_ends (cat : Catalog) (relid : Oid)
    (h : ∀ att ∈ scan_pg_attribute cat relid, ¬ att.attnum < 0 → ∃ b, ∀ d, b ≤ d →
      pgcd_get_type_collations cat d att.atttypid ≠ .error .stack_depth_limit_exceeded) :
    ∃ b, ∀ d, b ≤ d →
      pgcd_get_rel_collations cat d relid ≠ .error .stack_depth_limit_exceeded := by
  obtain ⟨b, hb⟩ := eventually_forall_mem
    (fun d (att : FormData_pg_attribute) => ¬ att.attnum < 0 →
      pgcd_get_type_collations cat d att.atttypid ≠ .error .stack_depth_limit_exceeded)
    (scan_pg_attribute cat relid)
    (fun att hatt => by
      by_cases hs : att.attnum < 0
      · exact ⟨0, fun _ _ hn => absurd hs hn⟩
      · obtain ⟨b, hb⟩ := h att hatt hs
        exact ⟨b, fun d hd _ => hb d hd⟩)
  refine ⟨b + 1, fun d hd hr => ?_⟩
  obtain ⟨d', rfl⟩ : ∃ d', d = d' + 1 := ⟨d - 1, by omega⟩
  have hd' : b ≤ d' := Nat.le_of_succ_le_succ hd
  rw [pgcd_get_rel_collations] at hr
  obtain ⟨acc, att, hatt, hstep⟩ := foldlM_error _ _ _ _ hr
  unfold pgcd_get_rel_collations.body at hstep
  split_ifs at hstep with hs
  · cases hstep
  · exact hb d' hd' att hatt hs (APPEND_TYPE_COLLS_error _ _ _ _ hstep)
  · exact hb d' hd' att hatt hs (APPEND_TYPE_COLLS_error _ _ _ _ hstep)

theorem range_ends (cat : Catalog) (rngid : Oid) (ismultirange : Bool)
    (h : ∀ pg_range, scan_pg_range cat rngid ismultirange = some pg_range →
      ∃ b, ∀ d, b ≤ d →
        pgcd_get_type_collations cat d pg_range.rngsubtype
          ≠ .error .stack_depth_limit_exceeded) :
    ∃ b, ∀ d, b ≤ d →
      pgcd_get_range_type_collations cat d rngid ismultirange
        ≠ .error .stack_depth_limit_exceeded := by
  cases hscan : scan_pg_range cat rngid ismultirange with
  | none =>
    refine ⟨1, fun d hd hr => ?_⟩
    obtain ⟨d', rfl⟩ : ∃ d', d = d' + 1 := ⟨d - 1, by omega⟩
    rw [pgcd_get_range_type_collations] at hr
    simp only [hscan] at hr
    cases hr
  | some pg_range =>
    obtain ⟨b, hb⟩ := h pg_range hscan
    refine ⟨b + 1, fun d hd hr => ?_⟩
    obtain ⟨d', rfl⟩ : ∃ d', d = d' + 1 := ⟨d - 1, by omega⟩
    have hd' : b ≤ d' := Nat.le_of_succ_le_succ hd
    rw [pgcd_get_range_type_collations] at hr
    simp only [hscan] at hr
    exact hb d' hd' (APPEND_TYPE_COLLS_error _ _ _ _ hr)

theorem type_ends_of_edges (cat : Catalog) (typid : Oid)
    (h : ∀ u, type_graph_edge cat typid u ∨ constraint_edge cat typid u →
      ∃ b, ∀ d, b ≤ d →
        pgcd_get_type_collations cat d u ≠ .error .stack_depth_limit_exceeded) :
    ∃ b, ∀ d, b ≤ d →
      pgcd_get_type_collations cat d typid ≠ .error .stack_depth_limit_exceeded := by
  cases hlook : SearchSysCache1_TYPEOID cat typid with
  | none =>
    refine ⟨1, fun d hd ht => ?_⟩
    obtain ⟨d', rfl⟩ : ∃ d', d = d' + 1 := ⟨d - 1, by omega⟩
    rw [pgcd_get_type_collations] at ht
    simp only [hlook] at ht
    cases ht
  | some typtup =>
    have hel : ∃ b, ∀ d, b ≤ d → OidIsValid typtup.typelem = true →
        pgcd_get_type_collations cat d typtup.typelem
          ≠ .error .stack_depth_limit_exceeded := by
      by_cases hv : OidIsValid typtup.typelem = true
      · obtain ⟨b, hb⟩ := h _ (Or.inl ⟨typtup, hlook, Or.inl ⟨hv, rfl⟩⟩)
        exact ⟨b, fun d hd _ => hb d hd⟩
      · exact ⟨0, fun _ _ hv' => absurd hv' hv⟩
    have hbase : ∃ b, ∀ d, b ≤ d → OidIsValid typtup.typbasetype = true →
        pgcd_get_type_collations cat d typtup.typbasetype
          ≠ .error .stack_depth_limit_exceeded := by
      by_cases hv : OidIsValid typtup.typbasetype = true
      · obtain ⟨b, hb⟩ := h _ (Or.inl ⟨typtup, hlook, Or.inr (Or.inl ⟨hv, rfl⟩)⟩)
        exact ⟨b, fun d hd _ => hb d hd⟩
      · exact ⟨0, fun _ _ hv' => absurd hv' hv⟩
    have hrel : ∃ b, ∀ d, b ≤ d → OidIsValid typtup.typrelid = true →
        pgcd_get_rel_collations cat d typtup.typrelid
          ≠ .error .stack_depth_limit_exceeded := by
      by_cases hv : OidIsValid typtup.typrelid = true
      · obtain ⟨b, hb⟩ := rel_ends cat typtup.typrelid (fun att hatt hs =>
          h _ (Or.inl ⟨typtup, hlook, Or.inr (Or.inr (Or.inl ⟨hv, att, hatt, hs, rfl⟩))⟩))
        exact ⟨b, fun d hd _ => hb d hd⟩
      · exact ⟨0, fun _ _ hv' => absurd hv' hv⟩
    have hrng : ∀ m, ∃ b, ∀ d, b ≤ d →
        pgcd_get_range_type_collations cat d typtup.oid m
          ≠ .error .stack_depth_limit_exceeded :=
      fun m => range_ends cat typtup.oid m (fun pg_range hscan =>
        h _ (Or.inl ⟨typtup, hlook, Or.inr (Or.inr (Or.inr ⟨m, pg_range, hscan, rfl⟩))⟩))
    have hcon : ∃ b, ∀ d, b ≤ d → ∀ e ∈ listConstraintDependents cat typid,
        pgcd_get_constraint_collations cat d e.objid
          ≠ .error .stack_depth_limit_exceeded :=
      eventually_forall_mem
        (fun d (e : FormData_pg_depend) =>
          pgcd_get_constraint_collations cat d e.objid ≠ .error .stack_depth_limit_exceeded)
        _ (fun e he => constraint_ends cat e.objid
          (fun u hu => h u (Or.inr ⟨e, he, hu⟩)))
    obtain ⟨b1, h1⟩ := hel
    obtain ⟨b2, h2⟩ := hbase
    obtain ⟨b3, h3⟩ := hrel
    obtain ⟨b4, h4⟩ := hrng true
    obtain ⟨b5, h5⟩ := hrng false
    obtain ⟨b6, h6⟩ := hcon
    refine ⟨b1 + b2 + b3 + b4 + b5 + b6 + 1, fun d hd ht => ?_⟩
    obtain ⟨d', rfl⟩ : ∃ d', d = d' + 1 := ⟨d - 1, by omega⟩
    rw [pgcd_get_type_collations] at ht
    simp only [hlook] at ht
    cases hp : pgcd_get_type_collations.primary cat.PG_VERSION_NUM
        (pgcd_get_type_collations cat d') (pgcd_get_rel_collations cat d')
        (pgcd_get_range_type_collations cat d') typtup with
    | error e =>
      simp only [hp, bind, Except.bind] at ht
      injection ht with ht
      subst ht
      unfold pgcd_get_type_collations.primary at hp
      split_ifs at hp with c1 c2 c3 c4 c5
      · cases hp
      · exact h1 d' (by omega) c2 hp
      · exact h2 d' (by omega) c3 hp
      · exact h3 d' (by omega) c4 hp
      · cases hm : (typtup.typtype != TYPTYPE_RANGE) with
        | true => rw [hm] at hp; exact h4 d' (by omega) hp
        | false => rw [hm] at hp; exact h5 d' (by omega) hp
      · cases hp
    | ok r =>
      simp only [hp, bind, Except.bind] at ht
      obtain ⟨acc, dep, hdep, hstep⟩ := foldlM_error _ _ _ _ ht
      unfold pgcd_get_type_collations.body at hstep
      split_ifs at hstep with hcls
      · cases hstep
      · have hmem : dep ∈ listConstraintDependents cat typid := by
          unfold listConstraintDependents
          refine List.mem_filter.2 ⟨hdep, ?_⟩
          simpa using hcls
        cases hc : pgcd_get_constraint_collations cat d' dep.objid with
        | error e =>
          simp only [hc, bind, Except.bind] at hstep
          injection hstep with hstep
          subst hstep
          exact h6 d' (by omega) dep hmem hc
        | ok r' =>
          simp only [hc, bind, Except.bind, pure, Except.pure] at hstep
          cases hstep

theorem type_ends (cat : Catalog) (h : ResolutionGraphAcyclic cat) (typid : Oid) :
    ∃ b, ∀ d, b ≤ d →
      pgcd_get_type_collations cat d typid ≠ .error .stack_depth_limit_exceeded := by
  obtain ⟨rank, hrank⟩ := h
  have key : ∀ n t, rank t < n → ∃ b, ∀ d, b ≤ d →
      pgcd_get_type_collations cat d t ≠ .error .stack_depth_limit_exceeded := by
    intro n
    induction n with
    | zero => intro t ht; exact absurd ht (Nat.not_lt_zero _)
    | succ n ih =>
      intro t ht
      exact type_ends_of_edges cat t (fun u hu =>
        ih u (Nat.lt_of_lt_of_le (hrank t u hu) (Nat.le_of_lt_succ ht)))
  exact key (rank typid + 1) typid (Nat.lt_succ_self _)

/-- C20, amended: when the graph that the recursion follows is acyclic, that
is the type graph together with the edges from a type to the types resolved
by the constraints that `pg_depend` attaches to it, the type resolver ends
on every type identifier: from some stack depth on it returns one and the
same outcome, a list or an error of the catalog, and never the error of the
stack depth guard. -/
theorem type_resolver_terminates (cat : Catalog) (h : ResolutionGraphAcyclic cat)
    (typid : Oid) :
    ∃ bound outcome, outcome ≠ .error .stack_depth_limit_exceeded ∧
      ∀ depth, bound ≤ depth → pgcd_get_type_collations cat depth typid = outcome := by
  obtain ⟨b, hb⟩ := type_ends cat h typid
  exact ⟨b, pgcd_get_type_collations cat b typid, hb b (Nat.le_refl b),
    fun depth hd => ends_alike_from (fun d => pgcd_get_type_collations cat d typid)
      (fun d => (resolvers_end_alike cat d).2.2.2.2 typid) b (hb b (Nat.le_refl b)) depth hd⟩


theorem fixture_domain_check_expr_types (kind : NodeKind) (children : List Node) (u : Oid)
    (hv : InVisitedTree fixture_domain_check_expr (Node.node kind children))
    (hu : u ∈ resolved_types kind) : u = BOOLOID ∨ u = TEXTOID := by
  unfold fixture_domain_check_expr at hv
  cases hv with
  | root =>
    simp only [resolved_types, List.mem_singleton] at hu
    exact Or.inl hu
  | child _ _ c _ hc ht =>
    simp only [visited_children, List.mem_cons, List.mem_singleton, List.not_mem_nil,
      or_false] at hc
    rcases hc with rfl | rfl
    · cases ht with
      | root =>
        simp only [resolved_types, List.mem_singleton] at hu
        exact Or.inr hu
      | child _ _ c _ hc ht =>
        simp only [visited_children, List.not_mem_nil] at hc
    · cases ht with
      | root =>
        simp only [resolved_types, List.not_mem_nil] at hu
      | child _ _ c _ hc ht =>
        simp only [visited_children, List.mem_singleton] at hc
        subst hc
        cases ht with
        | root =>
          simp only [resolved_types, List.mem_singleton] at hu
          exact Or.inr hu
        | child _ _ c _ hc ht =>
          simp only [visited_children, List.not_mem_nil] at hc

theorem fixture_domain_resolution_acyclic : ResolutionGraphAcyclic fixture_domain := by
  refine ⟨fun t => if t = 16700 then 1 else 0, ?_⟩
  rintro t u (⟨typtup, hlook, hedge⟩ | ⟨e, he, tup, hscan, hcon⟩)
  · have hmem := List.mem_of_find?_eq_some hlook
    have ht := List.find?_some hlook
    simp only [fixture_domain, List.mem_cons, List.mem_singleton, List.not_mem_nil,
      or_false] at hmem
    rcases hmem with rfl | rfl | rfl | rfl
    · rcases hedge with ⟨h, _⟩ | ⟨h, _⟩ | ⟨h, _⟩ | ⟨m, r, h, _⟩
      · cases h
      · cases h
      · cases h
      · cases m <;> cases h
    · rcases hedge with ⟨h, _⟩ | ⟨h, _⟩ | ⟨h, _⟩ | ⟨m, r, h, _⟩
      · cases h
      · cases h
      · cases h
      · cases m <;> cases h
    · rcases hedge with ⟨h, _⟩ | ⟨h, _⟩ | ⟨h, _⟩ | ⟨m, r, h, _⟩
      · cases h
      · cases h
      · cases h
      · cases m <;> cases h
    · rcases hedge with ⟨h, _⟩ | ⟨_, hu⟩ | ⟨h, _⟩ | ⟨m, r, h, _⟩
      · cases h
      · have ht' : (16700 : Oid) = t := by simpa using ht
        subst ht' hu
        decide
      · cases h
      · cases m <;> cases h
  · unfold listConstraintDependents scan_pg_depend at he
    obtain ⟨he1, hcls⟩ := List.mem_filter.1 he
    obtain ⟨he2, href⟩ := List.mem_filter.1 he1
    simp only [fixture_domain, List.mem_cons, List.mem_singleton, List.not_mem_nil,
      or_false] at he2
    rcases he2 with rfl | rfl
    · have ht' : (16700 : Oid) = t := by simpa using href
      subst ht'
      have hs : scan_pg_constraint fixture_domain 16701 = some
          { oid := 16701, conrelid := 0, conbin := some fixture_domain_check_expr,
            conkey := none } := rfl
      simp only [hs] at hscan
      injection hscan with hscan
      subst hscan
      rcases hcon with ⟨expr, root, kind, children, hcb, hroot, hv, hu⟩ |
        ⟨arr, conkey, att, hck, _⟩
      · injection hcb with hcb
        subst hcb
        have hr : root = fixture_domain_check_expr := by
          simpa [expression_roots, fixture_domain_check_expr] using hroot
        subst hr
        rcases fixture_domain_check_expr_types kind children u hv hu with rfl | rfl
        · decide
        · decide
      · cases hck
    · cases hcls

/-- Witness of C20: the resolution graph of `fixture_domain` is acyclic, and
the type resolver ends on its domain `16700`, whose resolution goes through
the check constraint of the domain. -/
theorem type_resolver_terminates_witness :
    ResolutionGraphAcyclic fixture_domain ∧
    ∃ bound outcome, outcome ≠ .error .stack_depth_limit_exceeded ∧
      ∀ depth, bound ≤ depth →
        pgcd_get_type_collations fixture_domain depth 16700 = outcome :=
  ⟨fixture_domain_resolution_acyclic,
    type_resolver_terminates fixture_domain fixture_domain_resolution_acyclic 16700⟩


/-! ## The domain coercion case of the walker -/

theorem walker_coerce_to_domain (cat : Catalog) (depth : Nat) (resultcollid resulttype : Oid)
    (l r : List Oid)
    (hty : pgcd_get_type_collations cat depth resulttype = .ok r) :
    walker_switch cat.PG_VERSION_NUM (pgcd_get_type_collations cat depth) l
      (NodeKind.T_CoerceToDomain resultcollid resulttype)
      = .ok (if OidIsValid resultcollid = true then l ++ [resultcollid] ++ r else l ++ r) := by
  simp only [walker_switch, APPEND_TYPE_COLLS, APPEND_COLL, hty, bind, Except.bind, pure,
    Except.pure]
  split_ifs <;> rfl

/-- C21: on a domain coercion node whose result type resolves to `r`, the
switch of the walker appends to the collector the result collation of the
node, if it is valid, and then `r`. When the coerced argument, the first
child, is a bare variable or a literal, the walker returns that collector
as it is: the argument is not visited and nothing of it is appended. When
the argument is a node of any other kind, the walker goes on with the visit
of the children from that collector, and the walker is invoked on the
argument with it. -/
theorem domain_coercion_short_circuit (cat : Catalog) (depth : Nat)
    (resultcollid resulttype : Oid) (l r : List Oid)
    (hty : pgcd_get_type_collations cat depth resulttype = .ok r) :
    (∀ kind children rest, (kind.isConst || kind.isVar) = true →
      pgcd_query_expression_walker cat (depth + 1)
        (Node.node (NodeKind.T_CoerceToDomain resultcollid resulttype)
          (Node.node kind children :: rest)) l
        = .ok (if OidIsValid resultcollid = true then l ++ [resultcollid] ++ r else l ++ r)) ∧
    (∀ kind children rest, (kind.isConst || kind.isVar) = false →
      pgcd_query_expression_walker cat (depth + 1)
        (Node.node (NodeKind.T_CoerceToDomain resultcollid resulttype)
          (Node.node kind children :: rest)) l
        = tree_walker (pgcd_query_expression_walker cat depth)
            (Node.node kind children :: rest)
            (if OidIsValid resultcollid = true then l ++ [resultcollid] ++ r else l ++ r) ∧
      Invokes cat
        (.walker (depth + 1)
          (Node.node (NodeKind.T_CoerceToDomain resultcollid resulttype)
            (Node.node kind children :: rest)) l)
        (.walker depth (Node.node kind children)
          (if OidIsValid resultcollid = true then l ++ [resultcollid] ++ r else l ++ r))) := by
  have hs := walker_coerce_to_domain cat depth resultcollid resulttype l r hty
  refine ⟨?_, ?_⟩
  · intro kind children rest hk
    rw [pgcd_query_expression_walker]
    simp only [hs, bind, Except.bind, coerce_arg_is_scalar_reference, pure, Except.pure, hk,
      if_true]
  · intro kind children rest hk
    refine ⟨?_, ?_⟩
    · rw [pgcd_query_expression_walker]
      simp only [hs, bind, Except.bind, coerce_arg_is_scalar_reference, pure, Except.pure, hk,
        Bool.false_eq_true, if_false]
    · refine Invokes.walker_child depth _ _ l [] rest _ _ _ hs ?_ rfl
      simp only [visited_children, coerce_arg_is_scalar_reference, pure, Except.pure, hk,
        List.nil_append]


/-- Witness of C21: in `fixture_domain` the domain `16700` resolves to the
collations of `text` and of its check constraint. A coercion to it of a
bare variable declared with the collation `951` returns the collector with
the result collation `100` and the collations of the domain, without `951`;
a coercion of a collate clause over the variable also visits the clause and
the variable. -/
theorem domain_coercion_short_circuit_witness :
    pgcd_get_type_collations fixture_domain 6 16700
      = .ok [100, 950, 100, 100, 950, 100, 100] ∧
    pgcd_query_expression_walker fixture_domain 7
      (Node.node (NodeKind.T_CoerceToDomain 100 16700)
        [Node.node (NodeKind.T_Var 951 TEXTOID) []]) [7]
      = .ok [7, 100, 100, 950, 100, 100, 950, 100, 100] ∧
    pgcd_query_expression_walker fixture_domain 7
      (Node.node (NodeKind.T_CoerceToDomain 100 16700)
        [Node.node (NodeKind.T_CollateExpr 951) [Node.node (NodeKind.T_Var 950 TEXTOID) []]]) [7]
      = .ok [7, 100, 100, 950, 100, 100, 950, 100, 100, 951, 950, 100] :=
  ⟨rfl,
    (domain_coercion_short_circuit fixture_domain 6 100 16700 [7]
      [100, 950, 100, 100, 950, 100, 100] rfl).1 (NodeKind.T_Var 951 TEXTOID) [] [] rfl,
    (((domain_coercion_short_circuit fixture_domain 6 100 16700 [7]
      [100, 950, 100, 100, 950, 100, 100] rfl).2 (NodeKind.T_CollateExpr 951)
      [Node.node (NodeKind.T_Var 950 TEXTOID) []] [] rfl).1).trans rfl⟩


/-! ## The function, operator and subscript cases of the walker -/

/-- C22, evaluation of the source: on a function call, an operator call, a
distinct and a null-if node the switch of the walker appends the result
collation and the input collation, each when valid, and then the collations
that the type resolver returns for the result type. On an array subscript
node it does not: it passes the container type, the element type and the
result type to `APPEND_COLL`, so that these type identifiers are appended
as if they were collations, and the type resolver is not called. In
`fixture_subscript` the result type of the subscript, the domain `17500`,
resolves to a list with the collation `951` of its check constraint, and
the dependencies computed for the check constraint `17511` of the table
are `950` and the type identifiers `17500` and `17501`, without `951`. -/
theorem subscript_appends_type_identifiers :
    (∀ v tc l resultcollid inputcollid resulttype,
      walker_switch v tc l (NodeKind.T_FuncExpr resultcollid inputcollid resulttype)
        = (tc resulttype).map
            (fun r => APPEND_COLL (APPEND_COLL l resultcollid) inputcollid ++ r) ∧
      walker_switch v tc l (NodeKind.T_OpExpr resultcollid inputcollid resulttype)
        = (tc resulttype).map
            (fun r => APPEND_COLL (APPEND_COLL l resultcollid) inputcollid ++ r) ∧
      walker_switch v tc l (NodeKind.T_DistinctExpr resultcollid inputcollid resulttype)
        = (tc resulttype).map
            (fun r => APPEND_COLL (APPEND_COLL l resultcollid) inputcollid ++ r) ∧
      walker_switch v tc l (NodeKind.T_NullIfExpr resultcollid inputcollid resulttype)
        = (tc resulttype).map
            (fun r => APPEND_COLL (APPEND_COLL l resultcollid) inputcollid ++ r)) ∧
    (∀ v tc l refcollid refcontainertype refelemtype refrestype,
      walker_switch v tc l
          (NodeKind.T_SubscriptingRef refcollid refcontainertype refelemtype refrestype)
        = if v ≥ 140000 then
            .ok (APPEND_COLL (APPEND_COLL (APPEND_COLL (APPEND_COLL l refcollid)
              refcontainertype) refelemtype) refrestype)
          else if v ≥ 120000 then
            .ok (APPEND_COLL (APPEND_COLL (APPEND_COLL l refcollid) refcontainertype)
              refelemtype)
          else .error .unexpected_node_type) ∧
    (∀ depth, pgcd_get_type_collations fixture_subscript (depth + 6) 17500
      = .ok [950, 951, 950, 100, 951, 100, 100]) ∧
    (∀ depth l, pgcd_query_expression_walker fixture_subscript (depth + 1)
        (Node.node (NodeKind.T_SubscriptingRef 950 17501 17500 17500) []) l
      = .ok (l ++ [950, 17501, 17500, 17500])) ∧
    (∀ depth, pg_collation_constraint_dependencies fixture_subscript (depth + 5) 17511
      = .ok [950, 17500, 17501]) := by
  refine ⟨?_, ?_, fun _ => rfl, fun depth l => ?_, fun _ => rfl⟩
  · intro v tc l resultcollid inputcollid resulttype
    refine ⟨?_, ?_, ?_, ?_⟩ <;>
    · simp only [walker_switch, APPEND_TYPE_COLLS]
      cases tc resulttype <;> rfl
  · intro v tc l refcollid refcontainertype refelemtype refrestype
    simp only [walker_switch]
    split_ifs <;> first | rfl | omega
  · rw [pgcd_query_expression_walker]
    have hs : walker_switch fixture_subscript.PG_VERSION_NUM
        (pgcd_get_type_collations fixture_subscript depth) l
        (NodeKind.T_SubscriptingRef 950 17501 17500 17500)
        = .ok ((((l ++ [950]) ++ [17501]) ++ [17500]) ++ [17500]) := rfl
    simp only [hs, bind, Except.bind, tree_walker, List.foldlM, pure, Except.pure,
      List.append_assoc, List.singleton_append, List.cons_append, List.nil_append]


/-! ## Collations nested in a tree -/

theorem declared_subset_appended (v : Nat) (kind : NodeKind) :
    ∀ c ∈ declared_collations kind, c ∈ appended_collations v kind := by
  cases kind <;> intro c hc <;>
    simp only [declared_collations, appended_collations, List.not_mem_nil] at hc ⊢
  case T_SubscriptingRef =>
    rw [List.mem_singleton.1 hc]
    split_ifs <;> exact List.mem_cons_self _ _
  all_goals exact hc

theorem foldl_APPEND_COLL_mem (os l : List Oid) (c : Oid) (hc : c ∈ os)
    (hvalid : OidIsValid c = true) : c ∈ os.foldl APPEND_COLL l := by
  induction os generalizing l with
  | nil => cases hc
  | cons o t ih =>
    rcases List.mem_cons.1 hc with rfl | hc
    · refine foldl_APPEND_COLL_grows t _ c ?_
      unfold APPEND_COLL
      rw [if_pos hvalid]
      exact List.mem_append_right _ (List.mem_singleton.2 rfl)
    · exact ih _ hc

theorem walker_declared (cat : Catalog) (depth : Nat) (kind : NodeKind)
    (children : List Node) (l r : List Oid)
    (h : pgcd_query_expression_walker cat depth (Node.node kind children) l = .ok r)
    (c : Oid) (hc : c ∈ declared_collations kind) (hvalid : OidIsValid c = true) : c ∈ r := by
  cases depth with
  | zero => rw [pgcd_query_expression_walker] at h; cases h
  | succ d =>
    obtain ⟨c1, hs, ht⟩ := walker_succ_ok cat d kind children l r h
    refine tree_walker_grows cat d _ c1 r ht c ?_
    rw [walker_switch_normal_form] at hs
    split_ifs at hs
    exact foldlM_grows _ (APPEND_TYPE_COLLS_grows _) _ _ c1 hs c
      (foldl_APPEND_COLL_mem _ l c (declared_subset_appended _ kind c hc) hvalid)

theorem walker_coerce_test (cat : Catalog) (depth : Nat) (resultcollid resulttype : Oid)
    (children : List Node) (l r : List Oid)
    (h : pgcd_query_expression_walker cat (depth + 1)
      (Node.node (NodeKind.T_CoerceToDomain resultcollid resulttype) children) l = .ok r) :
    ∃ b, coerce_arg_is_scalar_reference children = .ok b := by
  rw [pgcd_query_expression_walker] at h
  cases hs : walker_switch cat.PG_VERSION_NUM (pgcd_get_type_collations cat depth) l
      (NodeKind.T_CoerceToDomain resultcollid resulttype) with
  | error e => simp only [hs, bind, Except.bind] at h; cases h
  | ok c1 =>
    simp only [hs, bind, Except.bind] at h
    cases hb : coerce_arg_is_scalar_reference children with
    | error e => simp only [hb] at h; cases h
    | ok b => exact ⟨b, rfl⟩

theorem in_tree_visited (cat : Catalog) (root target : Node) (hin : InTree root target) :
    ∀ depth l r, pgcd_query_expression_walker cat depth root l = .ok r →
      (∀ resultcollid resulttype kind children rest,
        InTree root (Node.node (NodeKind.T_CoerceToDomain resultcollid resulttype)
          (Node.node kind children :: rest)) →
        (kind.isConst || kind.isVar) = false) →
      InVisitedTree root target := by
  induction hin with
  | root node => exact fun _ _ _ _ _ => InVisitedTree.root node
  | child kind children c target hc _ ih =>
    intro depth l r h hno
    cases depth with
    | zero => rw [pgcd_query_expression_walker] at h; cases h
    | succ d =>
      have hvc : c ∈ visited_children kind children := by
        unfold visited_children
        split
        · rename_i rc rt
          obtain ⟨b, hb⟩ := walker_coerce_test cat d rc rt children l r h
          cases b with
          | false => rw [hb]; exact hc
          | true =>
            exfalso
            unfold coerce_arg_is_scalar_reference at hb
            split at hb
            · rename_i k ch rest
              simp only [pure, Except.pure] at hb
              injection hb with hb
              have := hno rc rt k ch rest (InTree.root _)
              rw [this] at hb
              cases hb
            · cases hb
        · exact hc
      obtain ⟨c1, _, ht⟩ := walker_succ_ok cat d kind children l r h
      obtain ⟨pre, post, hsplit⟩ := mem_split_list _ c hvc
      rw [hsplit] at ht
      obtain ⟨acc, acc', _, hx, _⟩ := foldlM_split_ok _ pre post c c1 r ht
      exact InVisitedTree.child kind children c target hvc
        (ih d acc acc' hx (fun rc rt k ch rest hin' =>
          hno rc rt k ch rest (InTree.child kind children c _ hc hin')))

theorem expression_collations_as_walk (cat : Catalog) (depth : Nat) (root : Node)
    (r : List Oid)
    (h : pgcd_get_query_expression_collations (pgcd_query_expression_walker cat depth) root
      = .ok r) :
    ∃ depth', pgcd_query_expression_walker cat depth' root [] = .ok r := by
  unfold pgcd_get_query_expression_collations at h
  split at h
  · rename_i children
    refine ⟨depth + 1, ?_⟩
    rw [pgcd_query_expression_walker]
    exact h
  · exact ⟨depth, h⟩

/-- C23: when the walk of a tree succeeds, from the walker or from
`pgcd_get_query_expression_collations`, and no domain coercion of the tree
has a bare variable or a literal as its argument, every valid collation
declared on a node of the tree, at any depth, is a member of the collector
that the walk returns. -/
theorem nested_collations_are_collected (cat : Catalog) (depth : Nat) (root : Node)
    (l r : List Oid)
    (h : pgcd_query_expression_walker cat depth root l = .ok r ∨
      pgcd_get_query_expression_collations (pgcd_query_expression_walker cat depth) root
        = .ok r)
    (hno : ∀ resultcollid resulttype kind children rest,
      InTree root (Node.node (NodeKind.T_CoerceToDomain resultcollid resulttype)
        (Node.node kind children :: rest)) →
      (kind.isConst || kind.isVar) = false)
    (kind : NodeKind) (children : List Node) (hin : InTree root (Node.node kind children))
    (c : Oid) (hc : c ∈ declared_collations kind) (hvalid : OidIsValid c = true) :
    c ∈ r := by
  have key : ∀ depth l, pgcd_query_expression_walker cat depth root l = .ok r → c ∈ r := by
    intro depth l hw
    have hv := in_tree_visited cat root _ hin depth l r hw hno
    obtain ⟨depth', l', hreach⟩ := visited_reaches cat root _ hv depth l r hw
    obtain ⟨rb, hrb, hle⟩ := reaches_ok cat _ _ hreach r hw
    exact hle c (walker_declared cat depth' kind children l' rb hrb c hc hvalid)
  rcases h with h | h
  · exact key depth l h
  · obtain ⟨depth', h'⟩ := expression_collations_as_walk cat depth root r h
    exact key depth' [] h'

theorem inTree_node_iff (kind : NodeKind) (children : List Node) (target : Node) :
    InTree (Node.node kind children) target ↔
      target = Node.node kind children ∨ ∃ c ∈ children, InTree c target := by
  constructor
  · intro h
    cases h with
    | root => exact Or.inl rfl
    | child _ _ c _ hc ht => exact Or.inr ⟨c, hc, ht⟩
  · rintro (rfl | ⟨c, hc, ht⟩)
    · exact InTree.root _
    · exact InTree.child kind children c target hc ht

theorem fixture_nested_expr_no_short_circuit (resultcollid resulttype : Oid)
    (kind : NodeKind) (children rest : List Node)
    (hin : InTree fixture_nested_expr
      (Node.node (NodeKind.T_CoerceToDomain resultcollid resulttype)
        (Node.node kind children :: rest))) :
    (kind.isConst || kind.isVar) = false := by
  unfold fixture_nested_expr at hin
  simp only [inTree_node_iff, List.mem_cons, List.mem_singleton, List.not_mem_nil,
    or_false, exists_eq_left, false_and, exists_false, Node.node.injEq, List.cons.injEq,
    reduceCtorEq, and_false, false_or, and_true] at hin
  obtain ⟨_, ⟨hk, _⟩, _⟩ := hin
  rw [hk]
  rfl

/-- Witness of C23: in the walk of `fixture_nested_expr` over
`fixture_domain`, the result collation `951` of the function call under the
domain coercion is collected. -/
theorem nested_collations_are_collected_witness :
    pgcd_query_expression_walker fixture_domain 8 fixture_nested_expr []
      = .ok [950, 100, 100, 950, 100, 100, 950, 100, 100, 951, 952, 100, 100, 100] ∧
    951 ∈ [950, 100, 100, 950, 100, 100, 950, 100, 100, 951, 952, 100, 100, 100] :=
  ⟨rfl, nested_collations_are_collected fixture_domain 8 fixture_nested_expr [] _ (Or.inl rfl)
    fixture_nested_expr_no_short_circuit (NodeKind.T_FuncExpr 951 952 TEXTOID)
    [Node.node (NodeKind.T_Var 100 TEXTOID) []]
    (InTree.child _ _ _ _ (List.mem_singleton.2 rfl)
      (InTree.child _ _ _ _ (List.mem_singleton.2 rfl) (InTree.root _)))
    951 (List.mem_cons_self _ _) rfl⟩


/-! ## The relation resolver as a concatenation -/

theorem rel_body_as_contribution (tc : Oid → Except PgError (List Oid))
    (res : List Oid) (pg_att : FormData_pg_attribute) :
    pgcd_get_rel_collations.body tc res pg_att
      = (attribute_contribution tc pg_att).map (fun r => res ++ r) := by
  unfold pgcd_get_rel_collations.body attribute_contribution
  by_cases hs : pg_att.attnum < 0
  · simp only [hs, if_true, pure, Except.pure, Except.map, List.append_nil]
  · simp only [hs, if_false, APPEND_TYPE_COLLS]
    cases tc pg_att.atttypid with
    | error e => rfl
    | ok r =>
      simp only [bind, Except.bind, pure, Except.pure, Except.map]
      split_ifs <;> simp only [List.append_assoc, List.nil_append]

theorem rel_fold_as_concatenation (tc : Oid → Except PgError (List Oid))
    (atts : List FormData_pg_attribute) (init : List Oid) :
    atts.foldlM (pgcd_get_rel_collations.body tc) init
      = (rel_collations_spec tc atts).map (fun r => init ++ r) := by
  induction atts generalizing init with
  | nil =>
    simp only [List.foldlM, rel_collations_spec, List.mapM_nil, pure, Except.pure, bind,
      Except.bind, Except.map, List.flatten, List.append_nil]
  | cons a t ih =>
    rw [List.foldlM_cons, rel_body_as_contribution]
    simp only [ih]
    unfold rel_collations_spec
    rw [List.mapM_cons]
    cases attribute_contribution tc a with
    | error e => rfl
    | ok p =>
      cases List.mapM (attribute_contribution tc) t with
      | error e => rfl
      | ok ps =>
        simp only [Except.map, bind, Except.bind, pure, Except.pure, List.flatten_cons,
          List.append_assoc]

/-- C24: the result of the relation resolver is the concatenation of the
contributions of the attribute records of the relation, taken in the
order of their positions: nothing for a system column and, for any other
attribute, its explicit collation if valid followed by the result of the
type resolver for its type, resolved whether or not there is an explicit
collation; the failure of a type resolution is the failure of the
resolver. The records are those of the relation, in ascending position. -/
theorem rel_collations_concatenation (cat : Catalog) (depth : Nat) (relid : Oid) :
    pgcd_get_rel_collations cat (depth + 1) relid
      = rel_collations_spec (pgcd_get_type_collations cat depth) (scan_pg_attribute cat relid) ∧
    (scan_pg_attribute cat relid).Sorted (fun a b => a.attnum ≤ b.attnum) ∧
    (scan_pg_attribute cat relid).Perm
      (cat.pg_attribute.filter (fun a => a.attrelid == relid)) := by
  refine ⟨?_, ?_, ?_⟩
  · rw [pgcd_get_rel_collations, rel_fold_as_concatenation]
    cases rel_collations_spec (pgcd_get_type_collations cat depth)
        (scan_pg_attribute cat relid) with
    | error e => rfl
    | ok r => simp only [Except.map, List.nil_append]
  · haveI : IsTotal FormData_pg_attribute (fun a b => a.attnum ≤ b.attnum) :=
      ⟨fun a b => le_total a.attnum b.attnum⟩
    haveI : IsTrans FormData_pg_attribute (fun a b => a.attnum ≤ b.attnum) :=
      ⟨fun a b c hab hbc => le_trans hab hbc⟩
    exact List.sorted_insertionSort _ _
  · exact List.perm_insertionSort _ _


/-! ## The positions of the key attributes -/

theorem int16_to_Oid_of_pos (k : Int) (h1 : 1 ≤ k) (h2 : k ≤ 32767) :
    int16_to_Oid k = k.toNat := by
  unfold int16_to_Oid
  rw [Int.emod_eq_of_lt (by omega) (by omega)]

theorem int16_to_Oid_of_neg (k : Int) (h1 : -32768 ≤ k) (h2 : k < 0) :
    4294934528 ≤ int16_to_Oid k := by
  unfold int16_to_Oid
  have h : k % 4294967296 = k + 4294967296 := by omega
  rw [h]
  have hc : ((k + 4294967296).toNat : Int) = k + 4294967296 :=
    Int.toNat_of_nonneg (by omega)
  show (4294934528 : Nat) ≤ (k + 4294967296).toNat
  omega

theorem TupleDescAttr_in_bounds (tupdesc : List FormData_pg_attribute) (i : Nat)
    (h : i < tupdesc.length) :
    ∃ att, tupdesc.get? i = some att ∧ TupleDescAttr tupdesc i = .ok att := by
  refine ⟨tupdesc.get ⟨i, h⟩, List.get?_eq_get h, ?_⟩
  unfold TupleDescAttr
  rw [List.get?_eq_get h]

theorem TupleDescAttr_out_of_bounds (tupdesc : List FormData_pg_attribute) (i : Nat)
    (h : tupdesc.length ≤ i) : TupleDescAttr tupdesc i = .error .read_outside_array := by
  unfold TupleDescAttr
  rw [List.get?_eq_none.2 h]

theorem constraint_body_in_bounds (tc : Oid → Except PgError (List Oid))
    (tupdesc : List FormData_pg_attribute) (res : List Oid) (k : Int)
    (att : FormData_pg_attribute) (hk : 1 ≤ k) (hk' : k ≤ 32767)
    (hatt : TupleDescAttr tupdesc (int16_to_Oid k - 1) = .ok att) :
    pgcd_get_constraint_collations.body tc tupdesc res k
      = APPEND_TYPE_COLLS tc res att.atttypid := by
  unfold pgcd_get_constraint_collations.body
  have hv : AttributeNumberIsValid (int16_to_Oid k) = true := by
    rw [int16_to_Oid_of_pos k hk hk']
    unfold AttributeNumberIsValid
    simp only [bne_iff_ne, ne_eq]
    omega
  simp only [hv, Bool.not_true, Bool.false_eq_true, if_false, hatt, bind, Except.bind]

theorem constraint_keys_error_in_bounds (cat : Catalog)
    (tc : Oid → Except PgError (List Oid)) (tup : FormData_pg_constraint) (arr : ArrayType)
    (hkey : tup.conkey = some arr)
    (hlook : ∀ k ∈ arr.elems, 1 ≤ k ∧ k ≤ 32767 ∧ ∃ att,
      TupleDescAttr (rd_att cat tup.conrelid) (int16_to_Oid k - 1) = .ok att)
    (res : List Oid) (e : PgError)
    (h : pgcd_get_constraint_collations.keys cat tc tup res = .error e) :
    e = .could_not_open_relation tup.conrelid ∨
    e = .conkey_is_not_a_1D_smallint_array ∨ ∃ o, tc o = .error e := by
  unfold pgcd_get_constraint_collations.keys at h
  simp only [hkey] at h
  cases ho : relation_open cat tup.conrelid with
  | error e' =>
    simp only [ho, bind, Except.bind] at h
    injection h with h
    subst h
    unfold relation_open at ho
    split at ho
    · cases ho
    · injection ho with ho
      exact Or.inl ho.symm
  | ok rel =>
    simp only [ho, bind, Except.bind] at h
    split_ifs at h
    · injection h with h
      exact Or.inr (Or.inl h.symm)
    · obtain ⟨acc, k, hk, hbody⟩ := foldlM_error _ _ _ _ h
      obtain ⟨h1, h2, att, hatt⟩ := hlook k hk
      rw [constraint_body_in_bounds tc _ acc k att h1 h2 hatt] at hbody
      exact Or.inr (Or.inr ⟨_, APPEND_TYPE_COLLS_error tc _ _ e hbody⟩)

/-- C25: for an existing constraint with a key list, whose elements are
16 bit values, when every key position lies between 1 and the number of
attributes of the owning relation, the lookup of each key attribute, at the
position minus one in the attribute array of the relation, is in bounds and
returns the attribute there, so that the step of the loop is the resolution
of the type of that attribute; the constraint resolver then fails only when
its expression part fails, when the relation cannot be opened, when the key
list is not a one dimensional `smallint` array, or when a type resolution
fails, never on the lookup. A negative 16 bit value converted to the
unsigned identifier type is at least `4294934528`: with the number of
attributes a C `int`, it is not between 1 and the number of attributes, and
the lookup reads outside the array. -/
theorem key_positions_in_bounds (cat : Catalog) (conid : Oid)
    (tup : FormData_pg_constraint) (arr : ArrayType)
    (hscan : scan_pg_constraint cat conid = some tup) (hkey : tup.conkey = some arr)
    (hint16 : ∀ k ∈ arr.elems, -32768 ≤ k ∧ k ≤ 32767)
    (hrange : ∀ k ∈ arr.elems, 1 ≤ k ∧ k ≤ ((rd_att cat tup.conrelid).length : Int)) :
    (∀ k ∈ arr.elems, ∃ att,
      (rd_att cat tup.conrelid).get? (k.toNat - 1) = some att ∧
      TupleDescAttr (rd_att cat tup.conrelid) (int16_to_Oid k - 1) = .ok att ∧
      ∀ tc res, pgcd_get_constraint_collations.body tc (rd_att cat tup.conrelid) res k
        = APPEND_TYPE_COLLS tc res att.atttypid) ∧
    (∀ depth e, pgcd_get_constraint_collations cat (depth + 1) conid = .error e →
      pgcd_get_constraint_collations.expression (pgcd_query_expression_walker cat depth)
        tup.conbin = .error e ∨
      e = .could_not_open_relation tup.conrelid ∨
      e = .conkey_is_not_a_1D_smallint_array ∨
      ∃ o, pgcd_get_type_collations cat depth o = .error e) ∧
    (∀ k : Int, -32768 ≤ k → k < 0 → (rd_att cat tup.conrelid).length ≤ 2147483647 →
      ¬ (1 ≤ int16_to_Oid k ∧ int16_to_Oid k ≤ (rd_att cat tup.conrelid).length) ∧
      TupleDescAttr (rd_att cat tup.conrelid) (int16_to_Oid k - 1)
        = .error .read_outside_array) := by
  have hlook : ∀ k ∈ arr.elems, ∃ att,
      (rd_att cat tup.conrelid).get? (k.toNat - 1) = some att ∧
      TupleDescAttr (rd_att cat tup.conrelid) (int16_to_Oid k - 1) = .ok att := by
    intro k hk
    obtain ⟨h1, h2⟩ := hrange k hk
    obtain ⟨_, h3⟩ := hint16 k hk
    rw [int16_to_Oid_of_pos k h1 h3]
    exact TupleDescAttr_in_bounds _ _ (by omega)
  refine ⟨?_, ?_, ?_⟩
  · intro k hk
    obtain ⟨att, hget, hatt⟩ := hlook k hk
    exact ⟨att, hget, hatt, fun tc res =>
      constraint_body_in_bounds tc _ res k att (hrange k hk).1 (hint16 k hk).2 hatt⟩
  · intro depth e h
    rw [pgcd_get_constraint_collations] at h
    simp only [hscan] at h
    cases he : pgcd_get_constraint_collations.expression
        (pgcd_query_expression_walker cat depth) tup.conbin with
    | error e' =>
      simp only [he, bind, Except.bind] at h
      injection h with h
      subst h
      exact Or.inl rfl
    | ok r =>
      simp only [he, bind, Except.bind] at h
      exact Or.inr (constraint_keys_error_in_bounds cat _ tup arr hkey
        (fun k hk => ⟨(hrange k hk).1, (hint16 k hk).2,
          (hlook k hk).imp (fun _ hatt => hatt.2)⟩) r e h)
  · intro k h1 h2 hn
    have hbig := int16_to_Oid_of_neg k h1 h2
    refine ⟨fun hin => ?_, TupleDescAttr_out_of_bounds _ _ ?_⟩
    · exact absurd (Nat.le_trans hbig (Nat.le_trans hin.2 hn)) (by decide)
    · exact Nat.le_trans hn
        (Nat.le_sub_one_of_lt (Nat.lt_of_lt_of_le (by decide) hbig))

/-- Witness of C25: the constraint `16401` of `fixture_keyed`, keyed on the
position `1` of a relation with one attribute. -/
theorem key_positions_in_bounds_witness :
    (∀ k ∈ [(1 : Int)], ∃ att,
      (rd_att fixture_keyed 16400).get? (k.toNat - 1) = some att ∧
      TupleDescAttr (rd_att fixture_keyed 16400) (int16_to_Oid k - 1) = .ok att ∧
      ∀ tc res, pgcd_get_constraint_collations.body tc (rd_att fixture_keyed 16400) res k
        = APPEND_TYPE_COLLS tc res att.atttypid) ∧
    int16_to_Oid (-1) = 4294967295 ∧
    TupleDescAttr (rd_att fixture_keyed 16400) (int16_to_Oid (-1) - 1)
      = .error .read_outside_array :=
  have h := key_positions_in_bounds fixture_keyed 16401
    { oid := 16401, conrelid := 16400, conbin := none,
      conkey := some { ndim := 1, hasnull := false, elemtype := INT2OID, elems := [1] } }
    { ndim := 1, hasnull := false, elemtype := INT2OID, elems := [1] } rfl rfl
    (by decide) (by decide)
  ⟨h.1, by decide, (h.2.2 (-1) (by decide) (by decide) (by decide)).2⟩

end PgCollationDependencies
